import Mathlib

/-!
Verification of the fireworks particle core (`src/js/fireworks-core.js`).

The development is a shallow embedding of the core:
* the color model (hex palette, HSL round trips, interpolation) is embedded
  over `ℚ` — the JavaScript source only performs rational arithmetic there —
  so every color computation is executable and decidable;
* the particle simulation (pools, burst geometry, integrator) is embedded
  over `ℝ`, with JavaScript `Math.random()` modelled as an ambient stream
  `rng : ℕ → ℝ` of draws (hypotheses `0 ≤ rng k < 1` where a claim needs
  them) and an index threaded through the state.

JavaScript `Math.round` is `⌊x + 1/2⌋`; `Math.floor` is `⌊x⌋`; a
`for (i = 0; i < bound; i++)` loop over a real `bound` runs `⌈bound⌉₊`
times; `x % y` on the reached domains coincides with the definitions used
below.  Render-only fields of a particle (`colorVariation`,
`flameGradient`, `colorEvolution`, `baseColor`, `depthLayer`,
`intensityMultiplier`, `drawWidth`) are set once by the source and never
read by any operation modelled here (they are consumed by the excluded
renderer), so they are omitted from the particle records; the extra
`Math.random()` draws they consume only shift the ambient stream, which is
universally quantified in every statement.  Each particle record carries a
ghost field `uid`, a fresh number per `add`, used only to state
identity-based claims; it influences no computed field.
-/

namespace Fireworks

/-! ## Color model (rational) -/

/-- An RGB triple as stored in `COLOR_TUPLES` / produced by `parseRgbColor`. -/
structure RGB where
  r : ℤ
  g : ℤ
  b : ℤ
deriving DecidableEq, Repr

/-- The six named palette colors of `COLOR` (in declaration order). -/
inductive PaletteColor
  | Red | Green | Blue | Purple | Gold | White
deriving DecidableEq, Repr

/-- `COLOR_TUPLES`: decimal decomposition of the palette hex codes
(`#ff0043`, `#14fc56`, `#1e7fff`, `#e60aff`, `#ffbf36`, `#ffffff`). -/
def colorTuple : PaletteColor → RGB
  | .Red => ⟨255, 0, 67⟩
  | .Green => ⟨20, 252, 86⟩
  | .Blue => ⟨30, 127, 255⟩
  | .Purple => ⟨230, 10, 255⟩
  | .Gold => ⟨255, 191, 54⟩
  | .White => ⟨255, 255, 255⟩

/-- A JavaScript color string as used by the core: one of the palette hex
strings, an `rgb(r, g, b)` string, or the `_INVISIBLE_` marker. -/
inductive JSColor
  | hex (c : PaletteColor)
  | rgbStr (r g b : ℤ)
  | invisible
deriving DecidableEq, Repr

/-- `COLOR_TUPLES[color]` lookup: only the six palette hex strings are keys. -/
def lookupTuple : JSColor → Option RGB
  | .hex c => some (colorTuple c)
  | _ => none

/-- `parseRgbColor`: a hex string is looked up in `COLOR_TUPLES`; an
`rgb(...)` string is matched by a digits-only regex (hence requires
non-negative components); anything else yields `null`. -/
def parseRgbColor : JSColor → Option RGB
  | .hex c => some (colorTuple c)
  | .rgbStr r g b => if 0 ≤ r ∧ 0 ≤ g ∧ 0 ≤ b then some ⟨r, g, b⟩ else none
  | .invisible => none

/-- The RGB value a color string denotes (hex via the palette table). -/
def toRGB : JSColor → Option RGB
  | .hex c => some (colorTuple c)
  | .rgbStr r g b => some ⟨r, g, b⟩
  | .invisible => none

/-- JavaScript `Math.round`: round half toward positive infinity. -/
def jround (q : ℚ) : ℤ := ⌊q + 1 / 2⌋

/-- JavaScript truncation (`Math.trunc`, used by the `%` operator). -/
def jtrunc (q : ℚ) : ℤ := if 0 ≤ q then ⌊q⌋ else -⌊-q⌋

/-- JavaScript remainder `a % b` (sign follows the dividend). -/
def jsmod (a b : ℚ) : ℚ := a - b * jtrunc (a / b)

/-- `rgbToHsl(r, g, b)`: returns `(h, s, l)` with `h` scaled to degrees. -/
def rgbToHsl (r g b : ℚ) : ℚ × ℚ × ℚ :=
  let r := r / 255
  let g := g / 255
  let b := b / 255
  let mx := max r (max g b)
  let mn := min r (min g b)
  let l := (mx + mn) / 2
  if mx = mn then (0, 0, l)
  else
    let d := mx - mn
    let s := if l > 1 / 2 then d / (2 - mx - mn) else d / (mx + mn)
    let h :=
      if mx = r then (g - b) / d + (if g < b then (6 : ℚ) else 0)
      else if mx = g then (b - r) / d + 2
      else (r - g) / d + 4
    (h / 6 * 360, s, l)

/-- The `hue2rgb` helper of `hslToRgb`. -/
def hue2rgb (p q t : ℚ) : ℚ :=
  let t := if t < 0 then t + 1 else t
  let t := if t > 1 then t - 1 else t
  if t < 1 / 6 then p + (q - p) * 6 * t
  else if t < 1 / 2 then q
  else if t < 2 / 3 then p + (q - p) * (2 / 3 - t) * 6
  else p

/-- `hslToRgb(h, s, l)`: returns the RGB components scaled to `[0, 255]`
(before rounding). -/
def hslToRgb (h s l : ℚ) : ℚ × ℚ × ℚ :=
  if s = 0 then (l * 255, l * 255, l * 255)
  else
    let q := if l < 1 / 2 then l * (1 + s) else l + s - l * s
    let p := 2 * l - q
    (hue2rgb p q (h + 1 / 3) * 255, hue2rgb p q h * 255, hue2rgb p q (h - 1 / 3) * 255)

/-- `generateColorVariation(baseColor, variation)`, the three
`Math.random()` draws made explicit.  Colors that are not palette hex
strings are not keys of `COLOR_TUPLES` and are returned unchanged. -/
def generateColorVariation (base : JSColor) (variation r1 r2 r3 : ℚ) : JSColor :=
  match lookupTuple base with
  | none => base
  | some rgb =>
    let hsl := rgbToHsl rgb.r rgb.g rgb.b
    let h := hsl.1
    let s := hsl.2.1
    let l := hsl.2.2
    let newH := jsmod (h + (r1 - 1 / 2) * variation * 60) 360
    let newS := max 0 (min 1 (s + (r2 - 1 / 2) * variation * (3 / 10)))
    let newL := max (1 / 10) (min (9 / 10) (l + (r3 - 1 / 2) * variation * (2 / 10)))
    let c := hslToRgb (newH / 360) newS newL
    .rgbStr (jround c.1) (jround c.2.1) (jround c.2.2)

/-- `interpolateColors(color1, color2, t)`: linear RGB interpolation with
rounding; returns `color1` whenever either color fails to parse. -/
def interpolateColors (color1 color2 : JSColor) (t : ℚ) : JSColor :=
  match parseRgbColor color1, parseRgbColor color2 with
  | some a, some b =>
    .rgbStr (jround (a.r + (b.r - a.r) * t)) (jround (a.g + (b.g - a.g) * t))
      (jround (a.b + (b.b - a.b) * t))
  | _, _ => color1

/-- A `colorEvolution` record: any subset of the three anchor colors may be
present (JavaScript object fields). -/
structure ColorEvolution where
  startColor : Option JSColor
  midColor : Option JSColor
  endColor : Option JSColor
deriving DecidableEq, Repr

/-- `interpolateColorEvolution(colorEvolution, lifeRatio)` (the remaining
life fraction passed for `lifeRatio`): three-point schedules branch at
life fraction `0.6`; two-point schedules use `1 - lifeRatio`. -/
def interpolateColorEvolution (ev : Option ColorEvolution) (lifeFrac : ℚ) : Option JSColor :=
  match ev with
  | none => none
  | some ev =>
    match ev.startColor, ev.midColor, ev.endColor with
    | some s, some m, some e =>
      some (if lifeFrac > 3 / 5 then interpolateColors s m ((lifeFrac - 3 / 5) / (2 / 5))
        else interpolateColors m e (lifeFrac / (3 / 5)))
    | some s, none, some e => some (interpolateColors s e (1 - lifeFrac))
    | _, _, _ => none

/-! ## Particle simulation (real-valued)

`COLOR_CODES_W_INVIS` (the keys of the per-color active collections). -/

noncomputable section

/-- A color key of the active-particle collections: the six palette hex
codes plus the `_INVISIBLE_` marker. -/
inductive CKey
  | Red | Green | Blue | Purple | Gold | White | Invisible
deriving DecidableEq, Repr

/-- `COLOR_CODES_W_INVIS` in iteration order (palette order, marker last). -/
def colorOrder : List CKey :=
  [.Red, .Green, .Blue, .Purple, .Gold, .White, .Invisible]

/-- The closed set of functions the source ever stores in `onDeath`. -/
inductive DeathEffect
  | none | crossette | floral | crackle
deriving DecidableEq, Repr

/-- A `Star` pool instance: every field the simulation reads or writes.
`uid` is a ghost identifier (see the file header).  `strobeFreq` is read
by the strobe branch but never assigned anywhere in the source; a fresh
object carries the stand-in value `0` for JavaScript `undefined`. -/
structure StarP where
  uid : ℕ
  visible : Bool
  heavy : Bool
  x : ℝ
  y : ℝ
  prevX : ℝ
  prevY : ℝ
  color : CKey
  speedX : ℝ
  speedY : ℝ
  life : ℝ
  fullLife : ℝ
  spinAngle : ℝ
  spinSpeed : ℝ
  spinRadius : ℝ
  sparkFreq : ℝ
  sparkSpeed : ℝ
  sparkTimer : ℝ
  sparkColor : CKey
  sparkLife : ℝ
  sparkLifeVariation : ℝ
  strobe : Bool
  strobeFreq : ℝ
  onDeath : DeathEffect
  secondColor : Option CKey
  transitionTime : ℝ
  colorChanged : Bool
  updateFrame : ℕ

/-- A `Spark` pool instance. -/
structure SparkP where
  uid : ℕ
  x : ℝ
  y : ℝ
  prevX : ℝ
  prevY : ℝ
  color : CKey
  speedX : ℝ
  speedY : ℝ
  life : ℝ
  fullLife : ℝ

/-- A `BurstFlash` pool instance. -/
structure FlashP where
  x : ℝ
  y : ℝ
  radius : ℝ

/-- The whole mutable state of the core: the three pools (per-color active
lists plus free lists), the `_new` construction counters, the ghost `uid`
counters, the integrator frame counter, and the position in the ambient
random stream. -/
structure FwState where
  starActive : CKey → List StarP
  starPool : List StarP
  starCreated : ℕ
  starNextUid : ℕ
  sparkActive : CKey → List SparkP
  sparkPool : List SparkP
  sparkCreated : ℕ
  sparkNextUid : ℕ
  flashActive : List FlashP
  flashPool : List FlashP
  currentFrame : ℕ
  rngIdx : ℕ

/-- The state before any particle exists (`createParticleCollection`
yields empty lists; pools empty; `currentFrame = 0`). -/
def emptyState : FwState where
  starActive := fun _ => []
  starPool := []
  starCreated := 0
  starNextUid := 0
  sparkActive := fun _ => []
  sparkPool := []
  sparkCreated := 0
  sparkNextUid := 0
  flashActive := []
  flashPool := []
  currentFrame := 0
  rngIdx := 0

/-- Draw the next `Math.random()` value from the ambient stream. -/
def FwState.rand (s : FwState) (rng : ℕ → ℝ) : ℝ × FwState :=
  (rng s.rngIdx, { s with rngIdx := s.rngIdx + 1 })

/-- Physical constants of the core. -/
def GRAVITY : ℝ := 0.9

/-- `Star.airDrag`. -/
def starAirDrag : ℝ := 0.98

/-- `Star.airDragHeavy`. -/
def starAirDragHeavy : ℝ := 0.992

/-- `Spark.airDrag`. -/
def sparkAirDrag : ℝ := 0.9

/-- The star drag factor computed once per `updateFireworks` call. -/
def starDragAt (speed : ℝ) : ℝ := 1 - (1 - starAirDrag) * speed

/-- The heavy-star drag factor computed once per `updateFireworks` call. -/
def starDragHeavyAt (speed : ℝ) : ℝ := 1 - (1 - starAirDragHeavy) * speed

/-- The spark drag factor computed once per `updateFireworks` call. -/
def sparkDragAt (speed : ℝ) : ℝ := 1 - (1 - sparkAirDrag) * speed

/-- The per-frame gravity increment `timeStep / 1000 * GRAVITY`. -/
def gAccAt (frameTime : ℝ) : ℝ := frameTime / 1000 * GRAVITY

/-- A `Star._new()` object: the fields `add` does not assign carry the
stand-in values for JavaScript `undefined` (cleared fields are reset by
`returnInstance` before reuse; `updateFrame` is genuinely stale across
reuse, which `add` preserves). -/
def mkFreshStar : StarP where
  uid := 0
  visible := true
  heavy := false
  x := 0
  y := 0
  prevX := 0
  prevY := 0
  color := .Red
  speedX := 0
  speedY := 0
  life := 0
  fullLife := 0
  spinAngle := 0
  spinSpeed := 0
  spinRadius := 0
  sparkFreq := 0
  sparkSpeed := 0
  sparkTimer := 0
  sparkColor := .Red
  sparkLife := 0
  sparkLifeVariation := 0
  strobe := false
  strobeFreq := 0
  onDeath := .none
  secondColor := none
  transitionTime := 0
  colorChanged := false
  updateFrame := 0

/-- A `Spark._new()` object. -/
def mkFreshSpark : SparkP where
  uid := 0
  x := 0
  y := 0
  prevX := 0
  prevY := 0
  color := .Red
  speedX := 0
  speedY := 0
  life := 0
  fullLife := 0

/-- Append `st` to the active list of color `c`. -/
def pushStar (c : CKey) (st : StarP) (s : FwState) : FwState :=
  { s with starActive := fun c' => if c' = c then s.starActive c ++ [st] else s.starActive c' }

/-- Append `pk` to the active spark list of color `c`. -/
def pushSpark (c : CKey) (pk : SparkP) (s : FwState) : FwState :=
  { s with sparkActive := fun c' => if c' = c then s.sparkActive c ++ [pk] else s.sparkActive c' }

/-- `Star.add(x, y, color, angle, speed, life, speedOffX, speedOffY, _)`:
pop the free list (or construct), reinitialize every field, append to the
active list keyed by `color`, and return the instance. -/
noncomputable def starAdd (rng : ℕ → ℝ) (x y : ℝ) (color : CKey)
    (angle speed life speedOffX speedOffY : ℝ) (s : FwState) : StarP × FwState :=
  let popped :=
    match s.starPool with
    | i :: rest => (i, { s with starPool := rest })
    | [] => (mkFreshStar, { s with starCreated := s.starCreated + 1 })
  let inst := popped.1
  let s := popped.2
  let r := s.rand rng
  let rSpin := r.1
  let s := r.2
  let inst := { inst with
    uid := s.starNextUid
    visible := true
    heavy := false
    x := x
    y := y
    prevX := x
    prevY := y
    color := color
    speedX := Real.sin angle * speed + speedOffX
    speedY := Real.cos angle * speed + speedOffY
    life := life
    fullLife := life
    spinAngle := rSpin * (2 * Real.pi)
    spinSpeed := 0.8
    spinRadius := 0
    sparkFreq := 0
    sparkSpeed := 1
    sparkTimer := 0
    sparkColor := color
    sparkLife := 750
    sparkLifeVariation := 0.25
    strobe := false }
  let s := { s with starNextUid := s.starNextUid + 1 }
  (inst, pushStar color inst s)

/-- `Spark.add(x, y, color, angle, speed, life, _)`. -/
noncomputable def sparkAdd (x y : ℝ) (color : CKey) (angle speed life : ℝ)
    (s : FwState) : SparkP × FwState :=
  let popped :=
    match s.sparkPool with
    | i :: rest => (i, { s with sparkPool := rest })
    | [] => (mkFreshSpark, { s with sparkCreated := s.sparkCreated + 1 })
  let inst := popped.1
  let s := popped.2
  let inst := { inst with
    uid := s.sparkNextUid
    x := x
    y := y
    prevX := x
    prevY := y
    color := color
    speedX := Real.sin angle * speed
    speedY := Real.cos angle * speed
    life := life
    fullLife := life }
  let s := { s with sparkNextUid := s.sparkNextUid + 1 }
  (inst, pushSpark color inst s)

/-- `BurstFlash.add(x, y, radius)`. -/
def flashAdd (x y radius : ℝ) (s : FwState) : FwState :=
  let popped :=
    match s.flashPool with
    | i :: rest => (i, { s with flashPool := rest })
    | [] => (⟨0, 0, 0⟩, s)
  let inst := { popped.1 with x := x, y := y, radius := radius }
  { popped.2 with flashActive := popped.2.flashActive ++ [inst] }

/-- `Spark.returnInstance(instance)`: push back onto the free list. -/
def sparkReturnInstance (pk : SparkP) (s : FwState) : FwState :=
  { s with sparkPool := pk :: s.sparkPool }

/-! ### Burst geometry -/

/-- The number of times a JavaScript loop
`for (a = start; a < endV; a += delta)` (or the symmetric decreasing loop
of `createParticleArc`) runs; both directions reduce to the same ceiling.
When the step cannot reach the bound the source would not terminate; no
modelled call site hits that case and the count is left at `0` there. -/
noncomputable def arcIterCount (start arcLength count : ℝ) : ℕ :=
  let angleDelta := arcLength / count
  let endV := start + arcLength - angleDelta * 0.5
  if endV > start then (if 0 < angleDelta then ⌈(endV - start) / angleDelta⌉₊ else 0)
  else (if angleDelta < 0 then ⌈(endV - start) / angleDelta⌉₊ else 0)

/-- `createParticleArc(start, arcLength, count, randomness, factory)`:
evenly spaced angles, each jittered by one `Math.random()` draw scaled by
`angleDelta * randomness`. -/
noncomputable def createParticleArc (start arcLength count randomness : ℝ)
    (factory : ℝ → FwState → FwState) (rng : ℕ → ℝ) (s : FwState) : FwState :=
  let angleDelta := arcLength / count
  (List.range (arcIterCount start arcLength count)).foldl
    (fun s (k : ℕ) =>
      let r := s.rand rng
      factory (start + (k : ℝ) * angleDelta + r.1 * angleDelta * randomness) r.2)
    s

/-- The ring circumference constant `C = 2 · (0.5·√(count/π)) · π` of
`createBurst`. -/
noncomputable def burstC (count : ℝ) : ℝ :=
  2 * (0.5 * Real.sqrt (count / Real.pi)) * Real.pi

/-- The latitude angle of ring `i` in `createBurst`. -/
noncomputable def burstRingAngle (count : ℝ) (i : ℕ) : ℝ :=
  (i : ℝ) / (burstC count / 2) * (Real.pi / 2)

/-- The (real-valued) particle quota of ring `i` for the requested arc. -/
noncomputable def burstPartsPerArc (count arcLength : ℝ) (i : ℕ) : ℝ :=
  burstC count * Real.cos (burstRingAngle count i) * (arcLength / (2 * Real.pi))

/-- How many particles ring `i` emits (`for (i = 0; i < partsPerArc; i++)`). -/
noncomputable def burstRingParts (count arcLength : ℝ) (i : ℕ) : ℕ :=
  ⌈burstPartsPerArc count arcLength i⌉₊

/-- How many rings `createBurst` iterates (`for (i = 0; i <= C_HALF; i++)`;
`C_HALF ≥ 0` always since `√· ≥ 0`). -/
noncomputable def burstRingNum (count : ℝ) : ℕ := ⌊burstC count / 2⌋₊ + 1

/-- The total number of `particleFactory` invocations of a `createBurst`
call. -/
noncomputable def burstEmitTotal (count arcLength : ℝ) : ℕ :=
  ((List.range (burstRingNum count)).map (burstRingParts count arcLength)).sum

/-- `createBurst(count, particleFactory, startAngle, arcLength)`: stacked
latitude rings; each ring draws one ring-wide random phase and each
particle one random jitter bounded by `0.33` of the spacing. -/
noncomputable def createBurst (count : ℝ) (factory : ℝ → ℝ → FwState → FwState)
    (startAngle arcLength : ℝ) (rng : ℕ → ℝ) (s : FwState) : FwState :=
  (List.range (burstRingNum count)).foldl
    (fun s (i : ℕ) =>
      let ringSize := Real.cos (burstRingAngle count i)
      let partsPerFullRing := burstC count * ringSize
      let angleInc := 2 * Real.pi / partsPerFullRing
      let r0 := s.rand rng
      let angleOffset := r0.1 * angleInc + startAngle
      let maxRandomAngleOffset := angleInc * 0.33
      (List.range (burstRingParts count arcLength i)).foldl
        (fun s (j : ℕ) =>
          let r := s.rand rng
          factory (angleInc * (j : ℝ) + angleOffset + r.1 * maxRandomAngleOffset) ringSize r.2)
        r0.2)
    s

/-! ### Secondary (death) effects -/

/-- `crossetteEffect(star)`: 4 Stars on a quadrant-jittered full-circle
arc, speed `rand·0.6 + 0.75`, life `600`; the speed draw happens inside
the factory before `Star.add` runs. -/
def crossetteEffect (rng : ℕ → ℝ) (star : StarP) (s : FwState) : FwState :=
  let r0 := s.rand rng
  let startAngle := r0.1 * (Real.pi / 2)
  createParticleArc startAngle (2 * Real.pi) 4 0.5
    (fun angle s =>
      let r := s.rand rng
      (starAdd rng star.x star.y star.color angle (r.1 * 0.6 + 0.75) 600 0 0 r.2).2)
    rng r0.2

/-- `floralEffect(star)`: 12 Stars via `createBurst`, inheriting the dying
star's velocity additively, life `1000 + rand·300`; then a radius-46
`BurstFlash` at the death position. -/
def floralEffect (rng : ℕ → ℝ) (star : StarP) (s : FwState) : FwState :=
  let s := createBurst 12
    (fun angle speedMult s =>
      let r := s.rand rng
      (starAdd rng star.x star.y star.color angle (speedMult * 2.4) (1000 + r.1 * 300)
        star.speedX star.speedY r.2).2)
    0 (2 * Real.pi) rng s
  flashAdd star.x star.y 46 s

/-- `crackleEffect(star)`: 16 Sparks on a full-circle arc with randomness
`1.8`, gold color, speed `rand^0.45 · 2.4`, life `300 + rand·200` (the
speed draw precedes the life draw, matching argument order). -/
def crackleEffect (rng : ℕ → ℝ) (star : StarP) (s : FwState) : FwState :=
  createParticleArc 0 (2 * Real.pi) 16 1.8
    (fun angle s =>
      let rs := s.rand rng
      let rl := rs.2.rand rng
      (sparkAdd star.x star.y .Gold angle (rs.1 ^ (0.45 : ℝ) * 2.4) (300 + rl.1 * 200) rl.2).2)
    rng s

/-- Dispatch of the stored `onDeath` callback. -/
def runDeathEffect (rng : ℕ → ℝ) (star : StarP) : DeathEffect → FwState → FwState
  | .none, s => s
  | .crossette, s => crossetteEffect rng star s
  | .floral, s => floralEffect rng star s
  | .crackle, s => crackleEffect rng star s

/-- `Star.returnInstance(instance)`: run `onDeath` once, clear the
callback and transition fields, and push onto the free list. -/
def starReturnInstance (rng : ℕ → ℝ) (st : StarP) (s : FwState) : FwState :=
  let s := runDeathEffect rng st st.onDeath s
  let st := { st with
    onDeath := .none
    secondColor := none
    transitionTime := 0
    colorChanged := false }
  { s with starPool := st :: s.starPool }

/-! ### Shell -/

/-- The caller-supplied option object of the `Shell` constructor.
`Option` marks fields a caller may omit (JavaScript `undefined`); the
constructor's `||` defaults also treat a supplied `0` as absent, which
the definitions below reproduce.  The `color` fallback `randomColor()`
and the preset color draws are external inputs here: every modelled
construction supplies the drawn color explicitly. -/
structure ShellOptions where
  spreadSize : ℝ
  starLife : Option ℝ
  starLifeVariation : Option ℝ
  color : CKey
  glitterColor : Option CKey
  starCount : Option ℝ
  starDensity : Option ℝ
  glitter : Option String
  crossette : Bool
  floral : Bool
  crackle : Bool

/-- JavaScript `x || d` for an optional number (`0` is falsy). -/
def orDefault (x : Option ℝ) (d : ℝ) : ℝ :=
  match x with
  | some v => if v = 0 then d else v
  | none => d

/-- A constructed `Shell` (immutable after construction). -/
structure Shell where
  spreadSize : ℝ
  starLife : Option ℝ
  starLifeVariation : ℝ
  color : CKey
  glitterColor : CKey
  starCount : ℝ
  glitter : Option String
  crossette : Bool
  floral : Bool
  crackle : Bool

/-- The `Shell` constructor: merge options, default
`starLifeVariation = 0.125`, `glitterColor = this.color`, and when
`starCount` is unset (or `0`, falsy) derive
`max(7, ⌊(spreadSize/54)² · density · 1.7⌋)` with `density =
starDensity || 1`. -/
def Shell.make (o : ShellOptions) : Shell where
  spreadSize := o.spreadSize
  starLife := o.starLife
  starLifeVariation := orDefault o.starLifeVariation 0.125
  color := o.color
  glitterColor := o.glitterColor.getD o.color
  starCount :=
    match o.starCount with
    | some v =>
      if v = 0 then
        ((max 7 ⌊(o.spreadSize / 54) * (o.spreadSize / 54) * orDefault o.starDensity 1 * 1.7⌋ : ℤ) : ℝ)
      else v
    | none =>
      ((max 7 ⌊(o.spreadSize / 54) * (o.spreadSize / 54) * orDefault o.starDensity 1 * 1.7⌋ : ℤ) : ℝ)
  glitter := o.glitter
  crossette := o.crossette
  floral := o.floral
  crackle := o.crackle

/-- The glitter-profile mutation `Shell.burst` applies to a just-added
star (`'light'`/`'medium'`/`'heavy'`; any other profile name matches no
branch and leaves the star untouched). -/
def applyGlitter (sh : Shell) (st : StarP) : StarP :=
  match sh.glitter with
  | some g =>
    if g = "light" then
      { st with sparkFreq := 308, sparkSpeed := 0.3, sparkLife := 300, sparkColor := sh.glitterColor }
    else if g = "medium" then
      { st with sparkFreq := 154, sparkSpeed := 0.44, sparkLife := 700, sparkColor := sh.glitterColor }
    else if g = "heavy" then
      { st with sparkFreq := 62, sparkSpeed := 0.8, sparkLife := 1400, sparkColor := sh.glitterColor }
    else st
  | none => st

/-- The secondary-effect mutation of `Shell.burst`: each flag overwrites
`onDeath`, so with several flags the last assignment wins. -/
def applyEffects (sh : Shell) (st : StarP) : StarP :=
  let st := if sh.crossette then { st with onDeath := .crossette } else st
  let st := if sh.floral then { st with onDeath := .floral } else st
  if sh.crackle then { st with onDeath := .crackle } else st

/-- Replace the last element of a list (the source mutates the object it
just appended through the retained reference). -/
def mutateLast {α : Type} (f : α → α) : List α → List α
  | [] => []
  | [a] => [f a]
  | a :: rest => a :: mutateLast f rest

/-- Apply `f` to the star `Shell.burst` just appended to `sh.color`. -/
def mutateLastStar (c : CKey) (f : StarP → StarP) (s : FwState) : FwState :=
  { s with starActive := fun c' => if c' = c then mutateLast f (s.starActive c) else s.starActive c' }

/-- The per-emission factory of `Shell.burst`: draw the life jitter, add
the star, then mutate it (through the live reference) with the glitter
profile and the secondary-effect flags. -/
def Shell.burstFactory (sh : Shell) (rng : ℕ → ℝ) (x y speed starLife variation : ℝ)
    (angle speedMult : ℝ) (s : FwState) : FwState :=
  let r := s.rand rng
  let s := (starAdd rng x y sh.color angle (speedMult * speed)
    (starLife + starLife * (r.1 - 0.5) * variation) 0 0 r.2).2
  mutateLastStar sh.color (fun st => applyEffects sh (applyGlitter sh st)) s

/-- `Shell.burst(x, y)`: speed `spreadSize/96`, life
`(starLife || 1500) ± starLife·(rand−0.5)·variation`, main burst via
`createBurst`, then one `BurstFlash` of radius `spreadSize/4`. -/
def Shell.burst (sh : Shell) (rng : ℕ → ℝ) (x y : ℝ) (s : FwState) : FwState :=
  let speed := sh.spreadSize / 96
  let starLife := orDefault sh.starLife 1500
  let variation := sh.starLifeVariation
  let s := createBurst sh.starCount (sh.burstFactory rng x y speed starLife variation)
    0 (2 * Real.pi) rng s
  flashAdd x y (sh.spreadSize / 4) s

/-! ### Shell presets (the two whose glitter names match no profile) -/

/-- JavaScript `Math.round` on a real. -/
def jroundR (x : ℝ) : ℤ := ⌊x + 1 / 2⌋

/-- `willowShell(size)`; `col` is the outcome of the
`randomColor({limitWhite: true})` draw. -/
def willowShellOpts (size : ℝ) (col : CKey) : ShellOptions where
  spreadSize := 300 + size * 100
  starLife := some (1400 + size * 300)
  starLifeVariation := none
  color := col
  glitterColor := some .Gold
  starCount := some ((jroundR (100 + size * 50) : ℤ) : ℝ)
  starDensity := none
  glitter := some "willow"
  crossette := false
  floral := false
  crackle := false

/-- `palmShell(size)`; `col` and `gcol` are the outcomes of the two
`randomColor` draws. -/
def palmShellOpts (size : ℝ) (col gcol : CKey) : ShellOptions where
  spreadSize := 250 + size * 75
  starLife := some (1800 + size * 200)
  starLifeVariation := none
  color := col
  glitterColor := some gcol
  starCount := some ((jroundR (40 + size * 20) : ℤ) : ℝ)
  starDensity := none
  glitter := some "thick"
  crossette := false
  floral := false
  crackle := false

/-! ### The integrator `updateFireworks(frameTime, speed)` -/

/-- Stage 1 of a surviving star's frame: trail bookkeeping, positional
advance by the old velocity, drag (light or heavy), gravity, and — only
when `spinRadius` is truthy — the spin offset after advancing
`spinAngle`. -/
def starMotion (sp starDrag starDragHeavy gAcc : ℝ) (st : StarP) : StarP :=
  let st := { st with
    prevX := st.x
    prevY := st.y
    x := st.x + st.speedX * sp
    y := st.y + st.speedY * sp }
  let st :=
    if st.heavy then { st with speedX := st.speedX * starDragHeavy, speedY := st.speedY * starDragHeavy }
    else { st with speedX := st.speedX * starDrag, speedY := st.speedY * starDrag }
  let st := { st with speedY := st.speedY + gAcc }
  if st.spinRadius ≠ 0 then
    let st := { st with spinAngle := st.spinAngle + st.spinSpeed * sp }
    { st with
      x := st.x + Real.sin st.spinAngle * st.spinRadius * sp
      y := st.y + Real.cos st.spinAngle * st.spinRadius * sp }
  else st

/-- How many sparks the emission `while` loop of one frame emits: the
least `n` with `timer + n·interval ≥ 0`.  When `timer < 0` with
`interval ≤ 0` the source would not terminate; that needs `life >
fullLife` (or a negative `sparkFreq`), which no state produced by this
code reaches, and the count is left at `0` there. -/
def sparkEmitCount (timer interval : ℝ) : ℕ :=
  if timer < 0 ∧ 0 < interval then ⌈-timer / interval⌉₊ else 0

/-- The re-arm interval `sparkFreq·0.75 + sparkFreq·(1−burnRate)·4` of the
emission loop, with `burnRate = √(life/fullLife)`. -/
def sparkIntervalOf (st : StarP) : ℝ :=
  st.sparkFreq * 0.75 + st.sparkFreq * (1 - Real.sqrt (st.life / st.fullLife)) * 4

/-- Stage 2, star component: the spark-emission timer after the frame
(pure in the star; the emitted sparks are produced by
`starSparkStep`). -/
def starSparkValue (timeStep : ℝ) (st : StarP) : StarP :=
  if st.sparkFreq ≠ 0 then
    let t0 := st.sparkTimer - timeStep
    let n := sparkEmitCount t0 (sparkIntervalOf st)
    { st with sparkTimer := t0 + (n : ℝ) * sparkIntervalOf st }
  else st

/-- Stage 2 of a surviving star's frame: `if (star.sparkFreq)` run the
emission `while` loop — each emission draws angle, speed and life and
adds one Spark at the star's current position. -/
def starSparkStep (rng : ℕ → ℝ) (timeStep : ℝ) (st : StarP) (s : FwState) : StarP × FwState :=
  if st.sparkFreq ≠ 0 then
    let burnRate := Real.sqrt (st.life / st.fullLife)
    let interval := sparkIntervalOf st
    let t0 := st.sparkTimer - timeStep
    let n := sparkEmitCount t0 interval
    let s := (List.range n).foldl
      (fun s _ =>
        let ra := s.rand rng
        let rs := ra.2.rand rng
        let rl := rs.2.rand rng
        (sparkAdd st.x st.y st.sparkColor (ra.1 * (2 * Real.pi)) (rs.1 * st.sparkSpeed * burnRate)
          (st.sparkLife * 0.8 + rl.1 * st.sparkLifeVariation * st.sparkLife) rl.2).2)
      s
    ({ st with sparkTimer := t0 + (n : ℝ) * interval }, s)
  else (st, s)

/-- Stage 3 of a surviving star's frame: below `transitionTime`, a pending
`secondColor` fires once (recoloring the star, zeroing `sparkFreq` for the
invisible marker, and requesting the move to the new color's list), and a
strobing star recomputes `visible` as a one-in-three duty cycle. -/
def starTransition (st : StarP) : StarP × Option CKey :=
  if st.life < st.transitionTime then
    let moved :=
      match st.secondColor with
      | some sc =>
        if st.colorChanged then (st, (none : Option CKey))
        else
          ({ st with
              colorChanged := true
              color := sc
              sparkFreq := if sc = CKey.Invisible then 0 else st.sparkFreq }, some sc)
      | none => (st, none)
    let st := moved.1
    let st := if st.strobe then { st with visible := ⌊st.life / st.strobeFreq⌋ % 3 = 0 } else st
    (st, moved.2)
  else (st, none)

/-- The field values a star that survives the frame ends it with (placement
in the lists aside); pure in the star — no random draw reaches a surviving
star's own fields. -/
def starStepValue (timeStep sp starDrag starDragHeavy gAcc : ℝ) (frame : ℕ) (st : StarP) : StarP :=
  let st := { st with updateFrame := frame, life := st.life - timeStep }
  (starTransition (starSparkValue timeStep (starMotion sp starDrag starDragHeavy gAcc st))).1

/-- The move target a star's frame requests (`some` = relocated to that
color's list). -/
def starStepTarget (timeStep sp starDrag starDragHeavy gAcc : ℝ) (frame : ℕ) (st : StarP) :
    Option CKey :=
  let st := { st with updateFrame := frame, life := st.life - timeStep }
  (starTransition (starSparkValue timeStep (starMotion sp starDrag starDragHeavy gAcc st))).2

/-- One star of the per-color loop body: the frame-duplication guard, the
life decrement, death (splice + `returnInstance`), or the three surviving
stages.  Returns `some st'` when the star stays in the current list. -/
def processStar (rng : ℕ → ℝ) (timeStep sp starDrag starDragHeavy gAcc : ℝ) (frame : ℕ)
    (st : StarP) (s : FwState) : Option StarP × FwState :=
  if st.updateFrame = frame then (some st, s)
  else
    let st := { st with updateFrame := frame, life := st.life - timeStep }
    if st.life ≤ 0 then (none, starReturnInstance rng st s)
    else
      let st := starMotion sp starDrag starDragHeavy gAcc st
      let step := starSparkStep rng timeStep st s
      let tr := starTransition step.1
      match tr.2 with
      | some tgt => (none, pushStar tgt tr.1 step.2)
      | none => (some tr.1, step.2)

/-- The star loop of one color: the source iterates the live array from
its initial tail index downward; splices remove only the current index and
every push lands beyond the initial length, so the visit order is the
reversed snapshot and the final array is the kept snapshot elements (in
order) followed by the pushes.  `starPassAux` processes the snapshot
tail-first and returns the kept elements in order. -/
def starPassAux (rng : ℕ → ℝ) (timeStep sp starDrag starDragHeavy gAcc : ℝ) (frame : ℕ) :
    List StarP → FwState → List StarP × FwState
  | [], s => ([], s)
  | st :: rest, s =>
    let tailRes := starPassAux rng timeStep sp starDrag starDragHeavy gAcc frame rest s
    let res := processStar rng timeStep sp starDrag starDragHeavy gAcc frame st tailRes.2
    match res.1 with
    | some st' => (st' :: tailRes.1, res.2)
    | none => (tailRes.1, res.2)

/-- The star loop of one color: detach the snapshot, process it, and
reattach the kept elements ahead of whatever the loop appended. -/
def starPass (rng : ℕ → ℝ) (timeStep sp starDrag starDragHeavy gAcc : ℝ) (c : CKey)
    (s : FwState) : FwState :=
  let snap := s.starActive c
  let s0 := { s with starActive := fun c' => if c' = c then [] else s.starActive c' }
  let res := starPassAux rng timeStep sp starDrag starDragHeavy gAcc s.currentFrame snap s0
  { res.2 with
    starActive := fun c' => if c' = c then res.1 ++ res.2.starActive c else res.2.starActive c' }

/-- One spark of the per-color loop body: life decrement, death (splice +
`returnInstance`), or the linear motion update. -/
def processSpark (timeStep sp sparkDrag gAcc : ℝ) (pk : SparkP) (s : FwState) :
    Option SparkP × FwState :=
  let pk := { pk with life := pk.life - timeStep }
  if pk.life ≤ 0 then (none, sparkReturnInstance pk s)
  else
    (some { pk with
      prevX := pk.x
      prevY := pk.y
      x := pk.x + pk.speedX * sp
      y := pk.y + pk.speedY * sp
      speedX := pk.speedX * sparkDrag
      speedY := pk.speedY * sparkDrag + gAcc }, s)

/-- The field values a spark that survives the frame ends it with. -/
def sparkStepValue (timeStep sp sparkDrag gAcc : ℝ) (pk : SparkP) : SparkP :=
  { pk with
    life := pk.life - timeStep
    prevX := pk.x
    prevY := pk.y
    x := pk.x + pk.speedX * sp
    y := pk.y + pk.speedY * sp
    speedX := pk.speedX * sparkDrag
    speedY := pk.speedY * sparkDrag + gAcc }

/-- The spark loop of one color over its snapshot, tail-first (the same
live-array argument as for stars; the spark loop adds nothing). -/
def sparkPassAux (timeStep sp sparkDrag gAcc : ℝ) :
    List SparkP → FwState → List SparkP × FwState
  | [], s => ([], s)
  | pk :: rest, s =>
    let tailRes := sparkPassAux timeStep sp sparkDrag gAcc rest s
    let res := processSpark timeStep sp sparkDrag gAcc pk tailRes.2
    match res.1 with
    | some pk' => (pk' :: tailRes.1, res.2)
    | none => (tailRes.1, res.2)

/-- The spark loop of one color. -/
def sparkPass (timeStep sp sparkDrag gAcc : ℝ) (c : CKey) (s : FwState) : FwState :=
  let snap := s.sparkActive c
  let s0 := { s with sparkActive := fun c' => if c' = c then [] else s.sparkActive c' }
  let res := sparkPassAux timeStep sp sparkDrag gAcc snap s0
  { res.2 with
    sparkActive := fun c' => if c' = c then res.1 ++ res.2.sparkActive c else res.2.sparkActive c' }

/-- The body of the `COLOR_CODES_W_INVIS.forEach`: stars of the color,
then sparks of the color. -/
def colorPass (rng : ℕ → ℝ) (timeStep sp : ℝ) (c : CKey) (s : FwState) : FwState :=
  sparkPass timeStep sp (sparkDragAt sp) (gAccAt timeStep) c
    (starPass rng timeStep sp (starDragAt sp) (starDragHeavyAt sp) (gAccAt timeStep) c s)

/-- `updateFireworks(frameTime, speed)`: bump the frame counter, compute
the drag factors and the gravity increment once, and run the per-color
star and spark loops over all color keys. -/
def updateFireworks (rng : ℕ → ℝ) (frameTime speed : ℝ) (s : FwState) : FwState :=
  let s := { s with currentFrame := s.currentFrame + 1 }
  colorOrder.foldl (fun s c => colorPass rng frameTime speed c s) s

/-! ### Measures and invariant predicates used by the claims -/

/-- Total length of a per-color family of star lists. -/
def starTotalOf (f : CKey → List StarP) : ℕ :=
  (colorOrder.map (fun c => (f c).length)).sum

/-- Total length of a per-color family of spark lists. -/
def sparkTotalOf (f : CKey → List SparkP) : ℕ :=
  (colorOrder.map (fun c => (f c).length)).sum

/-- Total number of stars across all per-color active lists. -/
def starTotalActive (s : FwState) : ℕ := starTotalOf s.starActive

/-- Total number of sparks across all per-color active lists. -/
def sparkTotalActive (s : FwState) : ℕ := sparkTotalOf s.sparkActive

/-- Star-pool conservation: active + free = ever constructed. -/
def starConserved (s : FwState) : Prop :=
  starTotalActive s + s.starPool.length = s.starCreated

/-- Spark-pool conservation: active + free = ever constructed. -/
def sparkConserved (s : FwState) : Prop :=
  sparkTotalActive s + s.sparkPool.length = s.sparkCreated

/-- Conservation of both particle pools at once. -/
def Conserved (s : FwState) : Prop := starConserved s ∧ sparkConserved s

/-- The step from `s` to `s'` leaves the star balance
`active + free − created` unchanged (stated additively).  Every `add`
preserves the balance whatever it currently is. -/
def starBalanced (s s' : FwState) : Prop :=
  starTotalActive s' + s'.starPool.length + s.starCreated
    = starTotalActive s + s.starPool.length + s'.starCreated

/-- Spark analogue of `starBalanced`. -/
def sparkBalanced (s s' : FwState) : Prop :=
  sparkTotalActive s' + s'.sparkPool.length + s.sparkCreated
    = sparkTotalActive s + s.sparkPool.length + s'.sparkCreated

/-- Both pool balances preserved from `s` to `s'`. -/
def Balanced (s s' : FwState) : Prop := starBalanced s s' ∧ sparkBalanced s s'

/-- The operation alphabet of the pool-conservation claim: an `add` with
arbitrary arguments, or a death-removal (removal of the `i`-th star of a
color's active list followed by `returnInstance`, as the integrator's
death branch performs it). -/
inductive PoolOp
  | add (x y : ℝ) (color : CKey) (angle speed life offX offY : ℝ)
  | kill (c : CKey) (i : ℕ)

/-- Run one pool operation. -/
def applyOp (rng : ℕ → ℝ) (s : FwState) : PoolOp → FwState
  | .add x y color angle speed life offX offY =>
    (starAdd rng x y color angle speed life offX offY s).2
  | .kill c i =>
    match (s.starActive c)[i]? with
    | some st =>
      starReturnInstance rng st
        { s with starActive := fun c' =>
            if c' = c then (s.starActive c).eraseIdx i else s.starActive c' }
    | none => s

/-- Run a sequence of pool operations. -/
def applyOps (rng : ℕ → ℝ) (ops : List PoolOp) (s : FwState) : FwState :=
  ops.foldl (applyOp rng) s

/-- How many stars of the list carry the ghost identifier `u`. -/
def uidCountIn (u : ℕ) (l : List StarP) : ℕ :=
  (l.filter (fun q => q.uid = u)).length

/-- How many active stars of the state carry the ghost identifier `u`. -/
def starUidCount (u : ℕ) (s : FwState) : ℕ :=
  (colorOrder.map (fun c => uidCountIn u (s.starActive c))).sum

/-- How many sparks of the list carry the ghost identifier `u`. -/
def sparkUidCountIn (u : ℕ) (l : List SparkP) : ℕ :=
  (l.filter (fun q => q.uid = u)).length

/-- How many active sparks of the state carry the ghost identifier `u`. -/
def sparkUidCount (u : ℕ) (s : FwState) : ℕ :=
  (colorOrder.map (fun c => sparkUidCountIn u (s.sparkActive c))).sum

/-- Every active star's ghost identifier is below the allocation counter
(true of every state the core builds; `add` allocates fresh
identifiers). -/
def uidBound (s : FwState) : Prop :=
  ∀ c, ∀ q ∈ s.starActive c, q.uid < s.starNextUid

/-- Spark analogue of `uidBound`. -/
def sparkUidBound (s : FwState) : Prop :=
  ∀ c, ∀ q ∈ s.sparkActive c, q.uid < s.sparkNextUid

/-- State extension: the frame counter is unchanged, the allocation
counters grow, and every active list is only appended to — with freshly
allocated identifiers.  Every state operation of the core except the
removal/relocation inside a color's own pass extends the state. -/
def Extends (s s' : FwState) : Prop :=
  s.currentFrame = s'.currentFrame ∧
  s.starNextUid ≤ s'.starNextUid ∧
  s.sparkNextUid ≤ s'.sparkNextUid ∧
  (∀ c, ∃ ap, s'.starActive c = s.starActive c ++ ap ∧ ∀ q ∈ ap, s.starNextUid ≤ q.uid) ∧
  (∀ c, ∃ ap, s'.sparkActive c = s.sparkActive c ++ ap ∧ ∀ q ∈ ap, s.sparkNextUid ≤ q.uid)

/-- Weak state extension: active lists are only appended to (with
anything).  A color's own pass extends the state weakly as seen from the
other lists. -/
def ExtendsW (s s' : FwState) : Prop :=
  s.currentFrame = s'.currentFrame ∧
  s.starNextUid ≤ s'.starNextUid ∧
  s.sparkNextUid ≤ s'.sparkNextUid ∧
  (∀ c, ∃ ap, s'.starActive c = s.starActive c ++ ap) ∧
  (∀ c, ∃ ap, s'.sparkActive c = s.sparkActive c ++ ap)

/-- A concrete star used by the zero-time-step counterexample: at the
origin with unit horizontal velocity, freshly spawned. -/
def sampleStar : StarP :=
  { mkFreshStar with uid := 0, speedX := 1, life := 1000, fullLife := 1000 }

/-- A concrete one-star state for the zero-time-step counterexample. -/
def sampleState : FwState :=
  { emptyState with
    starActive := fun c => if c = CKey.Red then [sampleStar] else []
    starCreated := 1
    starNextUid := 1 }

/-- A concrete spark used by the death-and-removal witness. -/
def sampleSpark : SparkP :=
  { mkFreshSpark with uid := 0, speedX := 1, life := 500, fullLife := 500 }

/-- A concrete one-spark state for the death-and-removal witness. -/
def sparkSampleState : FwState :=
  { emptyState with
    sparkActive := fun c => if c = CKey.Red then [sampleSpark] else []
    sparkCreated := 1
    sparkNextUid := 1 }

/-- The shell of the burst scenario:
`{spreadSize: 400, starCount: 10, starLife: 1000, color: Red}` with no
glitter and no secondary effect. -/
def c1Shell : Shell :=
  Shell.make
    { spreadSize := 400, starLife := some 1000, starLifeVariation := none, color := .Red,
      glitterColor := none, starCount := some 10, starDensity := none, glitter := none,
      crossette := false, floral := false, crackle := false }

end

/-! ## Theorems -/

/-- Zero perturbation makes the three random draws irrelevant. -/
theorem generateColorVariation_zero_rand (b : JSColor) (r1 r2 r3 : ℚ) :
    generateColorVariation b 0 r1 r2 r3 = generateColorVariation b 0 0 0 0 := by
  cases b <;> simp [generateColorVariation, lookupTuple, mul_zero, zero_mul, add_zero]

/-- C7: for every Shell constructed without an explicit `starCount`, the
derived count is `max(7, ⌊(spreadSize/54)² · density · 1.7⌋)`, with
`density` the caller-supplied `starDensity` (`0`, being falsy, and absence
both fall back to `1`). -/
theorem shell_starCount_derived :
    (∀ o : ShellOptions, o.starCount = none → o.starDensity = none →
      (Shell.make o).starCount
        = ((max 7 ⌊(o.spreadSize / 54) ^ 2 * 1 * 1.7⌋ : ℤ) : ℝ)) ∧
    (∀ o : ShellOptions, ∀ d : ℝ, o.starCount = none → o.starDensity = some d → d ≠ 0 →
      (Shell.make o).starCount
        = ((max 7 ⌊(o.spreadSize / 54) ^ 2 * d * 1.7⌋ : ℤ) : ℝ)) := by
  constructor
  · intro o h1 h2
    simp only [Shell.make, h1, h2, orDefault]
    ring_nf
  · intro o d h1 h2 h3
    simp only [Shell.make, h1, h2, orDefault, if_neg h3]
    ring_nf

/-- Witness for `shell_starCount_derived` at a concrete option object. -/
theorem shell_starCount_derived_witness :
    (Shell.make
      { spreadSize := 400, starLife := none, starLifeVariation := none, color := .Red,
        glitterColor := none, starCount := none, starDensity := none, glitter := none,
        crossette := false, floral := false, crackle := false }).starCount
      = ((max 7 ⌊((400 : ℝ) / 54) ^ 2 * 1 * 1.7⌋ : ℤ) : ℝ) :=
  shell_starCount_derived.1
    { spreadSize := 400, starLife := none, starLifeVariation := none, color := .Red,
      glitterColor := none, starCount := none, starDensity := none, glitter := none,
      crossette := false, floral := false, crackle := false } rfl rfl

/-- C2 (evaluation at the failing inputs): on the 3-point schedule
(Red, Green, Blue), `interpolateColorEvolution` returns the *mid* color
both at life fraction `1` and at life fraction `0` — the source computes
its interpolation parameter backwards in both branches (its own comments
announce start→mid and mid→end) — so it returns neither `startColor` at
`1` nor `endColor` at `0`. -/
theorem interpolateColorEvolution_endpoints_eval :
    interpolateColorEvolution
        (some ⟨some (.hex .Red), some (.hex .Green), some (.hex .Blue)⟩) 1
      = some (.rgbStr 20 252 86) ∧
    interpolateColorEvolution
        (some ⟨some (.hex .Red), some (.hex .Green), some (.hex .Blue)⟩) 0
      = some (.rgbStr 20 252 86) ∧
    toRGB (JSColor.rgbStr 20 252 86) ≠ toRGB (.hex .Red) ∧
    toRGB (JSColor.rgbStr 20 252 86) ≠ toRGB (.hex .Blue) := by
  refine ⟨?_, ?_, by simp [toRGB, colorTuple], by simp [toRGB, colorTuple]⟩ <;>
    norm_num [interpolateColorEvolution, interpolateColors, parseRgbColor, colorTuple, jround]

/-- C6 (counterexample): `generateColorVariation(White, 0)` is not the
identity — the lightness clamp `min(0.9, l)` lowers White's lightness
from `1` to `0.9`, yielding `rgb(230, 230, 230)`. -/
theorem generateColorVariation_white_changed :
    generateColorVariation (.hex .White) 0 (1 / 2) (1 / 2) (1 / 2)
        = .rgbStr 230 230 230 ∧
    toRGB (JSColor.rgbStr 230 230 230) ≠ toRGB (.hex .White) := by
  constructor
  · rw [generateColorVariation_zero_rand]
    norm_num [generateColorVariation, lookupTuple, colorTuple, rgbToHsl, hslToRgb, hue2rgb,
      jround, jsmod, jtrunc]
  · simp [toRGB, colorTuple]

/-- C6 (amended): with zero perturbation `generateColorVariation` keeps
the RGB value of every palette color except White (the result is the same
color rendered as an `rgb()` string); White alone is altered by the
lightness clamp, to `rgb(230, 230, 230)`. -/
theorem generateColorVariation_zero_identity (r1 r2 r3 : ℚ) :
    (∀ c : PaletteColor, c ≠ .White →
      toRGB (generateColorVariation (.hex c) 0 r1 r2 r3) = some (colorTuple c)) ∧
    generateColorVariation (.hex .White) 0 r1 r2 r3 = .rgbStr 230 230 230 := by
  constructor
  · intro c hc
    rw [generateColorVariation_zero_rand]
    cases c <;>
      first
      | exact absurd rfl hc
      | norm_num [generateColorVariation, lookupTuple, colorTuple, rgbToHsl, hslToRgb,
          hue2rgb, jround, jsmod, jtrunc, toRGB]
  · rw [generateColorVariation_zero_rand]
    norm_num [generateColorVariation, lookupTuple, colorTuple, rgbToHsl, hslToRgb, hue2rgb,
      jround, jsmod, jtrunc]

/-- Witness for `generateColorVariation_zero_identity`. -/
theorem generateColorVariation_zero_identity_witness :
    toRGB (generateColorVariation (.hex .Red) 0 (1 / 2) (1 / 3) (1 / 5))
      = some (colorTuple .Red) :=
  (generateColorVariation_zero_identity (1 / 2) (1 / 3) (1 / 5)).1 .Red (by simp)

/-! ### Pool conservation (C5) -/

/-- Appending one star to the list of color `c` raises the total by one. -/
theorem starTotalOf_push (c : CKey) (st : StarP) (f : CKey → List StarP) :
    starTotalOf (fun c' => if c' = c then f c ++ [st] else f c') = starTotalOf f + 1 := by
  cases c <;> simp [starTotalOf, colorOrder] <;> omega

/-- Appending one spark to the list of color `c` raises the total by one. -/
theorem sparkTotalOf_push (c : CKey) (pk : SparkP) (f : CKey → List SparkP) :
    sparkTotalOf (fun c' => if c' = c then f c ++ [pk] else f c') = sparkTotalOf f + 1 := by
  cases c <;> simp [sparkTotalOf, colorOrder] <;> omega

/-- Replacing the star list of color `c`, measured without subtraction. -/
theorem starTotalOf_set (c : CKey) (L : List StarP) (f : CKey → List StarP) :
    starTotalOf (fun c' => if c' = c then L else f c') + (f c).length
      = starTotalOf f + L.length := by
  cases c <;> simp [starTotalOf, colorOrder] <;> omega

/-- Balance is reflexive. -/
theorem balanced_refl (s : FwState) : Balanced s s := ⟨rfl, rfl⟩

/-- Balance is transitive. -/
theorem balanced_trans {s1 s2 s3 : FwState} (h1 : Balanced s1 s2) (h2 : Balanced s2 s3) :
    Balanced s1 s3 := by
  obtain ⟨a1, b1⟩ := h1
  obtain ⟨a2, b2⟩ := h2
  unfold starBalanced at a1 a2
  unfold sparkBalanced at b1 b2
  constructor
  · unfold starBalanced
    omega
  · unfold sparkBalanced
    omega

/-- `Star.add` is balanced. -/
theorem balanced_starAdd (rng : ℕ → ℝ) (x y : ℝ) (c : CKey) (a sp l ox oy : ℝ)
    (s : FwState) : Balanced s (starAdd rng x y c a sp l ox oy s).2 := by
  cases hp : s.starPool with
  | nil =>
    constructor
    · show starTotalOf _ + _ + _ = _
      rw [starAdd]
      simp only [hp, pushStar, FwState.rand]
      rw [starTotalOf_push]
      simp [starTotalActive, hp]
      omega
    · show sparkTotalOf _ + _ + _ = _
      rw [starAdd]
      simp only [hp, pushStar, FwState.rand]
      simp [sparkTotalActive]
  | cons q rest =>
    constructor
    · show starTotalOf _ + _ + _ = _
      rw [starAdd]
      simp only [hp, pushStar, FwState.rand]
      rw [starTotalOf_push]
      simp [starTotalActive, hp]
      omega
    · show sparkTotalOf _ + _ + _ = _
      rw [starAdd]
      simp only [hp, pushStar, FwState.rand]
      simp [sparkTotalActive]

/-- `Spark.add` is balanced. -/
theorem balanced_sparkAdd (x y : ℝ) (c : CKey) (a sp l : ℝ) (s : FwState) :
    Balanced s (sparkAdd x y c a sp l s).2 := by
  cases hp : s.sparkPool with
  | nil =>
    constructor
    · show starTotalOf _ + _ + _ = _
      rw [sparkAdd]
      simp only [hp, pushSpark]
      simp [starTotalActive]
    · show sparkTotalOf _ + _ + _ = _
      rw [sparkAdd]
      simp only [hp, pushSpark]
      rw [sparkTotalOf_push]
      simp [sparkTotalActive, hp]
      omega
  | cons q rest =>
    constructor
    · show starTotalOf _ + _ + _ = _
      rw [sparkAdd]
      simp only [hp, pushSpark]
      simp [starTotalActive]
    · show sparkTotalOf _ + _ + _ = _
      rw [sparkAdd]
      simp only [hp, pushSpark]
      rw [sparkTotalOf_push]
      simp [sparkTotalActive, hp]
      omega

/-- `BurstFlash.add` is balanced (it touches no particle pool). -/
theorem balanced_flashAdd (x y r : ℝ) (s : FwState) : Balanced s (flashAdd x y r s) := by
  cases hp : s.flashPool with
  | nil =>
    constructor
    · show starTotalOf _ + _ + _ = _
      rw [flashAdd]; simp only [hp]; rfl
    · show sparkTotalOf _ + _ + _ = _
      rw [flashAdd]; simp only [hp]; rfl
  | cons q rest =>
    constructor
    · show starTotalOf _ + _ + _ = _
      rw [flashAdd]; simp only [hp]; rfl
    · show sparkTotalOf _ + _ + _ = _
      rw [flashAdd]; simp only [hp]; rfl

/-- Generic fold preservation of a predicate. -/
theorem foldl_pres {β : Type} (P : FwState → Prop) (f : FwState → β → FwState)
    (hf : ∀ s b, P s → P (f s b)) : ∀ l : List β, ∀ s, P s → P (l.foldl f s) := by
  intro l
  induction l with
  | nil => intro s h; exact h
  | cons b rest ih => intro s h; exact ih (f s b) (hf s b h)

/-- Generic fold preservation of a binary-invariant built by chaining. -/
theorem foldl_balanced {β : Type} (f : FwState → β → FwState)
    (hf : ∀ s b, Balanced s (f s b)) : ∀ l : List β, ∀ s, Balanced s (l.foldl f s) := by
  intro l
  induction l with
  | nil => intro s; exact balanced_refl s
  | cons b rest ih => intro s; exact balanced_trans (hf s b) (ih (f s b))

/-- `createParticleArc` is balanced whenever its factory is. -/
theorem balanced_arc (start arc count randomness : ℝ) (factory : ℝ → FwState → FwState)
    (rng : ℕ → ℝ) (hfac : ∀ a s, Balanced s (factory a s)) (s : FwState) :
    Balanced s (createParticleArc start arc count randomness factory rng s) := by
  refine foldl_balanced _ ?_ _ s
  intro s' k
  exact hfac _ _

/-- `createBurst` is balanced whenever its factory is. -/
theorem balanced_burst (count : ℝ) (factory : ℝ → ℝ → FwState → FwState)
    (startAngle arc : ℝ) (rng : ℕ → ℝ)
    (hfac : ∀ a m s, Balanced s (factory a m s)) (s : FwState) :
    Balanced s (createBurst count factory startAngle arc rng s) := by
  refine foldl_balanced _ ?_ _ s
  intro s' i
  refine balanced_trans (balanced_refl _) ?_
  refine foldl_balanced _ ?_ _ _
  intro s'' j
  exact hfac _ _ _

/-- Every death effect is balanced. -/
theorem balanced_deathEffect (rng : ℕ → ℝ) (st : StarP) (e : DeathEffect) (s : FwState) :
    Balanced s (runDeathEffect rng st e s) := by
  cases e with
  | none => exact balanced_refl s
  | crossette =>
    refine balanced_arc _ _ _ _ _ _ ?_ _
    intro a s'
    exact balanced_starAdd _ _ _ _ _ _ _ _ _ _
  | floral =>
    refine balanced_trans ?_ (balanced_flashAdd _ _ _ _)
    refine balanced_burst _ _ _ _ _ ?_ _
    intro a m s'
    exact balanced_starAdd _ _ _ _ _ _ _ _ _ _
  | crackle =>
    refine balanced_arc _ _ _ _ _ _ ?_ _
    intro a s'
    exact balanced_sparkAdd _ _ _ _ _ _ _

/-- C5: pool conservation.  After any sequence of `add` operations and
death-removals (active-list removal followed by `returnInstance`, which
runs the stored death effect before pooling the instance), the total of
the per-color active lists plus the free list equals the number of
instances ever constructed — for the star pool, and simultaneously for
the spark pool that the death effects feed. -/
theorem pool_conservation (rng : ℕ → ℝ) (ops : List PoolOp) (s : FwState)
    (h : Conserved s) : Conserved (applyOps rng ops s) := by
  refine foldl_pres Conserved _ ?_ ops s h
  intro s' op h'
  cases op with
  | add x y c a sp l ox oy =>
    obtain ⟨h1, h2⟩ := h'
    obtain ⟨b1, b2⟩ := balanced_starAdd rng x y c a sp l ox oy s'
    unfold starConserved at h1
    unfold sparkConserved at h2
    unfold starBalanced at b1
    unfold sparkBalanced at b2
    show Conserved (starAdd rng x y c a sp l ox oy s').2
    constructor
    · unfold starConserved
      omega
    · unfold sparkConserved
      omega
  | kill c i =>
    show Conserved (applyOp rng s' (.kill c i))
    rw [applyOp]
    cases hg : (s'.starActive c)[i]? with
    | none => exact h'
    | some st =>
      have hlen : i < (s'.starActive c).length := by
        by_contra hge
        rw [List.getElem?_eq_none (by omega)] at hg
        exact Option.noConfusion hg
      obtain ⟨h1, h2⟩ := h'
      simp only [starConserved, starTotalActive] at h1
      simp only [sparkConserved, sparkTotalActive] at h2
      have herase : ((s'.starActive c).eraseIdx i).length + 1 = (s'.starActive c).length :=
        List.length_eraseIdx_add_one hlen
      have hset := starTotalOf_set c ((s'.starActive c).eraseIdx i) s'.starActive
      obtain ⟨b1, b2⟩ := balanced_deathEffect rng st st.onDeath
        { s' with starActive := fun c' =>
            if c' = c then (s'.starActive c).eraseIdx i else s'.starActive c' }
      unfold starBalanced at b1
      unfold sparkBalanced at b2
      simp only [starTotalActive, sparkTotalActive] at b1 b2
      simp only [starReturnInstance]
      constructor
      · show starTotalOf _ + _ = _
        simp at b1 ⊢
        omega
      · show sparkTotalOf _ + _ = _
        simp at b2 ⊢
        omega

/-- Witness for `pool_conservation`: an add followed by its death-removal,
run on the empty state. -/
theorem pool_conservation_witness :
    Conserved (applyOps (fun _ => 1 / 2)
      [.add 0 0 .Red 0 0 100 0 0, .kill .Red 0] emptyState) :=
  pool_conservation (fun _ => 1 / 2)
    [.add 0 0 .Red 0 0 100 0 0, .kill .Red 0] emptyState ⟨rfl, rfl⟩

/-! ### The crackle effect (C8) -/

/-- A velocity of magnitude `v < 2.4` decomposed on sine and cosine. -/
theorem sin_cos_speed_sq (t v : ℝ) (h0 : 0 ≤ v) (h1 : v < 2.4) :
    (Real.sin t * v) ^ 2 + (Real.cos t * v) ^ 2 < 2.4 ^ 2 := by
  have h : (Real.sin t * v) ^ 2 + (Real.cos t * v) ^ 2
      = (Real.sin t ^ 2 + Real.cos t ^ 2) * v ^ 2 := by ring
  rw [h, Real.sin_sq_add_cos_sq, one_mul]
  nlinarith

/-- A fold whose every step appends exactly one spark (satisfying `P`) to
the list of color `c` appends a list of them. -/
theorem foldl_spark_append (c : CKey) (P : SparkP → Prop) (g : FwState → ℕ → FwState)
    (hg : ∀ s k, ∃ pk, (g s k).sparkActive c = s.sparkActive c ++ [pk] ∧
      (∀ c', c' ≠ c → (g s k).sparkActive c' = s.sparkActive c') ∧ P pk) :
    ∀ l : List ℕ, ∀ s, ∃ new : List SparkP,
      (l.foldl g s).sparkActive c = s.sparkActive c ++ new ∧
      (∀ c', c' ≠ c → (l.foldl g s).sparkActive c' = s.sparkActive c') ∧
      new.length = l.length ∧ ∀ pk ∈ new, P pk := by
  intro l
  induction l with
  | nil =>
    intro s
    exact ⟨[], by simp, fun c' _ => rfl, rfl, by simp⟩
  | cons k rest ih =>
    intro s
    obtain ⟨pk, h1, h2, hp⟩ := hg s k
    obtain ⟨new, g1, g2, g3, g4⟩ := ih (g s k)
    refine ⟨pk :: new, ?_, ?_, ?_, ?_⟩
    · rw [List.foldl_cons, g1, h1]
      simp
    · intro c' hc'
      rw [List.foldl_cons, g2 c' hc', h2 c' hc']
    · simp [g3]
    · intro q hq
      rcases List.mem_cons.mp hq with h | h
      · exact h ▸ hp
      · exact g4 q h

/-- The crackle arc (`start 0`, full circle, `count 16`) runs exactly 16
times: the loop bound is `15.5` steps. -/
theorem arcIterCount_16 : arcIterCount 0 (2 * Real.pi) 16 = 16 := by
  have hpi := Real.pi_pos
  unfold arcIterCount
  have hend : ((0:ℝ) + 2 * Real.pi - 2 * Real.pi / 16 * 0.5) > 0 := by nlinarith
  have hdelta : (0:ℝ) < 2 * Real.pi / 16 := by positivity
  rw [if_pos hend, if_pos hdelta]
  have heq : ((0:ℝ) + 2 * Real.pi - 2 * Real.pi / 16 * 0.5 - 0) / (2 * Real.pi / 16)
      = 31 / 2 := by
    rw [div_eq_iff (by positivity)]
    ring
  rw [heq]
  rw [Nat.ceil_eq_iff (by norm_num)]
  norm_num

/-- `createParticleArc` with a factory that appends exactly one spark
(satisfying `P`) to color `c` per call appends `arcIterCount` of them. -/
theorem arc_spark_append (start arc count randomness : ℝ) (factory : ℝ → FwState → FwState)
    (rng : ℕ → ℝ) (c : CKey) (P : SparkP → Prop)
    (hfac : ∀ a s, ∃ pk, (factory a s).sparkActive c = s.sparkActive c ++ [pk] ∧
      (∀ c', c' ≠ c → (factory a s).sparkActive c' = s.sparkActive c') ∧ P pk)
    (s : FwState) :
    ∃ new : List SparkP,
      (createParticleArc start arc count randomness factory rng s).sparkActive c
          = s.sparkActive c ++ new ∧
      (∀ c', c' ≠ c →
        (createParticleArc start arc count randomness factory rng s).sparkActive c'
          = s.sparkActive c') ∧
      new.length = arcIterCount start arc count ∧ ∀ pk ∈ new, P pk := by
  have h := foldl_spark_append c P
    (fun s (k : ℕ) =>
      let r := FwState.rand s rng
      factory (start + (k : ℝ) * (arc / count) + r.1 * (arc / count) * randomness) r.2)
    (fun s' k => hfac _ _)
    (List.range (arcIterCount start arc count)) s
  simpa [createParticleArc] using h

/-- C8: a crackle death at a star spawns exactly 16 Sparks, appended to
the gold list (no other spark list changes), each gold-colored, with
velocity magnitude below `2.4` (speed `rand^0.45 · 2.4`) and life in
`[300, 500)`. -/
theorem crackle_effect_spawns (rng : ℕ → ℝ) (hr : ∀ k, 0 ≤ rng k ∧ rng k < 1)
    (star : StarP) (s : FwState) :
    ∃ new : List SparkP,
      (crackleEffect rng star s).sparkActive .Gold = s.sparkActive .Gold ++ new ∧
      (∀ c, c ≠ CKey.Gold → (crackleEffect rng star s).sparkActive c = s.sparkActive c) ∧
      new.length = 16 ∧
      ∀ pk ∈ new, pk.color = .Gold ∧ pk.speedX ^ 2 + pk.speedY ^ 2 < 2.4 ^ 2 ∧
        300 ≤ pk.life ∧ pk.life < 500 := by
  have hfac : ∀ (a : ℝ) (s' : FwState), ∃ pk : SparkP,
      ((fun angle s_ =>
        let rs := FwState.rand s_ rng
        let rl := FwState.rand rs.2 rng
        (sparkAdd star.x star.y .Gold angle (rs.1 ^ (0.45:ℝ) * 2.4)
          (300 + rl.1 * 200) rl.2).2) a s').sparkActive .Gold
          = s'.sparkActive .Gold ++ [pk] ∧
      (∀ c', c' ≠ CKey.Gold →
        ((fun angle s_ =>
          let rs := FwState.rand s_ rng
          let rl := FwState.rand rs.2 rng
          (sparkAdd star.x star.y .Gold angle (rs.1 ^ (0.45:ℝ) * 2.4)
            (300 + rl.1 * 200) rl.2).2) a s').sparkActive c' = s'.sparkActive c') ∧
      ((fun pk : SparkP => pk.color = .Gold ∧ pk.speedX ^ 2 + pk.speedY ^ 2 < 2.4 ^ 2 ∧
        300 ≤ pk.life ∧ pk.life < 500) pk) := by
    intro a s'
    have hv0 : (0:ℝ) ≤ rng s'.rngIdx ^ (0.45:ℝ) * 2.4 := by
      have := Real.rpow_nonneg (hr s'.rngIdx).1 (0.45:ℝ)
      nlinarith
    have hv1 : rng s'.rngIdx ^ (0.45:ℝ) * 2.4 < 2.4 := by
      have h1 : rng s'.rngIdx ^ (0.45:ℝ) < 1 := by
        rcases eq_or_lt_of_le (hr s'.rngIdx).1 with h0 | h0
        · rw [← h0, Real.zero_rpow (by norm_num)]
          norm_num
        · exact Real.rpow_lt_one (le_of_lt h0) (hr s'.rngIdx).2 (by norm_num)
      nlinarith
    have hl0 := (hr (s'.rngIdx + 1)).1
    have hl1 := (hr (s'.rngIdx + 1)).2
    cases hsp : s'.sparkPool with
    | nil =>
      refine
        ⟨{ uid := s'.sparkNextUid
           x := star.x
           y := star.y
           prevX := star.x
           prevY := star.y
           color := .Gold
           speedX := Real.sin a * (rng s'.rngIdx ^ (0.45:ℝ) * 2.4)
           speedY := Real.cos a * (rng s'.rngIdx ^ (0.45:ℝ) * 2.4)
           life := 300 + rng (s'.rngIdx + 1) * 200
           fullLife := 300 + rng (s'.rngIdx + 1) * 200 }, ?_, ?_, ?_⟩
      · simp only [FwState.rand, sparkAdd, hsp, pushSpark]
        simp
      · intro c' hc'
        simp only [FwState.rand, sparkAdd, hsp, pushSpark]
        simp [hc']
      · exact ⟨rfl, sin_cos_speed_sq _ _ hv0 hv1, by nlinarith, by nlinarith⟩
    | cons q rest =>
      refine
        ⟨{ uid := s'.sparkNextUid
           x := star.x
           y := star.y
           prevX := star.x
           prevY := star.y
           color := .Gold
           speedX := Real.sin a * (rng s'.rngIdx ^ (0.45:ℝ) * 2.4)
           speedY := Real.cos a * (rng s'.rngIdx ^ (0.45:ℝ) * 2.4)
           life := 300 + rng (s'.rngIdx + 1) * 200
           fullLife := 300 + rng (s'.rngIdx + 1) * 200 }, ?_, ?_, ?_⟩
      · simp only [FwState.rand, sparkAdd, hsp, pushSpark]
        simp
      · intro c' hc'
        simp only [FwState.rand, sparkAdd, hsp, pushSpark]
        simp [hc']
      · exact ⟨rfl, sin_cos_speed_sq _ _ hv0 hv1, by nlinarith, by nlinarith⟩
  obtain ⟨new, g1, g2, g3, g4⟩ := arc_spark_append 0 (2 * Real.pi) 16 1.8 _ rng .Gold
    (fun pk => pk.color = .Gold ∧ pk.speedX ^ 2 + pk.speedY ^ 2 < 2.4 ^ 2 ∧
      300 ≤ pk.life ∧ pk.life < 500) hfac s
  rw [arcIterCount_16] at g3
  exact ⟨new, g1, g2, g3, g4⟩

/-- Witness for `crackle_effect_spawns` at a concrete stream, star and
state. -/
theorem crackle_effect_spawns_witness :
    ∃ new : List SparkP,
      (crackleEffect (fun _ => 1 / 2) mkFreshStar emptyState).sparkActive .Gold
          = emptyState.sparkActive .Gold ++ new ∧
      (∀ c, c ≠ CKey.Gold →
        (crackleEffect (fun _ => 1 / 2) mkFreshStar emptyState).sparkActive c
          = emptyState.sparkActive c) ∧
      new.length = 16 ∧
      ∀ pk ∈ new, pk.color = .Gold ∧ pk.speedX ^ 2 + pk.speedY ^ 2 < 2.4 ^ 2 ∧
        300 ≤ pk.life ∧ pk.life < 500 :=
  crackle_effect_spawns (fun _ => 1 / 2)
    (fun _ => ⟨one_half_pos.le, one_half_lt_one⟩) mkFreshStar emptyState

/-! ### The main burst (C1) -/

/-- `mutateLast` rewrites exactly the appended element. -/
theorem mutateLast_append {α : Type} (f : α → α) (l : List α) (a : α) :
    mutateLast f (l ++ [a]) = l ++ [f a] := by
  induction l with
  | nil => rfl
  | cons b rest ih =>
    cases rest with
    | nil => rfl
    | cons q t =>
      show b :: mutateLast f ((q :: t) ++ [a]) = b :: ((q :: t) ++ [f a])
      rw [ih]

/-- `applyGlitter` touches only the spark-emission fields. -/
theorem applyGlitter_life (sh : Shell) (st : StarP) :
    (applyGlitter sh st).life = st.life ∧ (applyGlitter sh st).color = st.color := by
  unfold applyGlitter
  cases sh.glitter with
  | none => exact ⟨rfl, rfl⟩
  | some g =>
    by_cases h1 : g = "light"
    · simp [h1]
    · by_cases h2 : g = "medium"
      · simp [h1, h2]
      · by_cases h3 : g = "heavy"
        · simp [h1, h2, h3]
        · simp [h1, h2, h3]

/-- `applyEffects` touches only `onDeath`. -/
theorem applyEffects_life (sh : Shell) (st : StarP) :
    (applyEffects sh st).life = st.life ∧ (applyEffects sh st).color = st.color := by
  unfold applyEffects
  by_cases h1 : sh.crossette <;> by_cases h2 : sh.floral <;> by_cases h3 : sh.crackle <;>
    simp [h1, h2, h3]

/-- A fold whose every step appends exactly one star (satisfying `P`) to
the list of color `c`, leaves the other star lists and the flash list
unchanged, appends a list of them. -/
theorem foldl_star_append (c : CKey) (P : StarP → Prop) (g : FwState → ℕ → FwState)
    (hg : ∀ s k, ∃ st, (g s k).starActive c = s.starActive c ++ [st] ∧
      (∀ c', c' ≠ c → (g s k).starActive c' = s.starActive c') ∧
      (g s k).flashActive = s.flashActive ∧ P st) :
    ∀ l : List ℕ, ∀ s, ∃ new : List StarP,
      (l.foldl g s).starActive c = s.starActive c ++ new ∧
      (∀ c', c' ≠ c → (l.foldl g s).starActive c' = s.starActive c') ∧
      (l.foldl g s).flashActive = s.flashActive ∧
      new.length = l.length ∧ ∀ st ∈ new, P st := by
  intro l
  induction l with
  | nil =>
    intro s
    exact ⟨[], by simp, fun c' _ => rfl, rfl, rfl, by simp⟩
  | cons k rest ih =>
    intro s
    obtain ⟨st, h1, h2, h3, hp⟩ := hg s k
    obtain ⟨new, g1, g2, g3, g4, g5⟩ := ih (g s k)
    refine ⟨st :: new, ?_, ?_, ?_, ?_, ?_⟩
    · rw [List.foldl_cons, g1, h1]
      simp
    · intro c' hc'
      rw [List.foldl_cons, g2 c' hc', h2 c' hc']
    · rw [List.foldl_cons, g3, h3]
    · simp [g4]
    · intro q hq
      rcases List.mem_cons.mp hq with h | h
      · exact h ▸ hp
      · exact g5 q h

/-- `createBurst` with a one-star-appending factory appends
`burstEmitTotal` stars in total. -/
theorem burst_star_append (count arc : ℝ) (factory : ℝ → ℝ → FwState → FwState)
    (rng : ℕ → ℝ) (c : CKey) (P : StarP → Prop)
    (hfac : ∀ a m s, ∃ st, (factory a m s).starActive c = s.starActive c ++ [st] ∧
      (∀ c', c' ≠ c → (factory a m s).starActive c' = s.starActive c') ∧
      (factory a m s).flashActive = s.flashActive ∧ P st) (s : FwState) :
    ∃ new : List StarP,
      (createBurst count factory 0 arc rng s).starActive c = s.starActive c ++ new ∧
      (∀ c', c' ≠ c →
        (createBurst count factory 0 arc rng s).starActive c' = s.starActive c') ∧
      (createBurst count factory 0 arc rng s).flashActive = s.flashActive ∧
      new.length = burstEmitTotal count arc ∧ ∀ st ∈ new, P st := by
  set ringBody : FwState → ℕ → FwState := fun s (i : ℕ) =>
    let ringSize := Real.cos (burstRingAngle count i)
    let partsPerFullRing := burstC count * ringSize
    let angleInc := 2 * Real.pi / partsPerFullRing
    let r0 := FwState.rand s rng
    let angleOffset := r0.1 * angleInc + 0
    let maxRandomAngleOffset := angleInc * 0.33
    (List.range (burstRingParts count arc i)).foldl
      (fun s (j : ℕ) =>
        let r := FwState.rand s rng
        factory (angleInc * (j : ℝ) + angleOffset + r.1 * maxRandomAngleOffset)
          ringSize r.2)
      r0.2
    with hbody
  have hring : ∀ ringIdxs : List ℕ, ∀ s0 : FwState,
      ∃ new : List StarP,
        (ringIdxs.foldl ringBody s0).starActive c = s0.starActive c ++ new ∧
        (∀ c', c' ≠ c → (ringIdxs.foldl ringBody s0).starActive c' = s0.starActive c') ∧
        (ringIdxs.foldl ringBody s0).flashActive = s0.flashActive ∧
        new.length = (ringIdxs.map (burstRingParts count arc)).sum ∧
        ∀ st ∈ new, P st := by
    intro ringIdxs
    induction ringIdxs with
    | nil =>
      intro s0
      exact ⟨[], by simp, fun c' _ => rfl, rfl, rfl, by simp⟩
    | cons i rest ih =>
      intro s0
      obtain ⟨new1, a1, a2, a3, a4, a5⟩ := foldl_star_append c P
        (fun s_ (j : ℕ) =>
          let r := FwState.rand s_ rng
          factory (2 * Real.pi / (burstC count * Real.cos (burstRingAngle count i)) * (j : ℝ)
              + ((FwState.rand s0 rng).1
                  * (2 * Real.pi / (burstC count * Real.cos (burstRingAngle count i))) + 0)
              + r.1 * (2 * Real.pi / (burstC count * Real.cos (burstRingAngle count i)) * 0.33))
            (Real.cos (burstRingAngle count i)) r.2)
        (fun s' j => hfac _ _ _) (List.range (burstRingParts count arc i))
        ((FwState.rand s0 rng).2)
      obtain ⟨new2, b1, b2, b3, b4, b5⟩ := ih (ringBody s0 i)
      have a1' : (ringBody s0 i).starActive c = s0.starActive c ++ new1 := a1
      have a2' : ∀ c', c' ≠ c → (ringBody s0 i).starActive c' = s0.starActive c' := a2
      have a3' : (ringBody s0 i).flashActive = s0.flashActive := a3
      refine ⟨new1 ++ new2, ?_, ?_, ?_, ?_, ?_⟩
      · rw [List.foldl_cons, b1, a1']
        simp [List.append_assoc]
      · intro c' hc'
        rw [List.foldl_cons, b2 c' hc', a2' c' hc']
      · rw [List.foldl_cons, b3, a3']
      · simp only [List.length_append, a4, b4, List.map_cons, List.sum_cons,
          List.length_range]
      · intro q hq
        rcases List.mem_append.mp hq with h | h
        · exact a5 q h
        · exact b5 q h
  obtain ⟨new, h1, h2, h3, h4, h5⟩ := hring (List.range (burstRingNum count)) s
  have e1 : (createBurst count factory 0 arc rng s).starActive c = s.starActive c ++ new := h1
  have e2 : ∀ c', c' ≠ c →
      (createBurst count factory 0 arc rng s).starActive c' = s.starActive c' := h2
  have e3 : (createBurst count factory 0 arc rng s).flashActive = s.flashActive := h3
  have e4 : new.length = burstEmitTotal count arc := h4
  exact ⟨new, e1, e2, e3, e4, h5⟩

/-- `C² = 10π` for the ten-star burst. -/
theorem burstC_10_sq : burstC 10 ^ 2 = 10 * Real.pi := by
  have h1 : (0:ℝ) ≤ 10 / Real.pi := by positivity
  have h2 : Real.sqrt (10 / Real.pi) ^ 2 = 10 / Real.pi := Real.sq_sqrt h1
  have h3 : (2 * (0.5 * Real.sqrt (10 / Real.pi)) * Real.pi) ^ 2
      = Real.sqrt (10 / Real.pi) ^ 2 * Real.pi ^ 2 := by ring
  unfold burstC
  rw [h3, h2]
  field_simp
  ring

/-- The burst circumference for ten stars is positive. -/
theorem burstC_10_pos : 0 < burstC 10 := by
  unfold burstC
  have h1 : (0:ℝ) < 10 / Real.pi := by positivity
  have := Real.sqrt_pos.mpr h1
  positivity

/-- Numeric window for the ten-star circumference `√(10π) ≈ 5.60499`. -/
theorem burstC_10_bounds : 5.604 < burstC 10 ∧ burstC 10 < 5.606 := by
  have hsq := burstC_10_sq
  have hpos := burstC_10_pos
  constructor
  · nlinarith [Real.pi_gt_d6]
  · nlinarith [Real.pi_lt_d6]

/-- Ring 1's latitude angle is `π / C`. -/
theorem burstRingAngle_10_1 : burstRingAngle 10 1 = Real.pi / burstC 10 := by
  unfold burstRingAngle
  have h := burstC_10_pos
  rw [Nat.cast_one]
  field_simp
  ring

/-- Ring 1's latitude angle squared is `π / 10`. -/
theorem burstRingAngle_10_1_sq : burstRingAngle 10 1 ^ 2 = Real.pi / 10 := by
  rw [burstRingAngle_10_1, div_pow, burstC_10_sq]
  rw [div_eq_div_iff (by nlinarith [Real.pi_pos]) (by norm_num)]
  ring

/-- Numeric window for `cos` at ring 1's angle (`≈ cos 0.56050 ≈ 0.84706`),
obtained from the quartic Taylor bound. -/
theorem cos_burstRingAngle_10_1 :
    0.8377 < Real.cos (burstRingAngle 10 1) ∧ Real.cos (burstRingAngle 10 1) < 0.8481 := by
  have hpos : 0 < burstRingAngle 10 1 := by
    rw [burstRingAngle_10_1]
    exact div_pos Real.pi_pos burstC_10_pos
  have hlt : burstRingAngle 10 1 < 1 := by
    rw [burstRingAngle_10_1]
    rw [div_lt_one burstC_10_pos]
    nlinarith [Real.pi_lt_d6, burstC_10_bounds.1]
  have hb := Real.cos_bound (x := burstRingAngle 10 1)
    (by rw [abs_of_nonneg (le_of_lt hpos)]; exact le_of_lt hlt)
  rw [abs_of_nonneg (le_of_lt hpos)] at hb
  rw [abs_le] at hb
  have hsq := burstRingAngle_10_1_sq
  have h4 : burstRingAngle 10 1 ^ 4 = (Real.pi / 10) ^ 2 := by
    rw [show (4:ℕ) = 2 * 2 from rfl, pow_mul, hsq]
  obtain ⟨hb1, hb2⟩ := hb
  constructor
  · nlinarith [Real.pi_gt_d6, Real.pi_lt_d6]
  · nlinarith [Real.pi_gt_d6, Real.pi_lt_d6]

/-- Ring 2's latitude angle doubles ring 1's. -/
theorem burstRingAngle_10_2 : burstRingAngle 10 2 = 2 * burstRingAngle 10 1 := by
  unfold burstRingAngle
  have h := burstC_10_pos
  rw [Nat.cast_ofNat, Nat.cast_one]
  field_simp
  ring

/-- The ten-star burst stacks three rings (`⌊C/2⌋ = 2`). -/
theorem burstRingNum_10 : burstRingNum 10 = 3 := by
  unfold burstRingNum
  have hb := burstC_10_bounds
  have : ⌊burstC 10 / 2⌋₊ = 2 := by
    rw [Nat.floor_eq_iff (by linarith [hb.1])]
    constructor
    · nlinarith [hb.1]
    · nlinarith [hb.2]
  omega

/-- The full-circle arc fraction is one. -/
theorem arcFrac_one : (2 * Real.pi) / (2 * Real.pi) = 1 :=
  div_self (by positivity)

/-- Ring 0 of the ten-star burst emits 6 particles. -/
theorem burstRingParts_10_0 : burstRingParts 10 (2 * Real.pi) 0 = 6 := by
  unfold burstRingParts burstPartsPerArc
  have h0 : burstRingAngle 10 0 = 0 := by
    unfold burstRingAngle
    rw [Nat.cast_zero, zero_div, zero_mul]
  rw [h0, Real.cos_zero, arcFrac_one, mul_one, mul_one]
  have hb := burstC_10_bounds
  rw [Nat.ceil_eq_iff (by norm_num)]
  constructor
  · push_cast
    nlinarith [hb.1]
  · push_cast
    nlinarith [hb.2]

/-- Ring 1 of the ten-star burst emits 5 particles
(`C·cos(ringAngle) ≈ 4.748`). -/
theorem burstRingParts_10_1 : burstRingParts 10 (2 * Real.pi) 1 = 5 := by
  unfold burstRingParts burstPartsPerArc
  rw [arcFrac_one, mul_one]
  have hb := burstC_10_bounds
  have hc := cos_burstRingAngle_10_1
  rw [Nat.ceil_eq_iff (by norm_num)]
  constructor
  · push_cast
    nlinarith [hb.1, hc.1]
  · push_cast
    nlinarith [hb.2, hc.2, hc.1]

/-- Ring 2 of the ten-star burst emits 3 particles
(`C·cos(2·ringAngle) ≈ 2.437`). -/
theorem burstRingParts_10_2 : burstRingParts 10 (2 * Real.pi) 2 = 3 := by
  unfold burstRingParts burstPartsPerArc
  rw [arcFrac_one, mul_one]
  have hb := burstC_10_bounds
  have hc := cos_burstRingAngle_10_1
  have h2 : Real.cos (burstRingAngle 10 2) = 2 * Real.cos (burstRingAngle 10 1) ^ 2 - 1 := by
    rw [burstRingAngle_10_2, Real.cos_two_mul]
  rw [h2]
  rw [Nat.ceil_eq_iff (by norm_num)]
  constructor
  · push_cast
    nlinarith [hb.1, hc.1, hc.2]
  · push_cast
    nlinarith [hb.2, hc.1, hc.2]

/-- The ten-star full-circle burst emits 14 particles, not 10:
six on the equatorial ring, five on the middle ring, three at the pole
ring (`⌈5.605⌉ + ⌈4.748⌉ + ⌈2.437⌉`). -/
theorem burstEmitTotal_10 : burstEmitTotal 10 (2 * Real.pi) = 14 := by
  unfold burstEmitTotal
  rw [burstRingNum_10]
  rw [show List.range 3 = [0, 1, 2] from rfl]
  simp only [List.map_cons, List.map_nil, List.sum_cons, List.sum_nil]
  rw [burstRingParts_10_0, burstRingParts_10_1, burstRingParts_10_2]
  norm_num

/-- `BurstFlash.add` always appends the requested flash (every field is
reassigned, whether the instance is pooled or fresh). -/
theorem flashAdd_active (x y r : ℝ) (s : FwState) :
    (flashAdd x y r s).flashActive = s.flashActive ++ [⟨x, y, r⟩] := by
  cases hp : s.flashPool with
  | nil =>
    unfold flashAdd
    simp only [hp]
  | cons i rest =>
    unfold flashAdd
    simp only [hp]

/-- What one `Shell.burstFactory` call does: it appends exactly one star —
the freshly initialized instance, mutated by the glitter profile and the
effect flags — to the shell color's list, and touches no other star list
and no flash. -/
theorem burstFactory_shape (sh : Shell) (rng : ℕ → ℝ) (x y speed starLife variation a m : ℝ)
    (s : FwState) :
    ∃ base : StarP,
      (Shell.burstFactory sh rng x y speed starLife variation a m s).starActive sh.color
          = s.starActive sh.color ++ [applyEffects sh (applyGlitter sh base)] ∧
      (∀ c', c' ≠ sh.color →
        (Shell.burstFactory sh rng x y speed starLife variation a m s).starActive c'
          = s.starActive c') ∧
      (Shell.burstFactory sh rng x y speed starLife variation a m s).flashActive
          = s.flashActive ∧
      base.life = starLife + starLife * (rng s.rngIdx - 0.5) * variation ∧
      base.color = sh.color ∧ base.sparkFreq = 0 := by
  cases hp : s.starPool with
  | nil =>
    refine ⟨{ uid := s.starNextUid
              visible := true
              heavy := false
              x := x
              y := y
              prevX := x
              prevY := y
              color := sh.color
              speedX := Real.sin a * (m * speed) + 0
              speedY := Real.cos a * (m * speed) + 0
              life := starLife + starLife * (rng s.rngIdx - 0.5) * variation
              fullLife := starLife + starLife * (rng s.rngIdx - 0.5) * variation
              spinAngle := rng (s.rngIdx + 1) * (2 * Real.pi)
              spinSpeed := 0.8
              spinRadius := 0
              sparkFreq := 0
              sparkSpeed := 1
              sparkTimer := 0
              sparkColor := sh.color
              sparkLife := 750
              sparkLifeVariation := 0.25
              strobe := false
              strobeFreq := mkFreshStar.strobeFreq
              onDeath := mkFreshStar.onDeath
              secondColor := mkFreshStar.secondColor
              transitionTime := mkFreshStar.transitionTime
              colorChanged := mkFreshStar.colorChanged
              updateFrame := mkFreshStar.updateFrame }, ?_, ?_, ?_, rfl, rfl, rfl⟩
    · unfold Shell.burstFactory
      simp only [FwState.rand, starAdd, hp, pushStar, mutateLastStar, if_true]
      rw [mutateLast_append]
    · intro c' hc'
      unfold Shell.burstFactory
      simp only [FwState.rand, starAdd, hp, pushStar, mutateLastStar]
      simp [hc']
    · unfold Shell.burstFactory
      simp only [FwState.rand, starAdd, hp, pushStar, mutateLastStar]
  | cons q rest =>
    refine ⟨{ uid := s.starNextUid
              visible := true
              heavy := false
              x := x
              y := y
              prevX := x
              prevY := y
              color := sh.color
              speedX := Real.sin a * (m * speed) + 0
              speedY := Real.cos a * (m * speed) + 0
              life := starLife + starLife * (rng s.rngIdx - 0.5) * variation
              fullLife := starLife + starLife * (rng s.rngIdx - 0.5) * variation
              spinAngle := rng (s.rngIdx + 1) * (2 * Real.pi)
              spinSpeed := 0.8
              spinRadius := 0
              sparkFreq := 0
              sparkSpeed := 1
              sparkTimer := 0
              sparkColor := sh.color
              sparkLife := 750
              sparkLifeVariation := 0.25
              strobe := false
              strobeFreq := q.strobeFreq
              onDeath := q.onDeath
              secondColor := q.secondColor
              transitionTime := q.transitionTime
              colorChanged := q.colorChanged
              updateFrame := q.updateFrame }, ?_, ?_, ?_, rfl, rfl, rfl⟩
    · unfold Shell.burstFactory
      simp only [FwState.rand, starAdd, hp, pushStar, mutateLastStar, if_true]
      rw [mutateLast_append]
    · intro c' hc'
      unfold Shell.burstFactory
      simp only [FwState.rand, starAdd, hp, pushStar, mutateLastStar]
      simp [hc']
    · unfold Shell.burstFactory
      simp only [FwState.rand, starAdd, hp, pushStar, mutateLastStar]

/-- Facts about the scenario shell's derived fields. -/
theorem c1Shell_fields :
    c1Shell.starCount = 10 ∧ orDefault c1Shell.starLife 1500 = 1000 ∧
    c1Shell.starLifeVariation = 0.125 ∧ c1Shell.color = .Red ∧
    c1Shell.spreadSize = 400 ∧ c1Shell.glitter = none ∧
    c1Shell.crossette = false ∧ c1Shell.floral = false ∧ c1Shell.crackle = false := by
  refine ⟨?_, ?_, ?_, rfl, rfl, rfl, rfl, rfl, rfl⟩
  · show (if (10:ℝ) = 0 then _ else (10:ℝ)) = 10
    norm_num
  · show (if (1000:ℝ) = 0 then _ else (1000:ℝ)) = 1000
    norm_num
  · show orDefault none 0.125 = 0.125
    rfl

/-- The heart of the burst scenario: bursting the `{400, 10, 1000, Red}`
shell at `(100, 100)` on the empty state adds exactly **14** stars (the
ring discretization of `createBurst` overshoots the requested 10), all to
the Red list, each with life within `1000 ± 1000·0.125·0.5`, plus exactly
one flash at `(100, 100)` of radius `100`. -/
theorem burst_scenario_core (rng : ℕ → ℝ) (hr : ∀ k, 0 ≤ rng k ∧ rng k < 1) :
    ((c1Shell.burst rng 100 100 emptyState).starActive .Red).length = 14 ∧
    (∀ c, c ≠ CKey.Red → (c1Shell.burst rng 100 100 emptyState).starActive c = []) ∧
    (∀ st ∈ (c1Shell.burst rng 100 100 emptyState).starActive .Red,
      |st.life - 1000| ≤ 1000 * 0.125 * 0.5 ∧ st.color = .Red) ∧
    (c1Shell.burst rng 100 100 emptyState).flashActive = [⟨100, 100, 100⟩] := by
  obtain ⟨hsc, hsl, hsv, hcol, hsp, hgl, hc1, hc2, hc3⟩ := c1Shell_fields
  have hfac : ∀ a m s, ∃ st,
      (c1Shell.burstFactory rng 100 100 (c1Shell.spreadSize / 96)
        (orDefault c1Shell.starLife 1500) c1Shell.starLifeVariation a m s).starActive .Red
          = s.starActive .Red ++ [st] ∧
      (∀ c', c' ≠ CKey.Red →
        (c1Shell.burstFactory rng 100 100 (c1Shell.spreadSize / 96)
          (orDefault c1Shell.starLife 1500) c1Shell.starLifeVariation a m s).starActive c'
            = s.starActive c') ∧
      (c1Shell.burstFactory rng 100 100 (c1Shell.spreadSize / 96)
        (orDefault c1Shell.starLife 1500) c1Shell.starLifeVariation a m s).flashActive
          = s.flashActive ∧
      (|st.life - 1000| ≤ 1000 * 0.125 * 0.5 ∧ st.color = .Red) := by
    intro a m s
    obtain ⟨base, b1, b2, b3, b4, b5, b6⟩ := burstFactory_shape c1Shell rng 100 100
      (c1Shell.spreadSize / 96) (orDefault c1Shell.starLife 1500)
      c1Shell.starLifeVariation a m s
    rw [hcol] at b1 b2
    refine ⟨applyEffects c1Shell (applyGlitter c1Shell base), b1, b2, b3, ?_, ?_⟩
    · rw [(applyEffects_life _ _).1, (applyGlitter_life _ _).1, b4, hsl, hsv]
      have h0 := (hr s.rngIdx).1
      have h1 := (hr s.rngIdx).2
      rw [abs_le]
      constructor <;> nlinarith
    · rw [(applyEffects_life _ _).2, (applyGlitter_life _ _).2, b5, hcol]
  have hburst : c1Shell.burst rng 100 100 emptyState
      = flashAdd 100 100 (c1Shell.spreadSize / 4)
        (createBurst c1Shell.starCount
          (c1Shell.burstFactory rng 100 100 (c1Shell.spreadSize / 96)
            (orDefault c1Shell.starLife 1500) c1Shell.starLifeVariation)
          0 (2 * Real.pi) rng emptyState) := rfl
  obtain ⟨new, e1, e2, e3, e4, e5⟩ := burst_star_append c1Shell.starCount (2 * Real.pi)
    (c1Shell.burstFactory rng 100 100 (c1Shell.spreadSize / 96)
      (orDefault c1Shell.starLife 1500) c1Shell.starLifeVariation)
    rng .Red (fun st => |st.life - 1000| ≤ 1000 * 0.125 * 0.5 ∧ st.color = .Red)
    hfac emptyState
  rw [hsc] at e4
  rw [burstEmitTotal_10] at e4
  have hflashlists : ∀ (x y r : ℝ) (s : FwState) (c : CKey),
      (flashAdd x y r s).starActive c = s.starActive c := by
    intro x y r s c
    cases hp : s.flashPool with
    | nil => unfold flashAdd; simp only [hp]
    | cons i rest => unfold flashAdd; simp only [hp]
  refine ⟨?_, ?_, ?_, ?_⟩
  · rw [hburst, hflashlists, e1]
    simp [emptyState, e4]
  · intro c hc
    rw [hburst, hflashlists, e2 c hc]
    rfl
  · intro st hst
    rw [hburst, hflashlists, e1] at hst
    have : st ∈ new := by simpa [emptyState] using hst
    exact e5 st this
  · rw [hburst, flashAdd_active, e3]
    have : c1Shell.spreadSize / 4 = 100 := by rw [hsp]; norm_num
    rw [this]
    rfl

/-- C1 (counterexample): the burst of the `{spreadSize: 400, starCount:
10, starLife: 1000, color: Red}` shell on the empty pools does **not**
add 10 stars — `createBurst` emits `⌈5.605⌉ + ⌈4.748⌉ + ⌈2.437⌉ = 14`. -/
theorem burst_scenario_not_ten :
    ((c1Shell.burst (fun _ => 1 / 2) 100 100 emptyState).starActive .Red).length ≠ 10 := by
  have h := (burst_scenario_core (fun _ => 1 / 2)
    (fun _ => ⟨one_half_pos.le, one_half_lt_one⟩)).1
  omega

/-- C1 (amended): the scenario burst adds exactly 14 Stars (the burst
geometry overshoots the requested `starCount = 10`), all on the Red
active list, each with life in `1000 ± 1000·starLifeVariation·0.5`, and
exactly one BurstFlash at `(100, 100)` with radius `100 = spreadSize/4`. -/
theorem burst_scenario (rng : ℕ → ℝ) (hr : ∀ k, 0 ≤ rng k ∧ rng k < 1) :
    ((c1Shell.burst rng 100 100 emptyState).starActive .Red).length = 14 ∧
    (∀ c, c ≠ CKey.Red → (c1Shell.burst rng 100 100 emptyState).starActive c = []) ∧
    (∀ st ∈ (c1Shell.burst rng 100 100 emptyState).starActive .Red,
      |st.life - 1000| ≤ 1000 * 0.125 * 0.5 ∧ st.color = .Red) ∧
    (c1Shell.burst rng 100 100 emptyState).flashActive = [⟨100, 100, 100⟩] :=
  burst_scenario_core rng hr

/-- Witness for `burst_scenario` at the constant-half stream. -/
theorem burst_scenario_witness :
    ((c1Shell.burst (fun _ => (1:ℝ) / 2) 100 100 emptyState).starActive .Red).length = 14 ∧
    (c1Shell.burst (fun _ => (1:ℝ) / 2) 100 100 emptyState).flashActive
      = [⟨100, 100, 100⟩] :=
  ⟨(burst_scenario (fun _ => 1 / 2) (fun _ => ⟨one_half_pos.le, one_half_lt_one⟩)).1,
   (burst_scenario (fun _ => 1 / 2) (fun _ => ⟨one_half_pos.le, one_half_lt_one⟩)).2.2.2⟩

/-! ### Willow/palm glitter names match no profile (C10) -/

/-- A glitter name other than `light`/`medium`/`heavy` leaves the star
untouched. -/
theorem applyGlitter_unmatched (sh : Shell) (st : StarP)
    (h : sh.glitter = some "willow" ∨ sh.glitter = some "thick") :
    applyGlitter sh st = st := by
  unfold applyGlitter
  rcases h with h | h <;> rw [h] <;> simp

/-- With no effect flag set, `applyEffects` is the identity. -/
theorem applyEffects_noflags (sh : Shell) (st : StarP)
    (h1 : sh.crossette = false) (h2 : sh.floral = false) (h3 : sh.crackle = false) :
    applyEffects sh st = st := by
  unfold applyEffects
  rw [h1, h2, h3]
  simp

/-- `BurstFlash.add` leaves every star list unchanged. -/
theorem flashAdd_starActive (x y r : ℝ) (s : FwState) (c : CKey) :
    (flashAdd x y r s).starActive c = s.starActive c := by
  cases hp : s.flashPool with
  | nil => unfold flashAdd; simp only [hp]
  | cons i rest => unfold flashAdd; simp only [hp]

/-- `createBurst` preserves a state predicate preserved by the random
draw and by the factory. -/
theorem createBurst_pres (P : FwState → Prop) (count : ℝ)
    (factory : ℝ → ℝ → FwState → FwState) (sa arc : ℝ) (rng : ℕ → ℝ)
    (hbump : ∀ s, P s → P { s with rngIdx := s.rngIdx + 1 })
    (hfac : ∀ a m s, P s → P (factory a m s)) (s : FwState) (h : P s) :
    P (createBurst count factory sa arc rng s) := by
  refine foldl_pres P _ ?_ _ s h
  intro s' i h'
  refine foldl_pres P _ ?_ _ _ (hbump s' h')
  intro s'' j h''
  exact hfac _ _ _ (hbump _ h'')

/-- A burst of a shell whose glitter name matches no profile and whose
effect flags are all unset adds only stars with `sparkFreq = 0`. -/
theorem burst_preserves_zero_freq (sh : Shell)
    (hg : sh.glitter = some "willow" ∨ sh.glitter = some "thick")
    (h1 : sh.crossette = false) (h2 : sh.floral = false) (h3 : sh.crackle = false)
    (rng : ℕ → ℝ) (x y : ℝ) (s : FwState)
    (hs : ∀ c, ∀ q ∈ s.starActive c, q.sparkFreq = 0) :
    ∀ c, ∀ q ∈ (sh.burst rng x y s).starActive c, q.sparkFreq = 0 := by
  have hmain : ∀ c, ∀ q ∈ (createBurst sh.starCount
      (sh.burstFactory rng x y (sh.spreadSize / 96) (orDefault sh.starLife 1500)
        sh.starLifeVariation) 0 (2 * Real.pi) rng s).starActive c, q.sparkFreq = 0 := by
    refine createBurst_pres (fun s_ => ∀ c, ∀ q ∈ s_.starActive c, q.sparkFreq = 0)
      _ _ _ _ _ (fun s_ h_ => h_) ?_ s hs
    intro a m s_ h_
    obtain ⟨base, b1, b2, b3, b4, b5, b6⟩ := burstFactory_shape sh rng x y
      (sh.spreadSize / 96) (orDefault sh.starLife 1500) sh.starLifeVariation a m s_
    intro c q hq
    by_cases hc : c = sh.color
    · subst hc
      rw [b1] at hq
      rcases List.mem_append.mp hq with h | h
      · exact h_ _ q h
      · have : q = applyEffects sh (applyGlitter sh base) := List.mem_singleton.mp h
        rw [this, applyGlitter_unmatched sh base hg, applyEffects_noflags sh base h1 h2 h3]
        exact b6
    · rw [b2 c hc] at hq
      exact h_ c q hq
  intro c q hq
  have : (sh.burst rng x y s).starActive c
      = (createBurst sh.starCount
        (sh.burstFactory rng x y (sh.spreadSize / 96) (orDefault sh.starLife 1500)
          sh.starLifeVariation) 0 (2 * Real.pi) rng s).starActive c := by
    show (flashAdd x y (sh.spreadSize / 4) _).starActive c = _
    rw [flashAdd_starActive]
  rw [this] at hq
  exact hmain c q hq

/-- `starSparkStep` with `sparkFreq = 0` emits nothing and changes
nothing. -/
theorem starSparkStep_zero (rng : ℕ → ℝ) (t : ℝ) (st : StarP) (s : FwState)
    (h : st.sparkFreq = 0) : starSparkStep rng t st s = (st, s) := by
  unfold starSparkStep
  rw [if_neg]
  rw [h]
  simp

/-- `starMotion` never touches `sparkFreq`. -/
theorem starMotion_sparkFreq (sp dr drh g : ℝ) (st : StarP) :
    (starMotion sp dr drh g st).sparkFreq = st.sparkFreq := by
  unfold starMotion
  by_cases h1 : st.heavy <;> by_cases h2 : st.spinRadius ≠ 0 <;> simp [h1, h2]

/-- `starSparkValue` with `sparkFreq = 0` is the identity. -/
theorem starSparkValue_zero (t : ℝ) (st : StarP) (h : st.sparkFreq = 0) :
    starSparkValue t st = st := by
  unfold starSparkValue
  rw [if_neg]
  rw [h]
  simp

/-- The transition stage keeps a zero `sparkFreq` at zero. -/
theorem starTransition_zero_freq (st : StarP) (h : st.sparkFreq = 0) :
    (starTransition st).1.sparkFreq = 0 := by
  unfold starTransition
  by_cases h1 : st.life < st.transitionTime
  · cases h2 : st.secondColor with
    | none =>
      by_cases h3 : st.strobe <;> simp [h1, h2, h3, h]
    | some sc =>
      by_cases h4 : st.colorChanged <;> by_cases h3 : st.strobe <;>
        simp [h1, h2, h3, h4, h]
  · simp [h1, h]

/-- A surviving star's frame keeps `sparkFreq = 0` at zero. -/
theorem starStepValue_zero_freq (t sp dr drh g : ℝ) (frame : ℕ) (st : StarP)
    (h : st.sparkFreq = 0) :
    (starStepValue t sp dr drh g frame st).sparkFreq = 0 := by
  unfold starStepValue
  apply starTransition_zero_freq
  rw [starSparkValue_zero]
  · rw [starMotion_sparkFreq]
    exact h
  · rw [starMotion_sparkFreq]
    exact h

/-- C10: every Star a `willowShell` or `palmShell` burst spawns keeps the
`sparkFreq = 0` it got from `Star.add` — the preset glitter names
`willow` and `thick` match none of the handled profiles — and a star with
`sparkFreq = 0` emits no Spark in the integrator (the emission stage is a
no-op) and still has `sparkFreq = 0` after its frame. -/
theorem willow_palm_never_emit (rng : ℕ → ℝ) (size x y : ℝ) (col gcol : CKey)
    (s : FwState) (hs : ∀ c, ∀ q ∈ s.starActive c, q.sparkFreq = 0) :
    (∀ c, ∀ q ∈ ((Shell.make (willowShellOpts size col)).burst rng x y s).starActive c,
      q.sparkFreq = 0) ∧
    (∀ c, ∀ q ∈ ((Shell.make (palmShellOpts size col gcol)).burst rng x y s).starActive c,
      q.sparkFreq = 0) ∧
    (∀ (t : ℝ) (st : StarP) (s' : FwState), st.sparkFreq = 0 →
      starSparkStep rng t st s' = (st, s')) ∧
    (∀ (t sp dr drh g : ℝ) (frame : ℕ) (st : StarP), st.sparkFreq = 0 →
      (starStepValue t sp dr drh g frame st).sparkFreq = 0) := by
  refine ⟨?_, ?_, ?_, ?_⟩
  · exact burst_preserves_zero_freq _ (Or.inl rfl) rfl rfl rfl rng x y s hs
  · exact burst_preserves_zero_freq _ (Or.inr rfl) rfl rfl rfl rng x y s hs
  · intro t st s' h
    exact starSparkStep_zero rng t st s' h
  · intro t sp dr drh g frame st h
    exact starStepValue_zero_freq t sp dr drh g frame st h

/-- Witness for `willow_palm_never_emit` on the empty state: every star
the willow burst leaves in the Green list reports `sparkFreq = 0`. -/
theorem willow_palm_never_emit_witness :
    (((Shell.make (willowShellOpts 1 .Green)).burst (fun _ => 1 / 2) 0 0
      emptyState).starActive CKey.Green).all (fun q => decide (q.sparkFreq = 0)) = true := by
  rw [List.all_eq_true]
  intro q hq
  rw [decide_eq_true_eq]
  exact (willow_palm_never_emit (fun _ => 1 / 2) 1 0 0 .Green .Gold emptyState
    (fun c q hq => absurd hq (by simp [emptyState]))).1 CKey.Green q hq

/-! ### State-extension calculus for the integrator (C3, C4, C9) -/

/-- Weak extension is reflexive. -/
theorem extendsW_refl (s : FwState) : ExtendsW s s :=
  ⟨rfl, le_refl _, le_refl _, fun c => ⟨[], by simp⟩, fun c => ⟨[], by simp⟩⟩

/-- Weak extension is transitive. -/
theorem extendsW_trans {s1 s2 s3 : FwState} (h1 : ExtendsW s1 s2) (h2 : ExtendsW s2 s3) :
    ExtendsW s1 s3 := by
  obtain ⟨f1, u1, v1, a1, b1⟩ := h1
  obtain ⟨f2, u2, v2, a2, b2⟩ := h2
  refine ⟨f1.trans f2, u1.trans u2, v1.trans v2, ?_, ?_⟩
  · intro c
    obtain ⟨ap1, e1⟩ := a1 c
    obtain ⟨ap2, e2⟩ := a2 c
    exact ⟨ap1 ++ ap2, by rw [e2, e1, List.append_assoc]⟩
  · intro c
    obtain ⟨ap1, e1⟩ := b1 c
    obtain ⟨ap2, e2⟩ := b2 c
    exact ⟨ap1 ++ ap2, by rw [e2, e1, List.append_assoc]⟩

/-- Extension implies weak extension. -/
theorem Extends.toW {s s' : FwState} (h : Extends s s') : ExtendsW s s' := by
  obtain ⟨f, u, v, a, b⟩ := h
  exact ⟨f, u, v, fun c => ⟨(a c).choose, (a c).choose_spec.1⟩,
    fun c => ⟨(b c).choose, (b c).choose_spec.1⟩⟩

/-- Extension is reflexive. -/
theorem extends_refl (s : FwState) : Extends s s :=
  ⟨rfl, le_refl _, le_refl _, fun c => ⟨[], by simp⟩, fun c => ⟨[], by simp⟩⟩

/-- Extension is transitive. -/
theorem extends_trans {s1 s2 s3 : FwState} (h1 : Extends s1 s2) (h2 : Extends s2 s3) :
    Extends s1 s3 := by
  obtain ⟨f1, u1, v1, a1, b1⟩ := h1
  obtain ⟨f2, u2, v2, a2, b2⟩ := h2
  refine ⟨f1.trans f2, u1.trans u2, v1.trans v2, ?_, ?_⟩
  · intro c
    obtain ⟨ap1, e1, g1⟩ := a1 c
    obtain ⟨ap2, e2, g2⟩ := a2 c
    refine ⟨ap1 ++ ap2, by rw [e2, e1, List.append_assoc], ?_⟩
    intro q hq
    rcases List.mem_append.mp hq with h | h
    · exact g1 q h
    · exact u1.trans (g2 q h)
  · intro c
    obtain ⟨ap1, e1, g1⟩ := b1 c
    obtain ⟨ap2, e2, g2⟩ := b2 c
    refine ⟨ap1 ++ ap2, by rw [e2, e1, List.append_assoc], ?_⟩
    intro q hq
    rcases List.mem_append.mp hq with h | h
    · exact g1 q h
    · exact v1.trans (g2 q h)

/-- The random draw extends the state. -/
theorem extends_rand (s : FwState) (rng : ℕ → ℝ) : Extends s (s.rand rng).2 :=
  ⟨rfl, le_refl _, le_refl _, fun c => ⟨[], by simp [FwState.rand], by simp⟩,
    fun c => ⟨[], by simp [FwState.rand], by simp⟩⟩

/-- `Star.add` keeps the frame counter. -/
theorem starAdd_frame (rng : ℕ → ℝ) (x y : ℝ) (c : CKey) (a sp l ox oy : ℝ)
    (s : FwState) : (starAdd rng x y c a sp l ox oy s).2.currentFrame = s.currentFrame := by
  unfold starAdd
  cases hp : s.starPool <;> simp [hp, pushStar, FwState.rand]

/-- `Star.add` bumps the star uid counter. -/
theorem starAdd_nextUid (rng : ℕ → ℝ) (x y : ℝ) (c : CKey) (a sp l ox oy : ℝ)
    (s : FwState) : (starAdd rng x y c a sp l ox oy s).2.starNextUid = s.starNextUid + 1 := by
  unfold starAdd
  cases hp : s.starPool <;> simp [hp, pushStar, FwState.rand]

/-- `Star.add` keeps the spark uid counter. -/
theorem starAdd_sparkNextUid (rng : ℕ → ℝ) (x y : ℝ) (c : CKey) (a sp l ox oy : ℝ)
    (s : FwState) : (starAdd rng x y c a sp l ox oy s).2.sparkNextUid = s.sparkNextUid := by
  unfold starAdd
  cases hp : s.starPool <;> simp [hp, pushStar, FwState.rand]

/-- `Star.add` stamps the fresh uid on the returned instance. -/
theorem starAdd_fst_uid (rng : ℕ → ℝ) (x y : ℝ) (c : CKey) (a sp l ox oy : ℝ)
    (s : FwState) : (starAdd rng x y c a sp l ox oy s).1.uid = s.starNextUid := by
  unfold starAdd
  cases hp : s.starPool <;> simp [hp, pushStar, FwState.rand]

/-- `Star.add` appends the instance to the target color list only. -/
theorem starAdd_active (rng : ℕ → ℝ) (x y : ℝ) (c : CKey) (a sp l ox oy : ℝ)
    (s : FwState) (c' : CKey) :
    (starAdd rng x y c a sp l ox oy s).2.starActive c'
      = if c' = c then s.starActive c ++ [(starAdd rng x y c a sp l ox oy s).1]
        else s.starActive c' := by
  unfold starAdd
  cases hp : s.starPool <;> simp [hp, pushStar, FwState.rand]

/-- `Star.add` keeps the spark active lists. -/
theorem starAdd_sparkActive (rng : ℕ → ℝ) (x y : ℝ) (c : CKey) (a sp l ox oy : ℝ)
    (s : FwState) : (starAdd rng x y c a sp l ox oy s).2.sparkActive = s.sparkActive := by
  unfold starAdd
  cases hp : s.starPool <;> simp [hp, pushStar, FwState.rand]

/-- `Star.add` extends the state (the new star's `uid` is fresh). -/
theorem extends_starAdd (rng : ℕ → ℝ) (x y : ℝ) (c : CKey) (a sp l ox oy : ℝ)
    (s : FwState) : Extends s (starAdd rng x y c a sp l ox oy s).2 := by
  refine ⟨(starAdd_frame rng x y c a sp l ox oy s).symm, ?_, ?_, ?_, ?_⟩
  · rw [starAdd_nextUid]
    omega
  · rw [starAdd_sparkNextUid]
  · intro c'
    by_cases hc : c' = c
    · refine ⟨[(starAdd rng x y c a sp l ox oy s).1], ?_, ?_⟩
      · rw [starAdd_active, if_pos hc, hc]
      · intro q hq
        rw [List.mem_singleton] at hq
        rw [hq, starAdd_fst_uid]
    · refine ⟨[], ?_, by simp⟩
      rw [starAdd_active]
      simp [hc]
  · intro c'
    exact ⟨[], by rw [starAdd_sparkActive]; simp, by simp⟩

/-- `Spark.add` keeps the frame counter. -/
theorem sparkAdd_frame (x y : ℝ) (c : CKey) (a sp l : ℝ) (s : FwState) :
    (sparkAdd x y c a sp l s).2.currentFrame = s.currentFrame := by
  unfold sparkAdd
  cases hp : s.sparkPool <;> simp [hp, pushSpark]

/-- `Spark.add` bumps the spark uid counter. -/
theorem sparkAdd_nextUid (x y : ℝ) (c : CKey) (a sp l : ℝ) (s : FwState) :
    (sparkAdd x y c a sp l s).2.sparkNextUid = s.sparkNextUid + 1 := by
  unfold sparkAdd
  cases hp : s.sparkPool <;> simp [hp, pushSpark]

/-- `Spark.add` keeps the star uid counter. -/
theorem sparkAdd_starNextUid (x y : ℝ) (c : CKey) (a sp l : ℝ) (s : FwState) :
    (sparkAdd x y c a sp l s).2.starNextUid = s.starNextUid := by
  unfold sparkAdd
  cases hp : s.sparkPool <;> simp [hp, pushSpark]

/-- `Spark.add` stamps the fresh uid on the returned instance. -/
theorem sparkAdd_fst_uid (x y : ℝ) (c : CKey) (a sp l : ℝ) (s : FwState) :
    (sparkAdd x y c a sp l s).1.uid = s.sparkNextUid := by
  unfold sparkAdd
  cases hp : s.sparkPool <;> simp [hp, pushSpark]

/-- `Spark.add` appends the instance to the target color list only. -/
theorem sparkAdd_active (x y : ℝ) (c : CKey) (a sp l : ℝ) (s : FwState) (c' : CKey) :
    (sparkAdd x y c a sp l s).2.sparkActive c'
      = if c' = c then s.sparkActive c ++ [(sparkAdd x y c a sp l s).1]
        else s.sparkActive c' := by
  unfold sparkAdd
  cases hp : s.sparkPool <;> simp [hp, pushSpark]

/-- `Spark.add` keeps the star active lists. -/
theorem sparkAdd_starActive (x y : ℝ) (c : CKey) (a sp l : ℝ) (s : FwState) :
    (sparkAdd x y c a sp l s).2.starActive = s.starActive := by
  unfold sparkAdd
  cases hp : s.sparkPool <;> simp [hp, pushSpark]

/-- `Spark.add` extends the state (the new spark's `uid` is fresh). -/
theorem extends_sparkAdd (x y : ℝ) (c : CKey) (a sp l : ℝ) (s : FwState) :
    Extends s (sparkAdd x y c a sp l s).2 := by
  refine ⟨(sparkAdd_frame x y c a sp l s).symm, ?_, ?_, ?_, ?_⟩
  · rw [sparkAdd_starNextUid]
  · rw [sparkAdd_nextUid]
    omega
  · intro c'
    exact ⟨[], by rw [sparkAdd_starActive]; simp, by simp⟩
  · intro c'
    by_cases hc : c' = c
    · refine ⟨[(sparkAdd x y c a sp l s).1], ?_, ?_⟩
      · rw [sparkAdd_active, if_pos hc, hc]
      · intro q hq
        rw [List.mem_singleton] at hq
        rw [hq, sparkAdd_fst_uid]
    · refine ⟨[], ?_, by simp⟩
      rw [sparkAdd_active]
      simp [hc]

/-- `BurstFlash.add` extends the state. -/
theorem extends_flashAdd (x y r : ℝ) (s : FwState) : Extends s (flashAdd x y r s) := by
  unfold flashAdd
  cases hp : s.flashPool <;> simp only [hp] <;>
    exact ⟨rfl, le_refl _, le_refl _, fun c => ⟨[], by simp⟩, fun c => ⟨[], by simp⟩⟩

/-- Folding an extending body extends. -/
theorem extends_foldl {β : Type} (f : FwState → β → FwState)
    (hf : ∀ s b, Extends s (f s b)) (l : List β) (s : FwState) :
    Extends s (l.foldl f s) := by
  induction l generalizing s with
  | nil => exact extends_refl s
  | cons b rest ih => exact extends_trans (hf s b) (ih (f s b))

/-- `createParticleArc` with an extending factory extends. -/
theorem extends_arc (start arcLength count randomness : ℝ)
    (factory : ℝ → FwState → FwState) (rng : ℕ → ℝ)
    (hf : ∀ a s, Extends s (factory a s)) (s : FwState) :
    Extends s (createParticleArc start arcLength count randomness factory rng s) := by
  exact extends_foldl _
    (fun s' k => extends_trans (extends_rand s' rng) (hf _ _)) _ s

/-- `createBurst` with an extending factory extends. -/
theorem extends_burst (count : ℝ) (factory : ℝ → ℝ → FwState → FwState)
    (startAngle arcLength : ℝ) (rng : ℕ → ℝ)
    (hf : ∀ a m s, Extends s (factory a m s)) (s : FwState) :
    Extends s (createBurst count factory startAngle arcLength rng s) := by
  refine extends_foldl _ ?_ _ s
  intro s' i
  exact extends_trans (extends_rand s' rng)
    (extends_foldl _ (fun s'' j => extends_trans (extends_rand s'' rng) (hf _ _ _)) _ _)

/-- Every death effect extends the state. -/
theorem extends_deathEffect (rng : ℕ → ℝ) (star : StarP) (eff : DeathEffect)
    (s : FwState) : Extends s (runDeathEffect rng star eff s) := by
  cases eff with
  | none => exact extends_refl s
  | crossette =>
    show Extends s (crossetteEffect rng star s)
    unfold crossetteEffect
    exact extends_trans (extends_rand s rng)
      (extends_arc _ _ _ _ _ rng
        (fun a s' => extends_trans (extends_rand s' rng) (extends_starAdd ..)) _)
  | floral =>
    show Extends s (floralEffect rng star s)
    unfold floralEffect
    exact extends_trans
      (extends_burst _ _ _ _ rng
        (fun a m s' => extends_trans (extends_rand s' rng) (extends_starAdd ..)) s)
      (extends_flashAdd ..)
  | crackle =>
    show Extends s (crackleEffect rng star s)
    unfold crackleEffect
    exact extends_arc _ _ _ _ _ rng
      (fun a s' => extends_trans (extends_rand s' rng)
        (extends_trans (extends_rand _ rng) (extends_sparkAdd ..))) s

/-- Pushing onto the star free list extends (the relation ignores the
pools). -/
theorem extends_star_pool_push (st : StarP) (s : FwState) :
    Extends s { s with starPool := st :: s.starPool } :=
  ⟨rfl, le_refl _, le_refl _, fun c => ⟨[], by simp, by simp⟩,
    fun c => ⟨[], by simp, by simp⟩⟩

/-- `Star.returnInstance` extends the state. -/
theorem extends_returnInstance (rng : ℕ → ℝ) (st : StarP) (s : FwState) :
    Extends s (starReturnInstance rng st s) := by
  unfold starReturnInstance
  exact extends_trans (extends_deathEffect rng st st.onDeath s) (extends_star_pool_push _ _)

/-- `Spark.returnInstance` extends the state. -/
theorem extends_sparkReturn (pk : SparkP) (s : FwState) :
    Extends s (sparkReturnInstance pk s) :=
  ⟨rfl, le_refl _, le_refl _, fun c => ⟨[], by simp [sparkReturnInstance], by simp⟩,
    fun c => ⟨[], by simp [sparkReturnInstance], by simp⟩⟩

/-- The state component of the spark-emission stage extends the state. -/
theorem extends_sparkStep_state (rng : ℕ → ℝ) (t : ℝ) (st : StarP) (s : FwState) :
    Extends s (starSparkStep rng t st s).2 := by
  unfold starSparkStep
  by_cases h : st.sparkFreq ≠ 0
  · rw [if_pos h]
    exact extends_foldl _
      (fun s' u => extends_trans (extends_rand s' rng)
        (extends_trans (extends_rand _ rng)
          (extends_trans (extends_rand _ rng) (extends_sparkAdd ..)))) _ s
  · rw [if_neg h]
    exact extends_refl s

/-- Appending a star to one list is a weak extension. -/
theorem extendsW_pushStar (c : CKey) (st : StarP) (s : FwState) :
    ExtendsW s (pushStar c st s) := by
  refine ⟨rfl, le_refl _, le_refl _, ?_, fun c' => ⟨[], by simp [pushStar]⟩⟩
  intro c'
  by_cases hc : c' = c
  · exact ⟨[st], by simp [pushStar, hc]⟩
  · exact ⟨[], by simp [pushStar, hc]⟩

/-- Appending a spark to one list is a weak extension. -/
theorem extendsW_pushSpark (c : CKey) (pk : SparkP) (s : FwState) :
    ExtendsW s (pushSpark c pk s) := by
  refine ⟨rfl, le_refl _, le_refl _, fun c' => ⟨[], by simp [pushSpark]⟩, ?_⟩
  intro c'
  by_cases hc : c' = c
  · exact ⟨[pk], by simp [pushSpark, hc]⟩
  · exact ⟨[], by simp [pushSpark, hc]⟩

/-- The frame-duplication guard of the star loop body: an already-updated
star is kept untouched. -/
theorem processStar_skip (rng : ℕ → ℝ) (t sp dr drh g : ℝ) (frame : ℕ) (st : StarP)
    (s : FwState) (h1 : st.updateFrame = frame) :
    processStar rng t sp dr drh g frame st s = (some st, s) := by
  unfold processStar
  rw [if_pos h1]

/-- The death branch of the star loop body. -/
theorem processStar_dead (rng : ℕ → ℝ) (t sp dr drh g : ℝ) (frame : ℕ) (st : StarP)
    (s : FwState) (h1 : st.updateFrame ≠ frame) (h2 : st.life - t ≤ 0) :
    processStar rng t sp dr drh g frame st s
      = (none, starReturnInstance rng { st with updateFrame := frame, life := st.life - t } s) := by
  unfold processStar
  simp only [if_neg h1]
  rw [if_pos h2]

/-- The first component of the spark-emission stage is the pure timer
update. -/
theorem starSparkStep_fst (rng : ℕ → ℝ) (t : ℝ) (st : StarP) (s : FwState) :
    (starSparkStep rng t st s).1 = starSparkValue t st := by
  unfold starSparkStep starSparkValue
  by_cases h : st.sparkFreq ≠ 0 <;> simp [h]

/-- The surviving, non-relocating branch of the star loop body. -/
theorem processStar_live_none (rng : ℕ → ℝ) (t sp dr drh g : ℝ) (frame : ℕ) (st : StarP)
    (s : FwState) (h1 : st.updateFrame ≠ frame) (h2 : ¬ st.life - t ≤ 0)
    (h3 : starStepTarget t sp dr drh g frame st = none) :
    processStar rng t sp dr drh g frame st s
      = (some (starStepValue t sp dr drh g frame st),
         (starSparkStep rng t
           (starMotion sp dr drh g { st with updateFrame := frame, life := st.life - t }) s).2) := by
  have h3' : (starTransition (starSparkValue t (starMotion sp dr drh g
      { st with updateFrame := frame, life := st.life - t }))).2 = none := h3
  unfold processStar
  simp only [if_neg h1]
  rw [if_neg h2, starSparkStep_fst, h3']
  rfl

/-- The surviving, relocating branch of the star loop body. -/
theorem processStar_live_some (rng : ℕ → ℝ) (t sp dr drh g : ℝ) (frame : ℕ) (st : StarP)
    (s : FwState) (tgt : CKey) (h1 : st.updateFrame ≠ frame) (h2 : ¬ st.life - t ≤ 0)
    (h3 : starStepTarget t sp dr drh g frame st = some tgt) :
    processStar rng t sp dr drh g frame st s
      = (none, pushStar tgt (starStepValue t sp dr drh g frame st)
          (starSparkStep rng t
            (starMotion sp dr drh g { st with updateFrame := frame, life := st.life - t }) s).2) := by
  have h3' : (starTransition (starSparkValue t (starMotion sp dr drh g
      { st with updateFrame := frame, life := st.life - t }))).2 = some tgt := h3
  unfold processStar
  simp only [if_neg h1]
  rw [if_neg h2, starSparkStep_fst, h3']
  rfl

/-- The state component of the star loop body extends the state weakly. -/
theorem processStar_state_extendsW (rng : ℕ → ℝ) (t sp dr drh g : ℝ) (frame : ℕ)
    (st : StarP) (s : FwState) :
    ExtendsW s (processStar rng t sp dr drh g frame st s).2 := by
  by_cases h1 : st.updateFrame = frame
  · rw [processStar_skip rng t sp dr drh g frame st s h1]
    exact extendsW_refl s
  · by_cases h2 : st.life - t ≤ 0
    · rw [processStar_dead rng t sp dr drh g frame st s h1 h2]
      exact (extends_returnInstance ..).toW
    · cases h3 : starStepTarget t sp dr drh g frame st with
      | none =>
        rw [processStar_live_none rng t sp dr drh g frame st s h1 h2 h3]
        exact (extends_sparkStep_state ..).toW
      | some tgt =>
        rw [processStar_live_some rng t sp dr drh g frame st s tgt h1 h2 h3]
        exact extendsW_trans (extends_sparkStep_state ..).toW (extendsW_pushStar ..)

/-- The death branch of the spark loop body. -/
theorem processSpark_dead (t sp d g : ℝ) (pk : SparkP) (s : FwState)
    (h : pk.life - t ≤ 0) :
    processSpark t sp d g pk s
      = (none, sparkReturnInstance { pk with life := pk.life - t } s) := by
  unfold processSpark
  simp only []
  rw [if_pos h]

/-- The surviving branch of the spark loop body. -/
theorem processSpark_live (t sp d g : ℝ) (pk : SparkP) (s : FwState)
    (h : ¬ pk.life - t ≤ 0) :
    processSpark t sp d g pk s = (some (sparkStepValue t sp d g pk), s) := by
  unfold processSpark sparkStepValue
  simp only []
  rw [if_neg h]

/-- The state component of the spark loop body extends the state weakly. -/
theorem processSpark_state_extendsW (t sp d g : ℝ) (pk : SparkP) (s : FwState) :
    ExtendsW s (processSpark t sp d g pk s).2 := by
  by_cases h : pk.life - t ≤ 0
  · rw [processSpark_dead t sp d g pk s h]
    exact (extends_sparkReturn ..).toW
  · rw [processSpark_live t sp d g pk s h]
    exact extendsW_refl s

/-- Unfolding of the star loop on a snapshot cell. -/
theorem starPassAux_cons (rng : ℕ → ℝ) (t sp dr drh g : ℝ) (frame : ℕ)
    (st : StarP) (rest : List StarP) (s : FwState) :
    starPassAux rng t sp dr drh g frame (st :: rest) s
      = (match (processStar rng t sp dr drh g frame st
            (starPassAux rng t sp dr drh g frame rest s).2).1 with
         | some st' => st' :: (starPassAux rng t sp dr drh g frame rest s).1
         | none => (starPassAux rng t sp dr drh g frame rest s).1,
         (processStar rng t sp dr drh g frame st
           (starPassAux rng t sp dr drh g frame rest s).2).2) := by
  simp only [starPassAux]
  cases h : (processStar rng t sp dr drh g frame st
    (starPassAux rng t sp dr drh g frame rest s).2).1 <;> simp [h]

/-- The state component of the star loop over a snapshot extends the
start state weakly. -/
theorem starPassAux_state_extendsW (rng : ℕ → ℝ) (t sp dr drh g : ℝ) (frame : ℕ)
    (l : List StarP) (s : FwState) :
    ExtendsW s (starPassAux rng t sp dr drh g frame l s).2 := by
  induction l with
  | nil => exact extendsW_refl s
  | cons st rest ih =>
    rw [starPassAux_cons]
    exact extendsW_trans ih (processStar_state_extendsW ..)

/-- Unfolding of the spark loop on a snapshot cell. -/
theorem sparkPassAux_cons (t sp d g : ℝ) (pk : SparkP) (rest : List SparkP) (s : FwState) :
    sparkPassAux t sp d g (pk :: rest) s
      = (match (processSpark t sp d g pk (sparkPassAux t sp d g rest s).2).1 with
         | some pk' => pk' :: (sparkPassAux t sp d g rest s).1
         | none => (sparkPassAux t sp d g rest s).1,
         (processSpark t sp d g pk (sparkPassAux t sp d g rest s).2).2) := by
  simp only [sparkPassAux]
  cases h : (processSpark t sp d g pk (sparkPassAux t sp d g rest s).2).1 <;> simp [h]

/-- The spark loop's state changes only the spark free list. -/
theorem sparkPassAux_state (t sp d g : ℝ) (l : List SparkP) (s : FwState) :
    (sparkPassAux t sp d g l s).2.starActive = s.starActive ∧
    (sparkPassAux t sp d g l s).2.sparkActive = s.sparkActive ∧
    (sparkPassAux t sp d g l s).2.starNextUid = s.starNextUid ∧
    (sparkPassAux t sp d g l s).2.sparkNextUid = s.sparkNextUid ∧
    (sparkPassAux t sp d g l s).2.currentFrame = s.currentFrame := by
  induction l with
  | nil => exact ⟨rfl, rfl, rfl, rfl, rfl⟩
  | cons pk rest ih =>
    rw [sparkPassAux_cons]
    by_cases h : pk.life - t ≤ 0
    · rw [processSpark_dead _ _ _ _ _ _ h]
      exact ih
    · rw [processSpark_live _ _ _ _ _ _ h]
      exact ih

/-- The star pass keeps the frame counter. -/
theorem starPass_frame (rng : ℕ → ℝ) (t sp dr drh g : ℝ) (c : CKey) (s : FwState) :
    (starPass rng t sp dr drh g c s).currentFrame = s.currentFrame := by
  unfold starPass
  exact ((starPassAux_state_extendsW rng t sp dr drh g s.currentFrame (s.starActive c)
    { s with starActive := fun c' => if c' = c then [] else s.starActive c' }).1).symm

/-- The star pass only grows the star allocation counter. -/
theorem starPass_starNextUid_le (rng : ℕ → ℝ) (t sp dr drh g : ℝ) (c : CKey) (s : FwState) :
    s.starNextUid ≤ (starPass rng t sp dr drh g c s).starNextUid := by
  unfold starPass
  exact (starPassAux_state_extendsW rng t sp dr drh g s.currentFrame (s.starActive c)
    { s with starActive := fun c' => if c' = c then [] else s.starActive c' }).2.1

/-- The star pass only grows the spark allocation counter. -/
theorem starPass_sparkNextUid_le (rng : ℕ → ℝ) (t sp dr drh g : ℝ) (c : CKey) (s : FwState) :
    s.sparkNextUid ≤ (starPass rng t sp dr drh g c s).sparkNextUid := by
  unfold starPass
  exact (starPassAux_state_extendsW rng t sp dr drh g s.currentFrame (s.starActive c)
    { s with starActive := fun c' => if c' = c then [] else s.starActive c' }).2.2.1

/-- The star pass of another color only appends to a list. -/
theorem starPass_active_other (rng : ℕ → ℝ) (t sp dr drh g : ℝ) (c : CKey) (s : FwState)
    (c' : CKey) (hc : c' ≠ c) :
    ∃ ap, (starPass rng t sp dr drh g c s).starActive c' = s.starActive c' ++ ap := by
  obtain ⟨ap, hap⟩ := (starPassAux_state_extendsW rng t sp dr drh g s.currentFrame
    (s.starActive c)
    { s with starActive := fun c' => if c' = c then [] else s.starActive c' }).2.2.2.1 c'
  refine ⟨ap, ?_⟩
  show (if c' = c then _ else (starPassAux rng t sp dr drh g s.currentFrame (s.starActive c)
    { s with starActive := fun c' => if c' = c then [] else s.starActive c' }).2.starActive c') = _
  rw [if_neg hc, hap]
  simp [hc]

/-- The star pass only appends to every spark list. -/
theorem starPass_spark_other (rng : ℕ → ℝ) (t sp dr drh g : ℝ) (c : CKey) (s : FwState)
    (c' : CKey) :
    ∃ ap, (starPass rng t sp dr drh g c s).sparkActive c' = s.sparkActive c' ++ ap := by
  obtain ⟨ap, hap⟩ := (starPassAux_state_extendsW rng t sp dr drh g s.currentFrame
    (s.starActive c)
    { s with starActive := fun c' => if c' = c then [] else s.starActive c' }).2.2.2.2 c'
  exact ⟨ap, hap⟩

/-- The spark pass changes nothing on the star side or the counters. -/
theorem sparkPass_state (t sp d g : ℝ) (c : CKey) (s : FwState) :
    (sparkPass t sp d g c s).starActive = s.starActive ∧
    (sparkPass t sp d g c s).starNextUid = s.starNextUid ∧
    (sparkPass t sp d g c s).sparkNextUid = s.sparkNextUid ∧
    (sparkPass t sp d g c s).currentFrame = s.currentFrame := by
  obtain ⟨h1, h2, h3, h4, h5⟩ := sparkPassAux_state t sp d g (s.sparkActive c)
    { s with sparkActive := fun c' => if c' = c then [] else s.sparkActive c' }
  exact ⟨h1, h3, h4, h5⟩

/-- The spark pass of another color leaves that spark list exactly. -/
theorem sparkPass_spark_other (t sp d g : ℝ) (c : CKey) (s : FwState) (c' : CKey)
    (hc : c' ≠ c) :
    (sparkPass t sp d g c s).sparkActive c' = s.sparkActive c' := by
  obtain ⟨h1, h2, h3, h4, h5⟩ := sparkPassAux_state t sp d g (s.sparkActive c)
    { s with sparkActive := fun c' => if c' = c then [] else s.sparkActive c' }
  show (if c' = c then _ else (sparkPassAux t sp d g (s.sparkActive c)
    { s with sparkActive := fun c' => if c' = c then [] else s.sparkActive c' }).2.sparkActive c') = _
  rw [if_neg hc, h2]
  simp [hc]

/-- The motion stage leaves every non-kinematic field unchanged. -/
theorem starMotion_fields (sp dr drh g : ℝ) (st : StarP) :
    (starMotion sp dr drh g st).uid = st.uid ∧
    (starMotion sp dr drh g st).life = st.life ∧
    (starMotion sp dr drh g st).color = st.color ∧
    (starMotion sp dr drh g st).updateFrame = st.updateFrame ∧
    (starMotion sp dr drh g st).secondColor = st.secondColor ∧
    (starMotion sp dr drh g st).transitionTime = st.transitionTime ∧
    (starMotion sp dr drh g st).colorChanged = st.colorChanged ∧
    (starMotion sp dr drh g st).strobe = st.strobe := by
  unfold starMotion
  by_cases h1 : st.heavy <;> by_cases h2 : st.spinRadius ≠ 0 <;> simp [h1, h2]

/-- The motion stage on a spin-free star: advance by the old velocity,
then drag, then gravity. -/
theorem starMotion_pos (sp dr drh g : ℝ) (st : StarP) (hspin : st.spinRadius = 0) :
    (starMotion sp dr drh g st).x = st.x + st.speedX * sp ∧
    (starMotion sp dr drh g st).y = st.y + st.speedY * sp ∧
    (starMotion sp dr drh g st).speedX = st.speedX * (if st.heavy then drh else dr) ∧
    (starMotion sp dr drh g st).speedY = st.speedY * (if st.heavy then drh else dr) + g := by
  unfold starMotion
  by_cases h1 : st.heavy <;> simp [h1, hspin]

/-- The emission-timer stage changes only `sparkTimer`. -/
theorem starSparkValue_fields (t : ℝ) (st : StarP) :
    (starSparkValue t st).uid = st.uid ∧
    (starSparkValue t st).life = st.life ∧
    (starSparkValue t st).x = st.x ∧
    (starSparkValue t st).y = st.y ∧
    (starSparkValue t st).speedX = st.speedX ∧
    (starSparkValue t st).speedY = st.speedY ∧
    (starSparkValue t st).color = st.color ∧
    (starSparkValue t st).updateFrame = st.updateFrame := by
  unfold starSparkValue
  by_cases h : st.sparkFreq ≠ 0 <;> simp [h]

/-- The transition stage never touches identity, life, position, velocity
or the frame stamp. -/
theorem starTransition_fields (st : StarP) :
    (starTransition st).1.uid = st.uid ∧
    (starTransition st).1.life = st.life ∧
    (starTransition st).1.x = st.x ∧
    (starTransition st).1.y = st.y ∧
    (starTransition st).1.speedX = st.speedX ∧
    (starTransition st).1.speedY = st.speedY ∧
    (starTransition st).1.updateFrame = st.updateFrame := by
  unfold starTransition
  by_cases h1 : st.life < st.transitionTime
  · cases h2 : st.secondColor with
    | none => by_cases h3 : st.strobe <;> simp [h1, h2, h3]
    | some sc =>
      by_cases h4 : st.colorChanged <;> by_cases h3 : st.strobe <;> simp [h1, h2, h3, h4]
  · simp [h1]

/-- When the transition stage requests no move it also keeps the color. -/
theorem starTransition_color_of_none (st : StarP) (h : (starTransition st).2 = none) :
    (starTransition st).1.color = st.color := by
  by_cases h1 : st.life < st.transitionTime
  · cases h2 : st.secondColor with
    | none =>
      unfold starTransition
      by_cases h3 : st.strobe <;> simp [h1, h2, h3]
    | some sc =>
      by_cases h4 : st.colorChanged
      · unfold starTransition
        by_cases h3 : st.strobe <;> simp [h1, h2, h3, h4]
      · exfalso
        unfold starTransition at h
        simp [h1, h2, h4] at h
  · unfold starTransition
    simp [h1]

/-- A surviving star keeps its ghost identity. -/
theorem starStepValue_uid (t sp dr drh g : ℝ) (frame : ℕ) (st : StarP) :
    (starStepValue t sp dr drh g frame st).uid = st.uid := by
  unfold starStepValue
  rw [(starTransition_fields _).1, (starSparkValue_fields _ _).1,
    (starMotion_fields _ _ _ _ _).1]

/-- A surviving star ends the frame with its life decremented by the
frame time. -/
theorem starStepValue_life (t sp dr drh g : ℝ) (frame : ℕ) (st : StarP) :
    (starStepValue t sp dr drh g frame st).life = st.life - t := by
  unfold starStepValue
  rw [(starTransition_fields _).2.1, (starSparkValue_fields _ _).2.1,
    (starMotion_fields _ _ _ _ _).2.1]

/-- A surviving star ends the frame stamped with the frame number. -/
theorem starStepValue_frame (t sp dr drh g : ℝ) (frame : ℕ) (st : StarP) :
    (starStepValue t sp dr drh g frame st).updateFrame = frame := by
  unfold starStepValue
  rw [(starTransition_fields _).2.2.2.2.2.2, (starSparkValue_fields _ _).2.2.2.2.2.2.2,
    (starMotion_fields _ _ _ _ _).2.2.2.1]

/-- A surviving spin-free star's position advance. -/
theorem starStepValue_x (t sp dr drh g : ℝ) (frame : ℕ) (st : StarP)
    (hspin : st.spinRadius = 0) :
    (starStepValue t sp dr drh g frame st).x = st.x + st.speedX * sp := by
  unfold starStepValue
  rw [(starTransition_fields _).2.2.1, (starSparkValue_fields _ _).2.2.1,
    (starMotion_pos sp dr drh g { st with updateFrame := frame, life := st.life - t }
      (show ({ st with updateFrame := frame, life := st.life - t} : StarP).spinRadius = 0
        from hspin)).1]

/-- A surviving spin-free star's vertical position advance. -/
theorem starStepValue_y (t sp dr drh g : ℝ) (frame : ℕ) (st : StarP)
    (hspin : st.spinRadius = 0) :
    (starStepValue t sp dr drh g frame st).y = st.y + st.speedY * sp := by
  unfold starStepValue
  rw [(starTransition_fields _).2.2.2.1, (starSparkValue_fields _ _).2.2.2.1,
    (starMotion_pos sp dr drh g { st with updateFrame := frame, life := st.life - t }
      (show ({ st with updateFrame := frame, life := st.life - t} : StarP).spinRadius = 0
        from hspin)).2.1]

/-- A surviving spin-free star's horizontal drag. -/
theorem starStepValue_speedX (t sp dr drh g : ℝ) (frame : ℕ) (st : StarP)
    (hspin : st.spinRadius = 0) :
    (starStepValue t sp dr drh g frame st).speedX
      = st.speedX * (if st.heavy then drh else dr) := by
  unfold starStepValue
  rw [(starTransition_fields _).2.2.2.2.1, (starSparkValue_fields _ _).2.2.2.2.1,
    (starMotion_pos sp dr drh g { st with updateFrame := frame, life := st.life - t }
      (show ({ st with updateFrame := frame, life := st.life - t} : StarP).spinRadius = 0
        from hspin)).2.2.1]

/-- A surviving spin-free star's vertical drag and gravity. -/
theorem starStepValue_speedY (t sp dr drh g : ℝ) (frame : ℕ) (st : StarP)
    (hspin : st.spinRadius = 0) :
    (starStepValue t sp dr drh g frame st).speedY
      = st.speedY * (if st.heavy then drh else dr) + g := by
  unfold starStepValue
  rw [(starTransition_fields _).2.2.2.2.2.1, (starSparkValue_fields _ _).2.2.2.2.2.1,
    (starMotion_pos sp dr drh g { st with updateFrame := frame, life := st.life - t }
      (show ({ st with updateFrame := frame, life := st.life - t} : StarP).spinRadius = 0
        from hspin)).2.2.2]

/-- A surviving star with no move request keeps its color. -/
theorem starStepValue_color (t sp dr drh g : ℝ) (frame : ℕ) (st : StarP)
    (h : starStepTarget t sp dr drh g frame st = none) :
    (starStepValue t sp dr drh g frame st).color = st.color := by
  unfold starStepValue
  rw [starTransition_color_of_none _ h, (starSparkValue_fields _ _).2.2.2.2.2.2.1,
    (starMotion_fields _ _ _ _ _).2.2.1]

/-- A not-yet-updated survivor of the snapshot ends in the kept list (no
move request) or in the state's target list (move request). -/
theorem starPassAux_survivor (rng : ℕ → ℝ) (t sp dr drh g : ℝ) (frame : ℕ)
    (st : StarP) (l : List StarP) (s : FwState)
    (hmem : st ∈ l) (hfr : st.updateFrame ≠ frame) (hlife : ¬ st.life - t ≤ 0) :
    (starStepTarget t sp dr drh g frame st = none →
      starStepValue t sp dr drh g frame st
        ∈ (starPassAux rng t sp dr drh g frame l s).1) ∧
    (∀ tgt, starStepTarget t sp dr drh g frame st = some tgt →
      starStepValue t sp dr drh g frame st
        ∈ (starPassAux rng t sp dr drh g frame l s).2.starActive tgt) := by
  induction l with
  | nil => cases hmem
  | cons hd rest ih =>
    rcases List.mem_cons.mp hmem with heq | hmem'
    · subst heq
      constructor
      · intro h3
        rw [starPassAux_cons,
          processStar_live_none rng t sp dr drh g frame st _ hfr hlife h3]
        exact List.mem_cons_self _ _
      · intro tgt h3
        rw [starPassAux_cons,
          processStar_live_some rng t sp dr drh g frame st _ tgt hfr hlife h3]
        show starStepValue t sp dr drh g frame st
          ∈ (pushStar tgt (starStepValue t sp dr drh g frame st) _).starActive tgt
        unfold pushStar
        simp
    · obtain ⟨ih1, ih2⟩ := ih hmem'
      constructor
      · intro h3
        rw [starPassAux_cons]
        cases hres : (processStar rng t sp dr drh g frame hd
            (starPassAux rng t sp dr drh g frame rest s).2).1 with
        | none => exact ih1 h3
        | some st' => exact List.mem_cons_of_mem _ (ih1 h3)
      · intro tgt h3
        rw [starPassAux_cons]
        show starStepValue t sp dr drh g frame st
          ∈ (processStar rng t sp dr drh g frame hd
              (starPassAux rng t sp dr drh g frame rest s).2).2.starActive tgt
        obtain ⟨ap, hap⟩ := (processStar_state_extendsW rng t sp dr drh g frame hd
          (starPassAux rng t sp dr drh g frame rest s).2).2.2.2.1 tgt
        rw [hap]
        exact List.mem_append_left _ (ih2 tgt h3)

/-- An already-stamped snapshot star is kept untouched. -/
theorem starPassAux_skip (rng : ℕ → ℝ) (t sp dr drh g : ℝ) (frame : ℕ)
    (st : StarP) (l : List StarP) (s : FwState)
    (hmem : st ∈ l) (hfr : st.updateFrame = frame) :
    st ∈ (starPassAux rng t sp dr drh g frame l s).1 := by
  induction l with
  | nil => cases hmem
  | cons hd rest ih =>
    rcases List.mem_cons.mp hmem with heq | hmem'
    · subst heq
      rw [starPassAux_cons, processStar_skip rng t sp dr drh g frame st _ hfr]
      exact List.mem_cons_self _ _
    · rw [starPassAux_cons]
      cases hres : (processStar rng t sp dr drh g frame hd
          (starPassAux rng t sp dr drh g frame rest s).2).1 with
      | none => exact ih hmem'
      | some st' => exact List.mem_cons_of_mem _ (ih hmem')

/-- A surviving snapshot spark ends in the kept list. -/
theorem sparkPassAux_survivor (t sp d g : ℝ) (pk : SparkP) (l : List SparkP)
    (s : FwState) (hmem : pk ∈ l) (hlife : ¬ pk.life - t ≤ 0) :
    sparkStepValue t sp d g pk ∈ (sparkPassAux t sp d g l s).1 := by
  induction l with
  | nil => cases hmem
  | cons hd rest ih =>
    rcases List.mem_cons.mp hmem with heq | hmem'
    · subst heq
      rw [sparkPassAux_cons, processSpark_live t sp d g pk _ hlife]
      exact List.mem_cons_self _ _
    · rw [sparkPassAux_cons]
      cases hres : (processSpark t sp d g hd (sparkPassAux t sp d g rest s).2).1 with
      | none => exact ih hmem'
      | some pk' => exact List.mem_cons_of_mem _ (ih hmem')

/-- The star pass sends each of its not-yet-updated survivors to some
active list (its own when no move is requested, the move target
otherwise). -/
theorem starPass_survivor (rng : ℕ → ℝ) (t sp dr drh g : ℝ) (c : CKey) (s : FwState)
    (st : StarP) (hmem : st ∈ s.starActive c) (hfr : st.updateFrame ≠ s.currentFrame)
    (hlife : ¬ st.life - t ≤ 0) :
    ∃ c', starStepValue t sp dr drh g s.currentFrame st
      ∈ (starPass rng t sp dr drh g c s).starActive c' := by
  obtain ⟨h1, h2⟩ := starPassAux_survivor rng t sp dr drh g s.currentFrame st
    (s.starActive c)
    { s with starActive := fun c' => if c' = c then [] else s.starActive c' }
    hmem hfr hlife
  cases h3 : starStepTarget t sp dr drh g s.currentFrame st with
  | none =>
    refine ⟨c, ?_⟩
    show starStepValue t sp dr drh g s.currentFrame st ∈
      (if c = c then (starPassAux rng t sp dr drh g s.currentFrame (s.starActive c)
          { s with starActive := fun c' => if c' = c then [] else s.starActive c' }).1 ++ _
       else _)
    rw [if_pos rfl]
    exact List.mem_append_left _ (h1 h3)
  | some tgt =>
    refine ⟨tgt, ?_⟩
    by_cases hc : tgt = c
    · subst hc
      show starStepValue t sp dr drh g s.currentFrame st ∈
        (if tgt = tgt then (starPassAux rng t sp dr drh g s.currentFrame (s.starActive tgt)
            { s with starActive := fun c' => if c' = tgt then [] else s.starActive c' }).1
            ++ (starPassAux rng t sp dr drh g s.currentFrame (s.starActive tgt)
            { s with starActive := fun c' => if c' = tgt then [] else s.starActive c' }).2.starActive tgt
         else _)
      rw [if_pos rfl]
      exact List.mem_append_right _ (h2 tgt h3)
    · show starStepValue t sp dr drh g s.currentFrame st ∈
        (if tgt = c then _
         else (starPassAux rng t sp dr drh g s.currentFrame (s.starActive c)
            { s with starActive := fun c' => if c' = c then [] else s.starActive c' }).2.starActive tgt)
      rw [if_neg hc]
      exact h2 tgt h3

/-- The star pass keeps every already-stamped star of any list. -/
theorem starPass_settled (rng : ℕ → ℝ) (t sp dr drh g : ℝ) (c c₀ : CKey) (s : FwState)
    (st : StarP) (hmem : st ∈ s.starActive c₀) (hfr : st.updateFrame = s.currentFrame) :
    st ∈ (starPass rng t sp dr drh g c s).starActive c₀ := by
  by_cases hc : c₀ = c
  · subst hc
    have hk := starPassAux_skip rng t sp dr drh g s.currentFrame st (s.starActive c₀)
      { s with starActive := fun c' => if c' = c₀ then [] else s.starActive c' } hmem hfr
    show st ∈ (if c₀ = c₀ then (starPassAux rng t sp dr drh g s.currentFrame (s.starActive c₀)
        { s with starActive := fun c' => if c' = c₀ then [] else s.starActive c' }).1 ++ _
      else _)
    rw [if_pos rfl]
    exact List.mem_append_left _ hk
  · obtain ⟨ap, hap⟩ := starPass_active_other rng t sp dr drh g c s c₀ hc
    rw [hap]
    exact List.mem_append_left _ hmem

/-- The spark pass keeps each of its surviving sparks in its list. -/
theorem sparkPass_survivor (t sp d g : ℝ) (c : CKey) (s : FwState) (pk : SparkP)
    (hmem : pk ∈ s.sparkActive c) (hlife : ¬ pk.life - t ≤ 0) :
    sparkStepValue t sp d g pk ∈ (sparkPass t sp d g c s).sparkActive c := by
  have hk := sparkPassAux_survivor t sp d g pk (s.sparkActive c)
    { s with sparkActive := fun c' => if c' = c then [] else s.sparkActive c' } hmem hlife
  show sparkStepValue t sp d g pk ∈
    (if c = c then (sparkPassAux t sp d g (s.sparkActive c)
        { s with sparkActive := fun c' => if c' = c then [] else s.sparkActive c' }).1 ++ _
     else _)
  rw [if_pos rfl]
  exact List.mem_append_left _ hk

/-- One color's pass keeps the frame counter. -/
theorem colorPass_frame (rng : ℕ → ℝ) (t sp : ℝ) (c : CKey) (s : FwState) :
    (colorPass rng t sp c s).currentFrame = s.currentFrame := by
  unfold colorPass
  rw [(sparkPass_state _ _ _ _ _ _).2.2.2, starPass_frame]

/-- One color's pass only grows the star allocation counter. -/
theorem colorPass_starNextUid_le (rng : ℕ → ℝ) (t sp : ℝ) (c : CKey) (s : FwState) :
    s.starNextUid ≤ (colorPass rng t sp c s).starNextUid := by
  unfold colorPass
  rw [(sparkPass_state _ _ _ _ _ _).2.1]
  exact starPass_starNextUid_le rng t sp (starDragAt sp) (starDragHeavyAt sp) (gAccAt t) c s

/-- One color's pass only grows the spark allocation counter. -/
theorem colorPass_sparkNextUid_le (rng : ℕ → ℝ) (t sp : ℝ) (c : CKey) (s : FwState) :
    s.sparkNextUid ≤ (colorPass rng t sp c s).sparkNextUid := by
  unfold colorPass
  rw [(sparkPass_state _ _ _ _ _ _).2.2.1]
  exact starPass_sparkNextUid_le rng t sp (starDragAt sp) (starDragHeavyAt sp) (gAccAt t) c s

/-- One color's pass keeps every already-stamped star. -/
theorem colorPass_settled (rng : ℕ → ℝ) (t sp : ℝ) (c c₀ : CKey) (s : FwState)
    (st : StarP) (hmem : st ∈ s.starActive c₀) (hfr : st.updateFrame = s.currentFrame) :
    st ∈ (colorPass rng t sp c s).starActive c₀ := by
  unfold colorPass
  rw [(sparkPass_state _ _ _ _ _ _).1]
  exact starPass_settled rng t sp (starDragAt sp) (starDragHeavyAt sp) (gAccAt t) c c₀ s st
    hmem hfr

/-- Another color's pass keeps each pending star of this list. -/
theorem colorPass_pending_other (rng : ℕ → ℝ) (t sp : ℝ) (c c₀ : CKey) (s : FwState)
    (st : StarP) (hc : c₀ ≠ c) (hmem : st ∈ s.starActive c₀) :
    st ∈ (colorPass rng t sp c s).starActive c₀ := by
  unfold colorPass
  rw [(sparkPass_state _ _ _ _ _ _).1]
  obtain ⟨ap, hap⟩ := starPass_active_other rng t sp (starDragAt sp) (starDragHeavyAt sp)
    (gAccAt t) c s c₀ hc
  rw [hap]
  exact List.mem_append_left _ hmem

/-- The pass of a star's own color sends each not-yet-updated survivor to
some active list. -/
theorem colorPass_survivor_here (rng : ℕ → ℝ) (t sp : ℝ) (c₀ : CKey) (s : FwState)
    (st : StarP) (hmem : st ∈ s.starActive c₀) (hfr : st.updateFrame ≠ s.currentFrame)
    (hlife : ¬ st.life - t ≤ 0) :
    ∃ c', starStepValue t sp (starDragAt sp) (starDragHeavyAt sp) (gAccAt t)
        s.currentFrame st ∈ (colorPass rng t sp c₀ s).starActive c' := by
  obtain ⟨c', h⟩ := starPass_survivor rng t sp (starDragAt sp) (starDragHeavyAt sp)
    (gAccAt t) c₀ s st hmem hfr hlife
  refine ⟨c', ?_⟩
  unfold colorPass
  rw [(sparkPass_state _ _ _ _ _ _).1]
  exact h

/-- Another color's pass keeps each spark of this list. -/
theorem colorPass_spark_other (rng : ℕ → ℝ) (t sp : ℝ) (c c₀ : CKey) (s : FwState)
    (pk : SparkP) (hc : c₀ ≠ c) (hmem : pk ∈ s.sparkActive c₀) :
    pk ∈ (colorPass rng t sp c s).sparkActive c₀ := by
  unfold colorPass
  rw [sparkPass_spark_other _ _ _ _ _ _ _ hc]
  obtain ⟨ap, hap⟩ := starPass_spark_other rng t sp (starDragAt sp) (starDragHeavyAt sp)
    (gAccAt t) c s c₀
  rw [hap]
  exact List.mem_append_left _ hmem

/-- The pass of a spark's own color keeps each surviving spark in its
list. -/
theorem colorPass_spark_here (rng : ℕ → ℝ) (t sp : ℝ) (c₀ : CKey) (s : FwState)
    (pk : SparkP) (hmem : pk ∈ s.sparkActive c₀) (hlife : ¬ pk.life - t ≤ 0) :
    sparkStepValue t sp (sparkDragAt sp) (gAccAt t) pk
      ∈ (colorPass rng t sp c₀ s).sparkActive c₀ := by
  unfold colorPass
  apply sparkPass_survivor
  · obtain ⟨ap, hap⟩ := starPass_spark_other rng t sp (starDragAt sp) (starDragHeavyAt sp)
      (gAccAt t) c₀ s c₀
    rw [hap]
    exact List.mem_append_left _ hmem
  · exact hlife

/-- The per-color fold keeps the frame counter. -/
theorem foldColor_frame (rng : ℕ → ℝ) (t sp : ℝ) : ∀ (cs : List CKey) (s : FwState),
    (cs.foldl (fun s c => colorPass rng t sp c s) s).currentFrame = s.currentFrame := by
  intro cs
  induction cs with
  | nil => intro s; rfl
  | cons c rest ih =>
    intro s
    rw [List.foldl_cons, ih, colorPass_frame]

/-- The per-color fold keeps every already-stamped star. -/
theorem foldColor_settled (rng : ℕ → ℝ) (t sp : ℝ) (c₀ : CKey) (st : StarP) :
    ∀ (cs : List CKey) (s : FwState), st ∈ s.starActive c₀ →
      st.updateFrame = s.currentFrame →
      st ∈ (cs.foldl (fun s c => colorPass rng t sp c s) s).starActive c₀ := by
  intro cs
  induction cs with
  | nil => intro s hmem _; exact hmem
  | cons c rest ih =>
    intro s hmem hfr
    rw [List.foldl_cons]
    exact ih (colorPass rng t sp c s) (colorPass_settled rng t sp c c₀ s st hmem hfr)
      (by rw [colorPass_frame]; exact hfr)

/-- The per-color fold sends each not-yet-updated survivor to some active
list, with its frame value computed at the fold's (constant) frame. -/
theorem foldColor_survivor (rng : ℕ → ℝ) (t sp : ℝ) (c₀ : CKey) (st : StarP) :
    ∀ (cs : List CKey) (s : FwState), c₀ ∈ cs → st ∈ s.starActive c₀ →
      st.updateFrame ≠ s.currentFrame → ¬ st.life - t ≤ 0 →
      ∃ c', starStepValue t sp (starDragAt sp) (starDragHeavyAt sp) (gAccAt t)
          s.currentFrame st
        ∈ (cs.foldl (fun s c => colorPass rng t sp c s) s).starActive c' := by
  intro cs
  induction cs with
  | nil => intro s hcs; cases hcs
  | cons c rest ih =>
    intro s hcs hmem hfr hlife
    rw [List.foldl_cons]
    by_cases hc : c₀ = c
    · subst hc
      obtain ⟨c', hv⟩ := colorPass_survivor_here rng t sp c₀ s st hmem hfr hlife
      refine ⟨c', foldColor_settled rng t sp c' _ rest (colorPass rng t sp c₀ s) hv ?_⟩
      rw [colorPass_frame, starStepValue_frame]
    · have hcs' : c₀ ∈ rest := by
        rcases List.mem_cons.mp hcs with h | h
        · exact absurd h hc
        · exact h
      have hmem' := colorPass_pending_other rng t sp c c₀ s st hc hmem
      have hfr' : st.updateFrame ≠ (colorPass rng t sp c s).currentFrame := by
        rw [colorPass_frame]
        exact hfr
      have hres := ih (colorPass rng t sp c s) hcs' hmem' hfr' hlife
      rw [colorPass_frame] at hres
      exact hres

/-- Colors other than a spark's own never disturb its list membership. -/
theorem foldColor_spark_keep (rng : ℕ → ℝ) (t sp : ℝ) (c₀ : CKey) (pk : SparkP) :
    ∀ (cs : List CKey) (s : FwState), (∀ c ∈ cs, c ≠ c₀) → pk ∈ s.sparkActive c₀ →
      pk ∈ (cs.foldl (fun s c => colorPass rng t sp c s) s).sparkActive c₀ := by
  intro cs
  induction cs with
  | nil => intro s _ hmem; exact hmem
  | cons c rest ih =>
    intro s hcs hmem
    rw [List.foldl_cons]
    exact ih (colorPass rng t sp c s) (fun c' h => hcs c' (List.mem_cons_of_mem _ h))
      (colorPass_spark_other rng t sp c c₀ s pk
        (Ne.symm (hcs c (List.mem_cons_self _ _))) hmem)

/-- A color occurring exactly once in the fold: each surviving spark of
that color ends in its own list, updated once. -/
theorem foldColor_spark_survivor (rng : ℕ → ℝ) (t sp : ℝ) (c₀ : CKey) (pk : SparkP) :
    ∀ (cs : List CKey) (s : FwState), cs.count c₀ = 1 → pk ∈ s.sparkActive c₀ →
      ¬ pk.life - t ≤ 0 →
      sparkStepValue t sp (sparkDragAt sp) (gAccAt t) pk
        ∈ (cs.foldl (fun s c => colorPass rng t sp c s) s).sparkActive c₀ := by
  intro cs
  induction cs with
  | nil => intro s hcount; simp at hcount
  | cons c rest ih =>
    intro s hcount hmem hlife
    rw [List.foldl_cons]
    by_cases hc : c = c₀
    · subst hc
      have hzero : rest.count c = 0 := by
        rw [List.count_cons_self] at hcount
        omega
      have hnot : c ∉ rest := List.count_eq_zero.mp hzero
      exact foldColor_spark_keep rng t sp c (sparkStepValue t sp (sparkDragAt sp)
          (gAccAt t) pk) rest (colorPass rng t sp c s)
        (fun c' h heq => hnot (heq ▸ h))
        (colorPass_spark_here rng t sp c s pk hmem hlife)
    · have hcount' : rest.count c₀ = 1 := by
        rw [List.count_cons] at hcount
        simpa [hc] using hcount
      exact ih (colorPass rng t sp c s) hcount'
        (colorPass_spark_other rng t sp c c₀ s pk (Ne.symm hc) hmem) hlife

/-- `updateFireworks` sends each not-yet-stamped surviving star to some
active list, holding the step values of the new frame. -/
theorem updateFireworks_star_survivor (rng : ℕ → ℝ) (t sp : ℝ) (s : FwState)
    (c₀ : CKey) (st : StarP) (hmem : st ∈ s.starActive c₀)
    (hfr : st.updateFrame ≠ s.currentFrame + 1) (hlife : ¬ st.life - t ≤ 0) :
    ∃ c', starStepValue t sp (starDragAt sp) (starDragHeavyAt sp) (gAccAt t)
        (s.currentFrame + 1) st
      ∈ (updateFireworks rng t sp s).starActive c' := by
  exact foldColor_survivor rng t sp c₀ st colorOrder
    { s with currentFrame := s.currentFrame + 1 } (by cases c₀ <;> simp [colorOrder])
    hmem hfr hlife

/-- `updateFireworks` keeps a star already stamped with the new frame
untouched. -/
theorem updateFireworks_star_skip (rng : ℕ → ℝ) (t sp : ℝ) (s : FwState)
    (c₀ : CKey) (st : StarP) (hmem : st ∈ s.starActive c₀)
    (hfr : st.updateFrame = s.currentFrame + 1) :
    st ∈ (updateFireworks rng t sp s).starActive c₀ := by
  exact foldColor_settled rng t sp c₀ st colorOrder
    { s with currentFrame := s.currentFrame + 1 } hmem hfr

/-- `updateFireworks` keeps each surviving spark in its own list, updated
once. -/
theorem updateFireworks_spark_survivor (rng : ℕ → ℝ) (t sp : ℝ) (s : FwState)
    (c₀ : CKey) (pk : SparkP) (hmem : pk ∈ s.sparkActive c₀)
    (hlife : ¬ pk.life - t ≤ 0) :
    sparkStepValue t sp (sparkDragAt sp) (gAccAt t) pk
      ∈ (updateFireworks rng t sp s).sparkActive c₀ := by
  exact foldColor_spark_survivor rng t sp c₀ pk colorOrder
    { s with currentFrame := s.currentFrame + 1 } (by cases c₀ <;> simp [colorOrder])
    hmem hlife

/-- At `speed = 0` the motion stage leaves the position unchanged (the
spin offset, too, is scaled by `speed`). -/
theorem starMotion_zero_sp (dr drh g : ℝ) (st : StarP) :
    (starMotion 0 dr drh g st).x = st.x ∧ (starMotion 0 dr drh g st).y = st.y := by
  unfold starMotion
  by_cases h1 : st.heavy <;> by_cases h2 : st.spinRadius ≠ 0 <;> simp [h1, h2]

/-- A survivor of a zero-speed frame keeps its position. -/
theorem starStepValue_pos_zero (t dr drh g : ℝ) (frame : ℕ) (st : StarP) :
    (starStepValue t 0 dr drh g frame st).x = st.x ∧
    (starStepValue t 0 dr drh g frame st).y = st.y := by
  unfold starStepValue
  constructor
  · rw [(starTransition_fields _).2.2.1, (starSparkValue_fields _ _).2.2.1,
      (starMotion_zero_sp _ _ _ _).1]
  · rw [(starTransition_fields _).2.2.2.1, (starSparkValue_fields _ _).2.2.2.1,
      (starMotion_zero_sp _ _ _ _).2]

/-- The emission-timer stage keeps the pending transition color. -/
theorem starSparkValue_second (t : ℝ) (st : StarP) :
    (starSparkValue t st).secondColor = st.secondColor := by
  unfold starSparkValue
  by_cases h : st.sparkFreq ≠ 0 <;> simp [h]

/-- A star with no pending `secondColor` requests no move. -/
theorem starTransition_target_none_of_nosecond (st : StarP)
    (h : st.secondColor = none) : (starTransition st).2 = none := by
  unfold starTransition
  by_cases h1 : st.life < st.transitionTime
  · by_cases h3 : st.strobe <;> simp [h1, h, h3]
  · simp [h1]

/-- C3 counterexample: `updateFireworks` with `frameTimeMs = 0` (but speed
scale `1`) moves the sample star from `x = 0` to `x = 1`: a zero time step
is not a no-op for positions, which advance by `velocity · speedScale`
independent of the frame time. -/
theorem zero_timestep_moves :
    sampleStar.x = 0 ∧ sampleStar ∈ sampleState.starActive CKey.Red ∧
    ∃ c', ∃ v ∈ (updateFireworks (fun _ => 1 / 2) 0 1 sampleState).starActive c',
      v.uid = sampleStar.uid ∧ v.x = 1 := by
  refine ⟨rfl, by simp [sampleState], ?_⟩
  obtain ⟨c', hv⟩ := updateFireworks_star_survivor (fun _ => 1 / 2) 0 1 sampleState
    CKey.Red sampleStar (by simp [sampleState])
    (by simp [sampleStar, mkFreshStar, sampleState, emptyState])
    (by norm_num [sampleStar, mkFreshStar])
  refine ⟨c', starStepValue 0 1 (starDragAt 1) (starDragHeavyAt 1) (gAccAt 0)
    (sampleState.currentFrame + 1) sampleStar, hv, starStepValue_uid _ _ _ _ _ _ _, ?_⟩
  rw [starStepValue_x _ _ _ _ _ _ _ rfl]
  norm_num [sampleStar, mkFreshStar]

/-- C3 amended: with a zero frame time and a zero speed scale,
`updateFireworks` preserves every active star's (life, position, color) —
stars with a pending color transition excluded, since those are recolored
and relocated even in a zero step — and every active spark's (life,
position, color); particles are tracked by their ghost identity. -/
theorem zero_step_preserves (rng : ℕ → ℝ) (s : FwState) :
    (∀ c₀ : CKey, ∀ st ∈ s.starActive c₀, 0 < st.life →
      starStepTarget 0 0 (starDragAt 0) (starDragHeavyAt 0) (gAccAt 0)
        (s.currentFrame + 1) st = none →
      ∃ c', ∃ v ∈ (updateFireworks rng 0 0 s).starActive c',
        v.uid = st.uid ∧ v.life = st.life ∧ v.x = st.x ∧ v.y = st.y ∧
        v.color = st.color) ∧
    (∀ c₀ : CKey, ∀ pk ∈ s.sparkActive c₀, 0 < pk.life →
      ∃ v ∈ (updateFireworks rng 0 0 s).sparkActive c₀,
        v.uid = pk.uid ∧ v.life = pk.life ∧ v.x = pk.x ∧ v.y = pk.y ∧
        v.color = pk.color) := by
  constructor
  · intro c₀ st hmem hpos htgt
    by_cases hfr : st.updateFrame = s.currentFrame + 1
    · exact ⟨c₀, st, updateFireworks_star_skip rng 0 0 s c₀ st hmem hfr,
        rfl, rfl, rfl, rfl, rfl⟩
    · obtain ⟨c', hv⟩ := updateFireworks_star_survivor rng 0 0 s c₀ st hmem hfr
        (by rw [sub_zero]; exact not_le.mpr hpos)
      refine ⟨c', starStepValue 0 0 (starDragAt 0) (starDragHeavyAt 0) (gAccAt 0)
        (s.currentFrame + 1) st, hv, starStepValue_uid _ _ _ _ _ _ _, ?_, ?_, ?_, ?_⟩
      · rw [starStepValue_life, sub_zero]
      · exact (starStepValue_pos_zero _ _ _ _ _ _).1
      · exact (starStepValue_pos_zero _ _ _ _ _ _).2
      · exact starStepValue_color _ _ _ _ _ _ _ htgt
  · intro c₀ pk hmem hpos
    refine ⟨sparkStepValue 0 0 (sparkDragAt 0) (gAccAt 0) pk,
      updateFireworks_spark_survivor rng 0 0 s c₀ pk hmem
        (by rw [sub_zero]; exact not_le.mpr hpos), rfl, ?_, ?_, ?_, rfl⟩
    · show pk.life - 0 = pk.life
      rw [sub_zero]
    · show pk.x + pk.speedX * 0 = pk.x
      rw [mul_zero, add_zero]
    · show pk.y + pk.speedY * 0 = pk.y
      rw [mul_zero, add_zero]

/-- Witness for `zero_step_preserves` on the one-star sample state. -/
theorem zero_step_preserves_witness :
    ∃ c', ∃ v ∈ (updateFireworks (fun _ => 1 / 2) 0 0 sampleState).starActive c',
      v.uid = sampleStar.uid ∧ v.life = sampleStar.life ∧ v.x = sampleStar.x ∧
      v.y = sampleStar.y ∧ v.color = sampleStar.color :=
  (zero_step_preserves (fun _ => 1 / 2) sampleState).1 CKey.Red sampleStar
    (by simp [sampleState])
    (by norm_num [sampleStar, mkFreshStar])
    (starTransition_target_none_of_nosecond _
      (by rw [starSparkValue_second, (starMotion_fields _ _ _ _ _).2.2.2.2.1]; rfl))

/-- Ghost-count of a one-element extension. -/
theorem uidCountIn_cons (u : ℕ) (q : StarP) (l : List StarP) :
    uidCountIn u (q :: l) = (if q.uid = u then 1 else 0) + uidCountIn u l := by
  unfold uidCountIn
  by_cases h : q.uid = u <;> simp [List.filter_cons, h, Nat.add_comm]

/-- Ghost-count distributes over append. -/
theorem uidCountIn_append (u : ℕ) (l1 l2 : List StarP) :
    uidCountIn u (l1 ++ l2) = uidCountIn u l1 + uidCountIn u l2 := by
  unfold uidCountIn
  rw [List.filter_append, List.length_append]

/-- A list of freshly allocated stars holds no older ghost identity. -/
theorem uidCountIn_zero_of_fresh (u b : ℕ) (l : List StarP) (hub : u < b)
    (h : ∀ q ∈ l, b ≤ q.uid) : uidCountIn u l = 0 := by
  induction l with
  | nil => rfl
  | cons q rest ih =>
    rw [uidCountIn_cons]
    have hq := h q (List.mem_cons_self _ _)
    have : q.uid ≠ u := by omega
    rw [if_neg this, ih (fun q' h' => h q' (List.mem_cons_of_mem _ h'))]

/-- Membership with the ghost identity makes the count positive. -/
theorem uidCountIn_pos_of_mem (u : ℕ) (q : StarP) (l : List StarP)
    (hmem : q ∈ l) (hq : q.uid = u) : 0 < uidCountIn u l := by
  induction l with
  | nil => cases hmem
  | cons hd rest ih =>
    rw [uidCountIn_cons]
    rcases List.mem_cons.mp hmem with heq | hmem'
    · subst heq
      rw [if_pos hq]
      omega
    · have := ih hmem'
      omega

/-- A zero ghost-count excludes membership with that identity. -/
theorem uidCountIn_zero_no_mem (u : ℕ) (l : List StarP) (h : uidCountIn u l = 0)
    (q : StarP) (hmem : q ∈ l) : q.uid ≠ u := by
  intro hq
  have := uidCountIn_pos_of_mem u q l hmem hq
  omega

/-- In a list holding the ghost identity exactly once, any two members
carrying it coincide. -/
theorem uid_unique_eq (u : ℕ) (l : List StarP) (h1 : uidCountIn u l = 1)
    (q1 q2 : StarP) (hq1 : q1 ∈ l) (hu1 : q1.uid = u) (hq2 : q2 ∈ l)
    (hu2 : q2.uid = u) : q1 = q2 := by
  induction l with
  | nil => cases hq1
  | cons hd rest ih =>
    rw [uidCountIn_cons] at h1
    by_cases hhd : hd.uid = u
    · rw [if_pos hhd] at h1
      have hrest : uidCountIn u rest = 0 := by omega
      have e1 : q1 = hd := by
        rcases List.mem_cons.mp hq1 with heq | hmem'
        · exact heq
        · exact absurd hu1 (uidCountIn_zero_no_mem u rest hrest q1 hmem')
      have e2 : q2 = hd := by
        rcases List.mem_cons.mp hq2 with heq | hmem'
        · exact heq
        · exact absurd hu2 (uidCountIn_zero_no_mem u rest hrest q2 hmem')
      rw [e1, e2]
    · rw [if_neg hhd] at h1
      have m1 : q1 ∈ rest := by
        rcases List.mem_cons.mp hq1 with heq | hmem'
        · exact absurd (heq ▸ hu1) hhd
        · exact hmem'
      have m2 : q2 ∈ rest := by
        rcases List.mem_cons.mp hq2 with heq | hmem'
        · exact absurd (heq ▸ hu2) hhd
        · exact hmem'
      exact ih (by omega) m1 m2

/-- The state-level star ghost-count as the explicit seven-color sum. -/
theorem starUidCount_parts (u : ℕ) (s : FwState) :
    starUidCount u s
      = uidCountIn u (s.starActive .Red) + uidCountIn u (s.starActive .Green)
        + uidCountIn u (s.starActive .Blue) + uidCountIn u (s.starActive .Purple)
        + uidCountIn u (s.starActive .Gold) + uidCountIn u (s.starActive .White)
        + uidCountIn u (s.starActive .Invisible) := by
  simp [starUidCount, colorOrder]
  omega

/-- One list's ghost-count is bounded by the state total. -/
theorem uidCountIn_le_total (u : ℕ) (c : CKey) (s : FwState) :
    uidCountIn u (s.starActive c) ≤ starUidCount u s := by
  rw [starUidCount_parts]
  cases c <;> omega

/-- With a unique ghost identity sitting in one list, every other list's
count is zero. -/
theorem uidCountIn_other_zero (u : ℕ) (c₀ c : CKey) (s : FwState) (hne : c ≠ c₀)
    (htot : starUidCount u s = 1) (hpos : 0 < uidCountIn u (s.starActive c₀)) :
    uidCountIn u (s.starActive c) = 0 := by
  rw [starUidCount_parts] at htot
  cases c <;> cases c₀ <;> first | exact absurd rfl hne | omega

/-- `pushStar` keeps the allocation counter. -/
theorem pushStar_starNextUid (c : CKey) (st : StarP) (s : FwState) :
    (pushStar c st s).starNextUid = s.starNextUid := rfl

/-- Extension by fresh stars keeps the ghost-count of any older
identity. -/
theorem starUidCount_extends {s s' : FwState} (h : Extends s s') (u : ℕ)
    (hu : u < s.starNextUid) : starUidCount u s' = starUidCount u s := by
  have hc : ∀ c, uidCountIn u (s'.starActive c) = uidCountIn u (s.starActive c) := by
    intro c
    obtain ⟨ap, e, gfresh⟩ := h.2.2.2.1 c
    rw [e, uidCountIn_append,
      uidCountIn_zero_of_fresh u s.starNextUid ap hu gfresh]
    omega
  rw [starUidCount_parts, starUidCount_parts, hc .Red, hc .Green, hc .Blue, hc .Purple,
    hc .Gold, hc .White, hc .Invisible]

/-- `pushStar` adds exactly the pushed star's ghost contribution. -/
theorem starUidCount_pushStar (u : ℕ) (c : CKey) (st : StarP) (s : FwState) :
    starUidCount u (pushStar c st s)
      = starUidCount u s + (if st.uid = u then 1 else 0) := by
  have hc : ∀ c', uidCountIn u ((pushStar c st s).starActive c')
      = uidCountIn u (s.starActive c')
        + (if c' = c then (if st.uid = u then 1 else 0) else 0) := by
    intro c'
    unfold pushStar
    by_cases h : c' = c
    · simp only [h, if_true, if_pos rfl]
      show uidCountIn u (s.starActive c ++ [st]) = _
      rw [uidCountIn_append, uidCountIn_cons]
      show _ + ((if st.uid = u then 1 else 0) + uidCountIn u []) = _
      have : uidCountIn u ([] : List StarP) = 0 := rfl
      rw [this]
      omega
    · simp [h]
  rw [starUidCount_parts, starUidCount_parts, hc .Red, hc .Green, hc .Blue, hc .Purple,
    hc .Gold, hc .White, hc .Invisible]
  cases c <;> simp <;> omega

/-- The star loop over a snapshot whose ghost-`u` members are all dead and
unstamped: nothing with identity `u` is kept and the state count is
unchanged. -/
theorem starPassAux_count (rng : ℕ → ℝ) (t sp dr drh g : ℝ) (frame : ℕ) (u : ℕ) :
    ∀ (l : List StarP) (s : FwState), u < s.starNextUid →
      (∀ q ∈ l, q.uid = u → q.updateFrame ≠ frame ∧ q.life - t ≤ 0) →
      uidCountIn u (starPassAux rng t sp dr drh g frame l s).1 = 0 ∧
      starUidCount u (starPassAux rng t sp dr drh g frame l s).2 = starUidCount u s ∧
      s.starNextUid ≤ (starPassAux rng t sp dr drh g frame l s).2.starNextUid := by
  intro l
  induction l with
  | nil => intro s hu _; exact ⟨rfl, rfl, le_refl _⟩
  | cons hd rest ih =>
    intro s hu hl
    obtain ⟨ih1, ih2, ih3⟩ := ih s hu (fun q h => hl q (List.mem_cons_of_mem _ h))
    have hu2 : u < (starPassAux rng t sp dr drh g frame rest s).2.starNextUid := by
      omega
    rw [starPassAux_cons]
    by_cases h1 : hd.updateFrame = frame
    · have hhd : hd.uid ≠ u := by
        intro hq
        exact (hl hd (List.mem_cons_self _ _) hq).1 h1
      rw [processStar_skip rng t sp dr drh g frame hd _ h1]
      refine ⟨?_, ih2, ih3⟩
      rw [uidCountIn_cons, if_neg hhd, ih1]
    · by_cases h2 : hd.life - t ≤ 0
      · rw [processStar_dead rng t sp dr drh g frame hd _ h1 h2]
        have hext := extends_returnInstance rng
          { hd with updateFrame := frame, life := hd.life - t }
          (starPassAux rng t sp dr drh g frame rest s).2
        refine ⟨ih1, ?_, ?_⟩
        · rw [starUidCount_extends hext u hu2, ih2]
        · exact ih3.trans hext.2.1
      · have hhd : hd.uid ≠ u := by
          intro hq
          exact h2 (hl hd (List.mem_cons_self _ _) hq).2
        have hvuid : (starStepValue t sp dr drh g frame hd).uid ≠ u := by
          rw [starStepValue_uid]
          exact hhd
        cases h3 : starStepTarget t sp dr drh g frame hd with
        | none =>
          rw [processStar_live_none rng t sp dr drh g frame hd _ h1 h2 h3]
          have hext := extends_sparkStep_state rng t
            (starMotion sp dr drh g { hd with updateFrame := frame, life := hd.life - t })
            (starPassAux rng t sp dr drh g frame rest s).2
          refine ⟨?_, ?_, ?_⟩
          · rw [uidCountIn_cons, if_neg hvuid, ih1]
          · rw [starUidCount_extends hext u hu2, ih2]
          · exact ih3.trans hext.2.1
        | some tgt =>
          rw [processStar_live_some rng t sp dr drh g frame hd _ tgt h1 h2 h3]
          have hext := extends_sparkStep_state rng t
            (starMotion sp dr drh g { hd with updateFrame := frame, life := hd.life - t })
            (starPassAux rng t sp dr drh g frame rest s).2
          refine ⟨ih1, ?_, ?_⟩
          · rw [starUidCount_pushStar, if_neg hvuid,
              starUidCount_extends hext u hu2, ih2]
            omega
          · rw [pushStar_starNextUid]
            exact ih3.trans hext.2.1

/-- The star pass's lists, definitionally. -/
theorem starPass_active_eq (rng : ℕ → ℝ) (t sp dr drh g : ℝ) (c : CKey) (s : FwState)
    (c' : CKey) :
    (starPass rng t sp dr drh g c s).starActive c'
      = if c' = c
        then (starPassAux rng t sp dr drh g s.currentFrame (s.starActive c)
            { s with starActive := fun c'' => if c'' = c then [] else s.starActive c'' }).1
          ++ (starPassAux rng t sp dr drh g s.currentFrame (s.starActive c)
            { s with starActive := fun c'' => if c'' = c then [] else s.starActive c'' }).2.starActive c
        else (starPassAux rng t sp dr drh g s.currentFrame (s.starActive c)
            { s with starActive := fun c'' => if c'' = c then [] else s.starActive c'' }).2.starActive c' := rfl

/-- One color's star pass removes exactly its own list's ghost-`u`
members, provided those are all dead and unstamped. -/
theorem starPass_count (rng : ℕ → ℝ) (t sp dr drh g : ℝ) (u : ℕ) (c : CKey)
    (s : FwState) (hu : u < s.starNextUid)
    (hl : ∀ q ∈ s.starActive c, q.uid = u →
      q.updateFrame ≠ s.currentFrame ∧ q.life - t ≤ 0) :
    starUidCount u (starPass rng t sp dr drh g c s) + uidCountIn u (s.starActive c)
      = starUidCount u s ∧
    s.starNextUid ≤ (starPass rng t sp dr drh g c s).starNextUid := by
  have hs0 : ∀ c', uidCountIn u
      (({ s with starActive := fun c'' => if c'' = c then [] else s.starActive c'' } :
        FwState).starActive c')
      = if c' = c then 0 else uidCountIn u (s.starActive c') := by
    intro c'
    by_cases h : c' = c <;> simp [h, uidCountIn]
  obtain ⟨a1, a2, a3⟩ := starPassAux_count rng t sp dr drh g s.currentFrame u
    (s.starActive c)
    { s with starActive := fun c'' => if c'' = c then [] else s.starActive c'' } hu hl
  have hfin : ∀ c', uidCountIn u ((starPass rng t sp dr drh g c s).starActive c')
      = uidCountIn u ((starPassAux rng t sp dr drh g s.currentFrame (s.starActive c)
          { s with starActive := fun c'' => if c'' = c then [] else s.starActive c'' }).2.starActive c') := by
    intro c'
    rw [starPass_active_eq]
    by_cases h : c' = c
    · rw [if_pos h, h, uidCountIn_append, a1]
      omega
    · rw [if_neg h]
  have hcf : starUidCount u (starPass rng t sp dr drh g c s)
      = starUidCount u (starPassAux rng t sp dr drh g s.currentFrame (s.starActive c)
          { s with starActive := fun c'' => if c'' = c then [] else s.starActive c'' }).2 := by
    rw [starUidCount_parts, starUidCount_parts, hfin .Red, hfin .Green, hfin .Blue,
      hfin .Purple, hfin .Gold, hfin .White, hfin .Invisible]
  have hs0c : starUidCount u
        ({ s with starActive := fun c'' => if c'' = c then [] else s.starActive c'' } :
          FwState) + uidCountIn u (s.starActive c) = starUidCount u s := by
    rw [starUidCount_parts, starUidCount_parts, hs0 .Red, hs0 .Green, hs0 .Blue,
      hs0 .Purple, hs0 .Gold, hs0 .White, hs0 .Invisible]
    cases c <;> simp <;> omega
  constructor
  · rw [hcf, a2]
    exact hs0c
  · exact a3

/-- The spark pass keeps the star ghost-count. -/
theorem sparkPass_starUidCount (t sp d g : ℝ) (u : ℕ) (c : CKey) (s : FwState) :
    starUidCount u (sparkPass t sp d g c s) = starUidCount u s := by
  unfold starUidCount
  rw [(sparkPass_state _ _ _ _ _ _).1]

/-- One color's pass removes exactly its own list's ghost-`u` stars,
provided those are all dead and unstamped. -/
theorem colorPass_count (rng : ℕ → ℝ) (t sp : ℝ) (u : ℕ) (c : CKey) (s : FwState)
    (hu : u < s.starNextUid)
    (hl : ∀ q ∈ s.starActive c, q.uid = u →
      q.updateFrame ≠ s.currentFrame ∧ q.life - t ≤ 0) :
    starUidCount u (colorPass rng t sp c s) + uidCountIn u (s.starActive c)
      = starUidCount u s := by
  unfold colorPass
  rw [sparkPass_starUidCount]
  exact (starPass_count rng t sp (starDragAt sp) (starDragHeavyAt sp) (gAccAt t) u c s
    hu hl).1

/-- Once the ghost identity is gone from every list, the fold keeps it
gone. -/
theorem foldColor_count_zero (rng : ℕ → ℝ) (t sp : ℝ) (u : ℕ) :
    ∀ (cs : List CKey) (s : FwState), u < s.starNextUid → starUidCount u s = 0 →
      starUidCount u (cs.foldl (fun s c => colorPass rng t sp c s) s) = 0 := by
  intro cs
  induction cs with
  | nil => intro s _ h; exact h
  | cons c rest ih =>
    intro s hu h
    rw [List.foldl_cons]
    have hin : uidCountIn u (s.starActive c) = 0 := by
      have := uidCountIn_le_total u c s
      omega
    have hl : ∀ q ∈ s.starActive c, q.uid = u →
        q.updateFrame ≠ s.currentFrame ∧ q.life - t ≤ 0 := by
      intro q hq hq'
      exact absurd hq' (uidCountIn_zero_no_mem u _ hin q hq)
    have hc := colorPass_count rng t sp u c s hu hl
    refine ih (colorPass rng t sp c s) ?_ ?_
    · have := colorPass_starNextUid_le rng t sp c s
      omega
    · omega

/-- Processing the list of a uniquely-identified dead, unstamped star
removes its identity from the state; the rest of the fold keeps it
removed. -/
theorem foldColor_count_dead (rng : ℕ → ℝ) (t sp : ℝ) (u : ℕ) (c₀ : CKey) (st : StarP) :
    ∀ (cs : List CKey) (s : FwState),
      u < s.starNextUid → starUidCount u s = 1 →
      st ∈ s.starActive c₀ → st.uid = u →
      st.updateFrame ≠ s.currentFrame → st.life - t ≤ 0 → c₀ ∈ cs →
      starUidCount u (cs.foldl (fun s c => colorPass rng t sp c s) s) = 0 := by
  intro cs
  induction cs with
  | nil => intro s _ _ _ _ _ _ hcs; cases hcs
  | cons c rest ih =>
    intro s hu hcount hmem huid hfr hdead hcs
    rw [List.foldl_cons]
    by_cases hc : c = c₀
    · subst hc
      have hpos : 0 < uidCountIn u (s.starActive c) := uidCountIn_pos_of_mem u st _ hmem huid
      have hone : uidCountIn u (s.starActive c) = 1 := by
        have := uidCountIn_le_total u c s
        omega
      have hl : ∀ q ∈ s.starActive c, q.uid = u →
          q.updateFrame ≠ s.currentFrame ∧ q.life - t ≤ 0 := by
        intro q hq hq'
        have : q = st := uid_unique_eq u _ hone q st hq hq' hmem huid
        rw [this]
        exact ⟨hfr, hdead⟩
      have hcc := colorPass_count rng t sp u c s hu hl
      refine foldColor_count_zero rng t sp u rest (colorPass rng t sp c s) ?_ ?_
      · have := colorPass_starNextUid_le rng t sp c s
        omega
      · omega
    · have hpos : 0 < uidCountIn u (s.starActive c₀) := uidCountIn_pos_of_mem u st _ hmem huid
      have hzero : uidCountIn u (s.starActive c) = 0 :=
        uidCountIn_other_zero u c₀ c s hc hcount hpos
      have hl : ∀ q ∈ s.starActive c, q.uid = u →
          q.updateFrame ≠ s.currentFrame ∧ q.life - t ≤ 0 := by
        intro q hq hq'
        exact absurd hq' (uidCountIn_zero_no_mem u _ hzero q hq)
      have hcc := colorPass_count rng t sp u c s hu hl
      have hcs' : c₀ ∈ rest := by
        rcases List.mem_cons.mp hcs with h | h
        · exact absurd h.symm hc
        · exact h
      refine ih (colorPass rng t sp c s) ?_ ?_ ?_ huid ?_ hdead hcs'
      · have := colorPass_starNextUid_le rng t sp c s
        omega
      · omega
      · exact colorPass_pending_other rng t sp c c₀ s st (fun h => hc h.symm) hmem
      · rw [colorPass_frame]
        exact hfr

/-- `updateFireworks` removes a uniquely-identified dead, unstamped star
from every active list. -/
theorem updateFireworks_star_death (rng : ℕ → ℝ) (t sp : ℝ) (s : FwState) (c₀ : CKey)
    (st : StarP) (hb : uidBound s) (hcount : starUidCount st.uid s = 1)
    (hmem : st ∈ s.starActive c₀) (hfr : st.updateFrame ≠ s.currentFrame + 1)
    (hdead : st.life - t ≤ 0) :
    starUidCount st.uid (updateFireworks rng t sp s) = 0 := by
  exact foldColor_count_dead rng t sp st.uid c₀ st colorOrder
    { s with currentFrame := s.currentFrame + 1 } (hb c₀ st hmem) hcount hmem rfl hfr
    hdead (by cases c₀ <;> simp [colorOrder])

/-- Spark ghost-count of a one-element extension. -/
theorem sparkUidCountIn_cons (u : ℕ) (q : SparkP) (l : List SparkP) :
    sparkUidCountIn u (q :: l) = (if q.uid = u then 1 else 0) + sparkUidCountIn u l := by
  unfold sparkUidCountIn
  by_cases h : q.uid = u <;> simp [List.filter_cons, h, Nat.add_comm]

/-- Spark ghost-count distributes over append. -/
theorem sparkUidCountIn_append (u : ℕ) (l1 l2 : List SparkP) :
    sparkUidCountIn u (l1 ++ l2) = sparkUidCountIn u l1 + sparkUidCountIn u l2 := by
  unfold sparkUidCountIn
  rw [List.filter_append, List.length_append]

/-- A list of freshly allocated sparks holds no older ghost identity. -/
theorem sparkUidCountIn_zero_of_fresh (u b : ℕ) (l : List SparkP) (hub : u < b)
    (h : ∀ q ∈ l, b ≤ q.uid) : sparkUidCountIn u l = 0 := by
  induction l with
  | nil => rfl
  | cons q rest ih =>
    rw [sparkUidCountIn_cons]
    have hq := h q (List.mem_cons_self _ _)
    have : q.uid ≠ u := by omega
    rw [if_neg this, ih (fun q' h' => h q' (List.mem_cons_of_mem _ h'))]

/-- Spark membership with the ghost identity makes the count positive. -/
theorem sparkUidCountIn_pos_of_mem (u : ℕ) (q : SparkP) (l : List SparkP)
    (hmem : q ∈ l) (hq : q.uid = u) : 0 < sparkUidCountIn u l := by
  induction l with
  | nil => cases hmem
  | cons hd rest ih =>
    rw [sparkUidCountIn_cons]
    rcases List.mem_cons.mp hmem with heq | hmem'
    · subst heq
      rw [if_pos hq]
      omega
    · have := ih hmem'
      omega

/-- A zero spark ghost-count excludes membership with that identity. -/
theorem sparkUidCountIn_zero_no_mem (u : ℕ) (l : List SparkP)
    (h : sparkUidCountIn u l = 0) (q : SparkP) (hmem : q ∈ l) : q.uid ≠ u := by
  intro hq
  have := sparkUidCountIn_pos_of_mem u q l hmem hq
  omega

/-- The state-level spark ghost-count as the explicit seven-color sum. -/
theorem sparkUidCount_parts (u : ℕ) (s : FwState) :
    sparkUidCount u s
      = sparkUidCountIn u (s.sparkActive .Red) + sparkUidCountIn u (s.sparkActive .Green)
        + sparkUidCountIn u (s.sparkActive .Blue) + sparkUidCountIn u (s.sparkActive .Purple)
        + sparkUidCountIn u (s.sparkActive .Gold) + sparkUidCountIn u (s.sparkActive .White)
        + sparkUidCountIn u (s.sparkActive .Invisible) := by
  simp [sparkUidCount, colorOrder]
  omega

/-- One list's spark ghost-count is bounded by the state total. -/
theorem sparkUidCountIn_le_total (u : ℕ) (c : CKey) (s : FwState) :
    sparkUidCountIn u (s.sparkActive c) ≤ sparkUidCount u s := by
  rw [sparkUidCount_parts]
  cases c <;> omega

/-- With a unique spark ghost identity sitting in one list, every other
list's count is zero. -/
theorem sparkUidCountIn_other_zero (u : ℕ) (c₀ c : CKey) (s : FwState) (hne : c ≠ c₀)
    (htot : sparkUidCount u s = 1)
    (hpos : 0 < sparkUidCountIn u (s.sparkActive c₀)) :
    sparkUidCountIn u (s.sparkActive c) = 0 := by
  rw [sparkUidCount_parts] at htot
  cases c <;> cases c₀ <;> first | exact absurd rfl hne | omega

/-- In a spark list holding the ghost identity exactly once, any two
members carrying it coincide. -/
theorem spark_uid_unique_eq (u : ℕ) (l : List SparkP) (h1 : sparkUidCountIn u l = 1)
    (q1 q2 : SparkP) (hq1 : q1 ∈ l) (hu1 : q1.uid = u) (hq2 : q2 ∈ l)
    (hu2 : q2.uid = u) : q1 = q2 := by
  induction l with
  | nil => cases hq1
  | cons hd rest ih =>
    rw [sparkUidCountIn_cons] at h1
    by_cases hhd : hd.uid = u
    · rw [if_pos hhd] at h1
      have hrest : sparkUidCountIn u rest = 0 := by omega
      have e1 : q1 = hd := by
        rcases List.mem_cons.mp hq1 with heq | hmem'
        · exact heq
        · exact absurd hu1 (sparkUidCountIn_zero_no_mem u rest hrest q1 hmem')
      have e2 : q2 = hd := by
        rcases List.mem_cons.mp hq2 with heq | hmem'
        · exact heq
        · exact absurd hu2 (sparkUidCountIn_zero_no_mem u rest hrest q2 hmem')
      rw [e1, e2]
    · rw [if_neg hhd] at h1
      have m1 : q1 ∈ rest := by
        rcases List.mem_cons.mp hq1 with heq | hmem'
        · exact absurd (heq ▸ hu1) hhd
        · exact hmem'
      have m2 : q2 ∈ rest := by
        rcases List.mem_cons.mp hq2 with heq | hmem'
        · exact absurd (heq ▸ hu2) hhd
        · exact hmem'
      exact ih (by omega) m1 m2

/-- Extension by fresh sparks keeps the spark ghost-count of any older
identity. -/
theorem sparkUidCount_extends {s s' : FwState} (h : Extends s s') (u : ℕ)
    (hu : u < s.sparkNextUid) : sparkUidCount u s' = sparkUidCount u s := by
  have hc : ∀ c, sparkUidCountIn u (s'.sparkActive c)
      = sparkUidCountIn u (s.sparkActive c) := by
    intro c
    obtain ⟨ap, e, gfresh⟩ := h.2.2.2.2 c
    rw [e, sparkUidCountIn_append,
      sparkUidCountIn_zero_of_fresh u s.sparkNextUid ap hu gfresh]
    omega
  rw [sparkUidCount_parts, sparkUidCount_parts, hc .Red, hc .Green, hc .Blue, hc .Purple,
    hc .Gold, hc .White, hc .Invisible]

/-- The star loop body appends only fresh sparks. -/
theorem processStar_sparkExt (rng : ℕ → ℝ) (t sp dr drh g : ℝ) (frame : ℕ)
    (st : StarP) (s : FwState) :
    s.sparkNextUid ≤ (processStar rng t sp dr drh g frame st s).2.sparkNextUid ∧
    ∀ c, ∃ ap, (processStar rng t sp dr drh g frame st s).2.sparkActive c
      = s.sparkActive c ++ ap ∧ ∀ q ∈ ap, s.sparkNextUid ≤ q.uid := by
  by_cases h1 : st.updateFrame = frame
  · rw [processStar_skip rng t sp dr drh g frame st s h1]
    exact ⟨le_refl _, fun c => ⟨[], by simp, by simp⟩⟩
  · by_cases h2 : st.life - t ≤ 0
    · rw [processStar_dead rng t sp dr drh g frame st s h1 h2]
      have hext := extends_returnInstance rng
        { st with updateFrame := frame, life := st.life - t } s
      exact ⟨hext.2.2.1, hext.2.2.2.2⟩
    · cases h3 : starStepTarget t sp dr drh g frame st with
      | none =>
        rw [processStar_live_none rng t sp dr drh g frame st s h1 h2 h3]
        have hext := extends_sparkStep_state rng t
          (starMotion sp dr drh g { st with updateFrame := frame, life := st.life - t }) s
        exact ⟨hext.2.2.1, hext.2.2.2.2⟩
      | some tgt =>
        rw [processStar_live_some rng t sp dr drh g frame st s tgt h1 h2 h3]
        have hext := extends_sparkStep_state rng t
          (starMotion sp dr drh g { st with updateFrame := frame, life := st.life - t }) s
        exact ⟨hext.2.2.1, hext.2.2.2.2⟩

/-- The star loop over a snapshot appends only fresh sparks. -/
theorem starPassAux_sparkExt (rng : ℕ → ℝ) (t sp dr drh g : ℝ) (frame : ℕ) :
    ∀ (l : List StarP) (s : FwState),
      s.sparkNextUid ≤ (starPassAux rng t sp dr drh g frame l s).2.sparkNextUid ∧
      ∀ c, ∃ ap, (starPassAux rng t sp dr drh g frame l s).2.sparkActive c
        = s.sparkActive c ++ ap ∧ ∀ q ∈ ap, s.sparkNextUid ≤ q.uid := by
  intro l
  induction l with
  | nil => intro s; exact ⟨le_refl _, fun c => ⟨[], by simp [starPassAux], by simp⟩⟩
  | cons hd rest ih =>
    intro s
    obtain ⟨ih1, ih2⟩ := ih s
    obtain ⟨p1, p2⟩ := processStar_sparkExt rng t sp dr drh g frame hd
      (starPassAux rng t sp dr drh g frame rest s).2
    rw [starPassAux_cons]
    refine ⟨ih1.trans p1, ?_⟩
    intro c
    obtain ⟨ap1, e1, g1⟩ := ih2 c
    obtain ⟨ap2, e2, g2⟩ := p2 c
    refine ⟨ap1 ++ ap2, ?_, ?_⟩
    · rw [e2, e1, List.append_assoc]
    · intro q hq
      rcases List.mem_append.mp hq with h | h
      · exact g1 q h
      · exact ih1.trans (g2 q h)

/-- The star pass keeps the spark ghost-count of any older identity. -/
theorem starPass_sparkCount (rng : ℕ → ℝ) (t sp dr drh g : ℝ) (u : ℕ) (c : CKey)
    (s : FwState) (hu : u < s.sparkNextUid) :
    sparkUidCount u (starPass rng t sp dr drh g c s) = sparkUidCount u s ∧
    ∀ c', sparkUidCountIn u ((starPass rng t sp dr drh g c s).sparkActive c')
      = sparkUidCountIn u (s.sparkActive c') := by
  obtain ⟨e1, e2⟩ := starPassAux_sparkExt rng t sp dr drh g s.currentFrame
    (s.starActive c)
    { s with starActive := fun c'' => if c'' = c then [] else s.starActive c'' }
  have hc : ∀ c', sparkUidCountIn u ((starPass rng t sp dr drh g c s).sparkActive c')
      = sparkUidCountIn u (s.sparkActive c') := by
    intro c'
    obtain ⟨ap, e, gfresh⟩ := e2 c'
    show sparkUidCountIn u ((starPassAux rng t sp dr drh g s.currentFrame (s.starActive c)
      { s with starActive := fun c'' => if c'' = c then [] else s.starActive c'' }).2.sparkActive c') = _
    rw [e, sparkUidCountIn_append,
      sparkUidCountIn_zero_of_fresh u s.sparkNextUid ap hu (fun q hq => gfresh q hq)]
    show sparkUidCountIn u (s.sparkActive c') + 0 = sparkUidCountIn u (s.sparkActive c')
    omega
  refine ⟨?_, hc⟩
  rw [sparkUidCount_parts, sparkUidCount_parts, hc .Red, hc .Green, hc .Blue, hc .Purple,
    hc .Gold, hc .White, hc .Invisible]

/-- The spark loop keeps nothing carrying a ghost identity whose members
are all dead. -/
theorem sparkPassAux_kept_count (t sp d g : ℝ) (u : ℕ) :
    ∀ (l : List SparkP) (s : FwState),
      (∀ q ∈ l, q.uid = u → q.life - t ≤ 0) →
      sparkUidCountIn u (sparkPassAux t sp d g l s).1 = 0 := by
  intro l
  induction l with
  | nil => intro s _; rfl
  | cons hd rest ih =>
    intro s hl
    rw [sparkPassAux_cons]
    by_cases h2 : hd.life - t ≤ 0
    · rw [processSpark_dead _ _ _ _ _ _ h2]
      exact ih s (fun q h => hl q (List.mem_cons_of_mem _ h))
    · rw [processSpark_live _ _ _ _ _ _ h2]
      have hhd : hd.uid ≠ u := fun hq => h2 (hl hd (List.mem_cons_self _ _) hq)
      rw [sparkUidCountIn_cons]
      have : (sparkStepValue t sp d g hd).uid = hd.uid := rfl
      rw [this, if_neg hhd, ih s (fun q h => hl q (List.mem_cons_of_mem _ h))]

/-- The spark pass's lists, definitionally. -/
theorem sparkPass_active_eq (t sp d g : ℝ) (c : CKey) (s : FwState) (c' : CKey) :
    (sparkPass t sp d g c s).sparkActive c'
      = if c' = c
        then (sparkPassAux t sp d g (s.sparkActive c)
            { s with sparkActive := fun c'' => if c'' = c then [] else s.sparkActive c'' }).1
          ++ (sparkPassAux t sp d g (s.sparkActive c)
            { s with sparkActive := fun c'' => if c'' = c then [] else s.sparkActive c'' }).2.sparkActive c
        else (sparkPassAux t sp d g (s.sparkActive c)
            { s with sparkActive := fun c'' => if c'' = c then [] else s.sparkActive c'' }).2.sparkActive c' := rfl

/-- One color's spark pass removes exactly its own list's ghost-`u`
members, provided those are all dead. -/
theorem sparkPass_count (t sp d g : ℝ) (u : ℕ) (c : CKey) (s : FwState)
    (hl : ∀ q ∈ s.sparkActive c, q.uid = u → q.life - t ≤ 0) :
    sparkUidCount u (sparkPass t sp d g c s) + sparkUidCountIn u (s.sparkActive c)
      = sparkUidCount u s := by
  have haux := sparkPassAux_state t sp d g (s.sparkActive c)
    { s with sparkActive := fun c'' => if c'' = c then [] else s.sparkActive c'' }
  have hkept := sparkPassAux_kept_count t sp d g u (s.sparkActive c)
    { s with sparkActive := fun c'' => if c'' = c then [] else s.sparkActive c'' } hl
  have hc : ∀ c', sparkUidCountIn u ((sparkPass t sp d g c s).sparkActive c')
      = if c' = c then 0 else sparkUidCountIn u (s.sparkActive c') := by
    intro c'
    rw [sparkPass_active_eq]
    by_cases h : c' = c
    · rw [if_pos h, if_pos h, sparkUidCountIn_append, hkept, haux.2.1]
      show 0 + sparkUidCountIn u (if c = c then [] else s.sparkActive c) = 0
      rw [if_pos rfl]
      rfl
    · rw [if_neg h, if_neg h, haux.2.1]
      show sparkUidCountIn u (if c' = c then [] else s.sparkActive c') = _
      rw [if_neg h]
  rw [sparkUidCount_parts, sparkUidCount_parts, hc .Red, hc .Green, hc .Blue, hc .Purple,
    hc .Gold, hc .White, hc .Invisible]
  cases c <;> simp <;> omega

/-- One color's pass removes exactly its own list's ghost-`u` sparks,
provided those are all dead. -/
theorem colorPass_sparkCount (rng : ℕ → ℝ) (t sp : ℝ) (u : ℕ) (c : CKey) (s : FwState)
    (hu : u < s.sparkNextUid)
    (hl : ∀ q ∈ s.sparkActive c, q.uid = u → q.life - t ≤ 0) :
    sparkUidCount u (colorPass rng t sp c s) + sparkUidCountIn u (s.sparkActive c)
      = sparkUidCount u s := by
  unfold colorPass
  obtain ⟨hs1, hs2⟩ := starPass_sparkCount rng t sp (starDragAt sp) (starDragHeavyAt sp)
    (gAccAt t) u c s hu
  have hl' : ∀ q ∈ (starPass rng t sp (starDragAt sp) (starDragHeavyAt sp) (gAccAt t)
      c s).sparkActive c, q.uid = u → q.life - t ≤ 0 := by
    intro q hq hqu
    obtain ⟨ap, e, gfresh⟩ := (starPassAux_sparkExt rng t sp (starDragAt sp)
      (starDragHeavyAt sp) (gAccAt t) s.currentFrame (s.starActive c)
      { s with starActive := fun c'' => if c'' = c then [] else s.starActive c'' }).2 c
    have hq' : q ∈ s.sparkActive c ++ ap := by
      rw [← e]
      exact hq
    rcases List.mem_append.mp hq' with h | h
    · exact hl q h hqu
    · have hfresh : s.sparkNextUid ≤ q.uid := gfresh q h
      omega
  have hfin := sparkPass_count t sp (sparkDragAt sp) (gAccAt t) u c
    (starPass rng t sp (starDragAt sp) (starDragHeavyAt sp) (gAccAt t) c s) hl'
  rw [hs2 c, hs1] at hfin
  exact hfin

/-- Once the spark ghost identity is gone from every list, the fold keeps
it gone. -/
theorem foldColor_sparkCount_zero (rng : ℕ → ℝ) (t sp : ℝ) (u : ℕ) :
    ∀ (cs : List CKey) (s : FwState), u < s.sparkNextUid → sparkUidCount u s = 0 →
      sparkUidCount u (cs.foldl (fun s c => colorPass rng t sp c s) s) = 0 := by
  intro cs
  induction cs with
  | nil => intro s _ h; exact h
  | cons c rest ih =>
    intro s hu h
    rw [List.foldl_cons]
    have hin : sparkUidCountIn u (s.sparkActive c) = 0 := by
      have := sparkUidCountIn_le_total u c s
      omega
    have hl : ∀ q ∈ s.sparkActive c, q.uid = u → q.life - t ≤ 0 := by
      intro q hq hq'
      exact absurd hq' (sparkUidCountIn_zero_no_mem u _ hin q hq)
    have hc := colorPass_sparkCount rng t sp u c s hu hl
    refine ih (colorPass rng t sp c s) ?_ ?_
    · have := colorPass_sparkNextUid_le rng t sp c s
      omega
    · omega

/-- Processing the list of a uniquely-identified dead spark removes its
identity from the state; the rest of the fold keeps it removed. -/
theorem foldColor_sparkCount_dead (rng : ℕ → ℝ) (t sp : ℝ) (u : ℕ) (c₀ : CKey)
    (pk : SparkP) :
    ∀ (cs : List CKey) (s : FwState),
      u < s.sparkNextUid → sparkUidCount u s = 1 →
      pk ∈ s.sparkActive c₀ → pk.uid = u → pk.life - t ≤ 0 → c₀ ∈ cs →
      sparkUidCount u (cs.foldl (fun s c => colorPass rng t sp c s) s) = 0 := by
  intro cs
  induction cs with
  | nil => intro s _ _ _ _ _ hcs; cases hcs
  | cons c rest ih =>
    intro s hu hcount hmem huid hdead hcs
    rw [List.foldl_cons]
    by_cases hc : c = c₀
    · subst hc
      have hpos : 0 < sparkUidCountIn u (s.sparkActive c) :=
        sparkUidCountIn_pos_of_mem u pk _ hmem huid
      have hone : sparkUidCountIn u (s.sparkActive c) = 1 := by
        have := sparkUidCountIn_le_total u c s
        omega
      have hl : ∀ q ∈ s.sparkActive c, q.uid = u → q.life - t ≤ 0 := by
        intro q hq hq'
        have : q = pk := spark_uid_unique_eq u _ hone q pk hq hq' hmem huid
        rw [this]
        exact hdead
      have hcc := colorPass_sparkCount rng t sp u c s hu hl
      refine foldColor_sparkCount_zero rng t sp u rest (colorPass rng t sp c s) ?_ ?_
      · have := colorPass_sparkNextUid_le rng t sp c s
        omega
      · omega
    · have hpos : 0 < sparkUidCountIn u (s.sparkActive c₀) :=
        sparkUidCountIn_pos_of_mem u pk _ hmem huid
      have hzero : sparkUidCountIn u (s.sparkActive c) = 0 :=
        sparkUidCountIn_other_zero u c₀ c s hc hcount hpos
      have hl : ∀ q ∈ s.sparkActive c, q.uid = u → q.life - t ≤ 0 := by
        intro q hq hq'
        exact absurd hq' (sparkUidCountIn_zero_no_mem u _ hzero q hq)
      have hcc := colorPass_sparkCount rng t sp u c s hu hl
      have hcs' : c₀ ∈ rest := by
        rcases List.mem_cons.mp hcs with h | h
        · exact absurd h.symm hc
        · exact h
      refine ih (colorPass rng t sp c s) ?_ ?_ ?_ huid hdead hcs'
      · have := colorPass_sparkNextUid_le rng t sp c s
        omega
      · omega
      · exact colorPass_spark_other rng t sp c c₀ s pk (fun h => hc h.symm) hmem

/-- `updateFireworks` removes a uniquely-identified dead spark from every
active list. -/
theorem updateFireworks_spark_death (rng : ℕ → ℝ) (t sp : ℝ) (s : FwState) (c₀ : CKey)
    (pk : SparkP) (hb : sparkUidBound s) (hcount : sparkUidCount pk.uid s = 1)
    (hmem : pk ∈ s.sparkActive c₀) (hdead : pk.life - t ≤ 0) :
    sparkUidCount pk.uid (updateFireworks rng t sp s) = 0 := by
  exact foldColor_sparkCount_dead rng t sp pk.uid c₀ pk colorOrder
    { s with currentFrame := s.currentFrame + 1 } (hb c₀ pk hmem) hcount hmem rfl hdead
    (by cases c₀ <;> simp [colorOrder])

/-- C4: per `updateFireworks` call, every not-yet-stamped active star
whose life stays positive survives with its life decremented by
`frameTime` (strictly smaller when `frameTime > 0`), and every such star
whose life drops to or below `0` — uniquely identified among the active
stars — is removed from every per-color active list; likewise for active
sparks. -/
theorem life_decrease_and_death (rng : ℕ → ℝ) (t sp : ℝ) (s : FwState) :
    (∀ c₀ : CKey, ∀ st ∈ s.starActive c₀, st.updateFrame ≠ s.currentFrame + 1 →
      (¬ st.life - t ≤ 0 →
        ∃ c', ∃ v ∈ (updateFireworks rng t sp s).starActive c',
          v.uid = st.uid ∧ v.life = st.life - t ∧ (0 < t → v.life < st.life)) ∧
      (st.life - t ≤ 0 → uidBound s → starUidCount st.uid s = 1 →
        starUidCount st.uid (updateFireworks rng t sp s) = 0)) ∧
    (∀ c₀ : CKey, ∀ pk ∈ s.sparkActive c₀,
      (¬ pk.life - t ≤ 0 →
        ∃ v ∈ (updateFireworks rng t sp s).sparkActive c₀,
          v.uid = pk.uid ∧ v.life = pk.life - t ∧ (0 < t → v.life < pk.life)) ∧
      (pk.life - t ≤ 0 → sparkUidBound s → sparkUidCount pk.uid s = 1 →
        sparkUidCount pk.uid (updateFireworks rng t sp s) = 0)) := by
  constructor
  · intro c₀ st hmem hfr
    constructor
    · intro hlife
      obtain ⟨c', hv⟩ := updateFireworks_star_survivor rng t sp s c₀ st hmem hfr hlife
      refine ⟨c', starStepValue t sp (starDragAt sp) (starDragHeavyAt sp) (gAccAt t)
        (s.currentFrame + 1) st, hv, starStepValue_uid _ _ _ _ _ _ _,
        starStepValue_life _ _ _ _ _ _ _, ?_⟩
      intro ht
      rw [starStepValue_life]
      linarith
    · intro hdead hb hcount
      exact updateFireworks_star_death rng t sp s c₀ st hb hcount hmem hfr hdead
  · intro c₀ pk hmem
    constructor
    · intro hlife
      refine ⟨sparkStepValue t sp (sparkDragAt sp) (gAccAt t) pk,
        updateFireworks_spark_survivor rng t sp s c₀ pk hmem hlife, rfl, rfl, ?_⟩
      intro ht
      show pk.life - t < pk.life
      linarith
    · intro hdead hb hcount
      exact updateFireworks_spark_death rng t sp s c₀ pk hb hcount hmem hdead

/-- Witness for `life_decrease_and_death`: the sample star dies at
`frameTime = 1000` and its identity leaves every list; the sample spark
dies at `frameTime = 500` and its identity leaves every list. -/
theorem life_decrease_and_death_witness :
    starUidCount 0 (updateFireworks (fun _ => 1 / 2) 1000 1 sampleState) = 0 ∧
    sparkUidCount 0 (updateFireworks (fun _ => 1 / 2) 500 1 sparkSampleState) = 0 := by
  constructor
  · have h := ((life_decrease_and_death (fun _ => 1 / 2) 1000 1 sampleState).1 CKey.Red
      sampleStar (by simp [sampleState])
      (by simp [sampleStar, mkFreshStar, sampleState, emptyState])).2
      (by norm_num [sampleStar, mkFreshStar])
      (by
        intro c q hq
        cases c <;> simp [sampleState, emptyState] at hq
        · rw [hq]
          simp [sampleState, sampleStar, mkFreshStar])
      (by
        rw [starUidCount_parts]
        simp [sampleState, emptyState, uidCountIn, sampleStar, mkFreshStar])
    have huid : sampleStar.uid = 0 := rfl
    rw [huid] at h
    exact h
  · have h := ((life_decrease_and_death (fun _ => 1 / 2) 500 1 sparkSampleState).2 CKey.Red
      sampleSpark (by simp [sparkSampleState])).2
      (by norm_num [sampleSpark, mkFreshSpark])
      (by
        intro c q hq
        cases c <;> simp [sparkSampleState, emptyState] at hq
        · rw [hq]
          simp [sparkSampleState, sampleSpark, mkFreshSpark])
      (by
        rw [sparkUidCount_parts]
        simp [sparkSampleState, emptyState, sparkUidCountIn, sampleSpark, mkFreshSpark])
    have huid : sampleSpark.uid = 0 := rfl
    rw [huid] at h
    exact h

/-- C9: in each `updateFireworks(frameTime, speed)` step, every surviving
(spin-free, not-yet-stamped) star's position advances by `velocity·speed`,
each velocity component is then scaled by `1 − (1 − baseDrag)·speed` with
`baseDrag = airDragHeavy` for heavy stars and `airDrag` otherwise, and
`speedY` then gains `GRAVITY·frameTime/1000`; surviving sparks obey the
same formulas with the spark `airDrag`. -/
theorem integrator_motion (rng : ℕ → ℝ) (t sp : ℝ) (s : FwState) :
    (∀ c₀ : CKey, ∀ st ∈ s.starActive c₀, st.updateFrame ≠ s.currentFrame + 1 →
      ¬ st.life - t ≤ 0 → st.spinRadius = 0 →
      ∃ c', ∃ v ∈ (updateFireworks rng t sp s).starActive c',
        v.uid = st.uid ∧
        v.x = st.x + st.speedX * sp ∧
        v.y = st.y + st.speedY * sp ∧
        v.speedX = st.speedX
          * (1 - (1 - (if st.heavy then starAirDragHeavy else starAirDrag)) * sp) ∧
        v.speedY = st.speedY
          * (1 - (1 - (if st.heavy then starAirDragHeavy else starAirDrag)) * sp)
          + GRAVITY * t / 1000) ∧
    (∀ c₀ : CKey, ∀ pk ∈ s.sparkActive c₀, ¬ pk.life - t ≤ 0 →
      ∃ v ∈ (updateFireworks rng t sp s).sparkActive c₀,
        v.uid = pk.uid ∧
        v.x = pk.x + pk.speedX * sp ∧
        v.y = pk.y + pk.speedY * sp ∧
        v.speedX = pk.speedX * (1 - (1 - sparkAirDrag) * sp) ∧
        v.speedY = pk.speedY * (1 - (1 - sparkAirDrag) * sp) + GRAVITY * t / 1000) := by
  constructor
  · intro c₀ st hmem hfr hlife hspin
    obtain ⟨c', hv⟩ := updateFireworks_star_survivor rng t sp s c₀ st hmem hfr hlife
    refine ⟨c', starStepValue t sp (starDragAt sp) (starDragHeavyAt sp) (gAccAt t)
      (s.currentFrame + 1) st, hv, starStepValue_uid _ _ _ _ _ _ _,
      starStepValue_x _ _ _ _ _ _ _ hspin, starStepValue_y _ _ _ _ _ _ _ hspin, ?_, ?_⟩
    · rw [starStepValue_speedX _ _ _ _ _ _ _ hspin]
      by_cases hh : st.heavy
      · simp only [hh, if_true, starDragHeavyAt]
      · simp only [hh, if_false, Bool.false_eq_true, starDragAt]
    · rw [starStepValue_speedY _ _ _ _ _ _ _ hspin]
      by_cases hh : st.heavy
      · simp only [hh, if_true, starDragHeavyAt, gAccAt, GRAVITY]
        ring
      · simp only [hh, if_false, Bool.false_eq_true, starDragAt, gAccAt, GRAVITY]
        ring
  · intro c₀ pk hmem hlife
    refine ⟨sparkStepValue t sp (sparkDragAt sp) (gAccAt t) pk,
      updateFireworks_spark_survivor rng t sp s c₀ pk hmem hlife, rfl, rfl, rfl, rfl, ?_⟩
    show pk.speedY * sparkDragAt sp + gAccAt t = _
    unfold sparkDragAt gAccAt
    ring

/-- Witness for `integrator_motion` on the one-star sample state at
`frameTime = 16`, `speed = 1`. -/
theorem integrator_motion_witness :
    ∃ c', ∃ v ∈ (updateFireworks (fun _ => 1 / 2) 16 1 sampleState).starActive c',
      v.uid = sampleStar.uid ∧
      v.x = sampleStar.x + sampleStar.speedX * 1 ∧
      v.y = sampleStar.y + sampleStar.speedY * 1 ∧
      v.speedX = sampleStar.speedX
        * (1 - (1 - (if sampleStar.heavy then starAirDragHeavy else starAirDrag)) * 1) ∧
      v.speedY = sampleStar.speedY
        * (1 - (1 - (if sampleStar.heavy then starAirDragHeavy else starAirDrag)) * 1)
        + GRAVITY * 16 / 1000 :=
  (integrator_motion (fun _ => 1 / 2) 16 1 sampleState).1 CKey.Red sampleStar
    (by simp [sampleState])
    (by simp [sampleStar, mkFreshStar, sampleState, emptyState])
    (by norm_num [sampleStar, mkFreshStar])
    rfl

end Fireworks
